import Mathlib

/-!
# Concourse worker runtime: the containerd-backed `Container`

A shallow embedding of `worker/runtime/container.go`.

* Go strings are Lean `String`s; the regular expressions of the file are
  parsed from the same pattern text by `Regexp.MustCompile` and run by a small
  backtracking matcher that implements the constructs those patterns use.
* Every collaborator of `Container` (the containerd client, the killer, the
  rootfs manager, the I/O manager) is a record of answers; each call made by
  the code is recorded, in order, as an `Event` of the `Step` it returns, so
  that statements about what was or was not called are statements about
  `Step.trace`.
* A Go `error` is a `GoError`; a nil pointer is `none`, and dereferencing it
  ends the call with `Outcome.panicked`.
* A Go string is a sequence of bytes and a Lean `String` a sequence of
  characters; the two agree on the well-formed UTF-8 texts, which are the ones
  modelled.

The definitions come first: the data, the collaborators, the functions of
`container.go`, then the stages in which the lemmas describe
`setupContainerdProcSpec` and `Run`, and sample collaborators. The lemmas and
the theorems follow.
-/

set_option linter.dupNamespace false

namespace Concourse

/-! ## Regular expressions (the fragment of Go `regexp` syntax used here) -/

namespace Regexp

/-- One element of a parsed pattern. -/
inductive Node where
  /-- A literal character. -/
  | lit (c : Char)
  /-- The pattern `.*`: a greedy run of characters other than a line feed. -/
  | anyStar
  /-- The pattern `^`: beginning of text (no multi-line flag). -/
  | beginText
  /-- The pattern `$`: end of text (no multi-line flag). -/
  | endText
  deriving DecidableEq

/-- Parser for the syntax the patterns of `container.go` are written in:
literal characters, an escaped character, `.*`, `^` and `$`. -/
def parse : List Char → List Node
  | [] => []
  | '^' :: rest => Node.beginText :: parse rest
  | '$' :: rest => Node.endText :: parse rest
  | '.' :: '*' :: rest => Node.anyStar :: parse rest
  | '\\' :: c :: rest => Node.lit c :: parse rest
  | c :: rest => Node.lit c :: parse rest

/-- The Go call `regexp.MustCompile(pattern)`. -/
def MustCompile (pattern : String) : List Node :=
  parse pattern.data

/-- The loop of `.*`: the continuation `k` is tried after every run of
characters that holds no line feed; `k` is told whether it still stands at the
beginning of the text. -/
def starLoop (k : Bool → List Char → Bool) : Bool → List Char → Bool
  | atStart, [] => k atStart []
  | atStart, x :: s => k atStart (x :: s) || (x != '\n' && starLoop k false s)

/-- Does the pattern match some prefix of the text `s`? `atStart` tells whether
`s` begins at the beginning of the whole text. -/
def matchHere : List Node → Bool → List Char → Bool
  | [], _, _ => true
  | Node.lit c :: p, _, s =>
    match s with
    | [] => false
    | x :: s' => x == c && matchHere p false s'
  | Node.anyStar :: p, atStart, s => starLoop (fun a t => matchHere p a t) atStart s
  | Node.beginText :: p, atStart, s => atStart && matchHere p atStart s
  | Node.endText :: p, atStart, s => s.isEmpty && matchHere p atStart s

/-- Unanchored search: the pattern is tried at every position of the text. -/
def search (re : List Node) : Bool → List Char → Bool
  | atStart, [] => matchHere re atStart []
  | atStart, x :: s => matchHere re atStart (x :: s) || search re false s

/-- The Go method `(*Regexp).MatchString`: does the text contain a match? -/
def MatchString (re : List Node) (s : String) : Bool :=
  search re true s.data

/-- The nodes of a literal text. -/
def lits (l : List Char) : List Node :=
  l.map Node.lit

end Regexp

/-! ## Errors -/

/-- A Go `error` value, as far as `container.go` builds or inspects one. -/
inductive GoError where
  /-- An error handed back by a collaborator: its text, and whether
  `errdefs.IsNotFound` holds of it. -/
  | external (notFound : Bool) (message : String)
  /-- The Go value `fmt.Errorf(pfx + ": %w", inner)`. -/
  | wrapped (pfx : String) (inner : GoError)
  /-- The Go value `fmt.Errorf` of a format without `%w`, already rendered. -/
  | errorf (message : String)
  /-- The Go value `UserNotFoundError{User: User}`. -/
  | UserNotFoundError (User : String)
  /-- The Go value `garden.ExecutableNotFoundError{Message: Message}`. -/
  | ExecutableNotFoundError (Message : String)
  /-- The Go value `ErrInvalidInput(text)`. -/
  | ErrInvalidInput (text : String)
  /-- The Go value `ErrNotFound(text)`. -/
  | ErrNotFound (text : String)
  /-- The Go value `ErrNotImplemented`. -/
  | ErrNotImplemented
  deriving DecidableEq

namespace GoError

/-- Modelled from the spec: the text of `ErrInvalidInput(text)`, a type declared
outside `container.go`; the spec calls it the "invalid input" error. -/
def invalidInputText (text : String) : String :=
  "invalid input: " ++ text

/-- Modelled from the spec: the text of `ErrNotFound(text)`, a type declared
outside `container.go`; the spec calls it the "not found" error. -/
def notFoundText (text : String) : String :=
  "not found: " ++ text

/-- Modelled from the spec: the text of `ErrNotImplemented`, a value declared
outside `container.go`; the spec calls it the "not implemented" error. -/
def notImplementedText : String :=
  "not implemented"

/-- The Go method `Error()` of an error value. -/
def Error : GoError → String
  | external _ message => message
  | wrapped pfx inner => pfx ++ ": " ++ Error inner
  | errorf message => message
  | UserNotFoundError User =>
    "user '" ++ User ++ "' not found: no matching entries in /etc/passwd"
  | ExecutableNotFoundError Message => Message
  | ErrInvalidInput text => invalidInputText text
  | ErrNotFound text => notFoundText text
  | ErrNotImplemented => notImplementedText

/-- The test `errdefs.IsNotFound(err)`: it looks through `%w` wrapping. -/
def IsNotFound : GoError → Bool
  | external notFound _ => notFound
  | wrapped _ inner => IsNotFound inner
  | _ => false

end GoError

/-- How a call ends: with a value, with a Go `error`, or in a Go panic. -/
inductive Outcome (α : Type) where
  | ok (value : α)
  | error (err : GoError)
  | panicked (reason : GoError)
  deriving DecidableEq

/-- The run-time panic of dereferencing a nil pointer. -/
def nilDereference : GoError :=
  GoError.errorf "runtime error: invalid memory address or nil pointer dereference"

/-! ## Data of the OCI runtime spec, of garden and of the containerd client -/

namespace Specs

/-- The Go struct `specs.Box`. -/
structure Box where
  Height : Nat
  Width : Nat
  deriving DecidableEq

/-- The Go struct `specs.User` (the fields that identify the user). -/
structure User where
  UID : Nat
  GID : Nat
  Username : String
  deriving DecidableEq

/-- The Go struct `specs.Process` (the fields `container.go` reads or writes). -/
structure Process where
  Terminal : Bool
  ConsoleSize : Option Box
  User : User
  Args : List String
  Env : List String
  Cwd : String
  deriving DecidableEq

/-- The Go struct `specs.Root`. -/
structure Root where
  Path : String
  deriving DecidableEq

/-- The Go struct `specs.LinuxCPU`. -/
structure LinuxCPU where
  Shares : Option Nat
  deriving DecidableEq

/-- The Go struct `specs.LinuxMemory`. -/
structure LinuxMemory where
  Limit : Option Int
  deriving DecidableEq

/-- The Go struct `specs.LinuxResources`. -/
structure LinuxResources where
  Memory : Option LinuxMemory
  CPU : Option LinuxCPU
  deriving DecidableEq

/-- The Go struct `specs.Linux`. -/
structure Linux where
  Resources : Option LinuxResources
  deriving DecidableEq

/-- The Go struct `specs.Spec`; its pointer fields are options. -/
structure Spec where
  Process : Option Process
  Root : Option Root
  Linux : Option Linux
  deriving DecidableEq

end Specs

namespace Garden

/-- The Go struct `garden.WindowSize`; the code converts both fields with
`uint(...)`, and they are taken here as the unsigned values. -/
structure WindowSize where
  Columns : Nat
  Rows : Nat
  deriving DecidableEq

/-- The Go struct `garden.TTYSpec`. -/
structure TTYSpec where
  WindowSize : Option WindowSize
  deriving DecidableEq

/-- The Go struct `garden.ProcessSpec` (the fields `container.go` reads). -/
structure ProcessSpec where
  ID : String
  Path : String
  Args : List String
  Env : List String
  Dir : String
  User : String
  TTY : Option TTYSpec
  deriving DecidableEq

/-- A stream handed in by the caller (an `io.Reader` or `io.Writer`). -/
structure Stream where
  id : Nat
  deriving DecidableEq

/-- The Go struct `garden.ProcessIO`. -/
structure ProcessIO where
  Stdin : Option Stream
  Stdout : Option Stream
  Stderr : Option Stream
  deriving DecidableEq

/-- The Go type `garden.Properties`, a map from names to values, as the list
of its entries; `properties[name]` is `List.lookup name properties`. -/
abbrev Properties := List (String × String)

/-- The Go struct `garden.CPULimits`. -/
structure CPULimits where
  Weight : Nat
  LimitInShares : Nat
  deriving DecidableEq

/-- The Go struct `garden.MemoryLimits`. -/
structure MemoryLimits where
  LimitInBytes : Nat
  deriving DecidableEq

/-- The Go struct `garden.ContainerInfo` (some of its fields); `container.go`
only ever returns its zero value. -/
structure ContainerInfo where
  State : String
  Events : List String
  HostIP : String
  ContainerIP : String
  ExternalIP : String
  ContainerPath : String
  ProcessIDs : List String
  Properties : Properties
  deriving DecidableEq

/-- The zero value of `garden.ContainerInfo`. -/
def ContainerInfo.zero : ContainerInfo :=
  { State := "", Events := [], HostIP := "", ContainerIP := "", ExternalIP := "",
    ContainerPath := "", ProcessIDs := [], Properties := [] }

/-- The Go struct `garden.Metrics` (some of its fields, flattened);
`container.go` only ever returns its zero value. -/
structure Metrics where
  MemoryUsage : Nat
  CPUUsage : Nat
  DiskBytesUsed : Nat
  Pids : Nat
  Age : Int
  CPUEntitlement : Nat
  deriving DecidableEq

/-- The zero value of `garden.Metrics`. -/
def Metrics.zero : Metrics :=
  { MemoryUsage := 0, CPUUsage := 0, DiskBytesUsed := 0, Pids := 0, Age := 0,
    CPUEntitlement := 0 }

/-- The Go struct `garden.StreamInSpec`. -/
structure StreamInSpec where
  Path : String
  User : String
  TarStream : Option Stream
  deriving DecidableEq

/-- The Go struct `garden.StreamOutSpec`. -/
structure StreamOutSpec where
  Path : String
  User : String
  deriving DecidableEq

/-- The Go struct `garden.NetOutRule` (some of its fields). -/
structure NetOutRule where
  Protocol : Nat
  Ports : List (Nat × Nat)
  Log : Bool
  deriving DecidableEq

end Garden

namespace Cio

/-- A `cio.Opt`. -/
inductive Opt where
  | WithStreams (stdin stdout stderr : Option Garden.Stream)
  | WithTerminal
  deriving DecidableEq

/-- A `cio.Creator`. -/
inductive Creator where
  | NullIO
  | NewCreator (opts : List Opt)
  /-- A creator made by the I/O manager. -/
  | managed (id : Nat)
  deriving DecidableEq

/-- A `cio.Attach`. -/
inductive Attach where
  | Load
  | NewAttach (opts : List Opt)
  /-- An attach function made by the I/O manager. -/
  | managed (id : Nat)
  deriving DecidableEq

end Cio

namespace Containerd

/-- A `containerd.Task` handle. -/
structure Task where
  id : Nat
  deriving DecidableEq

/-- A `containerd.Process` handle. -/
structure Process where
  id : Nat
  deriving DecidableEq

/-- The channel of exit statuses that `Process.Wait` hands back. -/
structure ExitStatusC where
  id : Nat
  deriving DecidableEq

/-- A `containerd.NewTaskOpts`. -/
inductive NewTaskOpts where
  | WithNoNewKeyring
  deriving DecidableEq

/-- An `containerd.IOCloserOpts`. -/
inductive IOCloserOpts where
  | WithStdinCloser
  deriving DecidableEq

/-- The labels of a container, a Go `map[string]string`, as the list of its
entries. -/
abbrev Labels := List (String × String)

/-- The Go type `containerd.ProcessStatus`, a string. -/
abbrev ProcessStatus := String

/-- The Go constant `containerd.Running`. -/
def Running : ProcessStatus := "running"

/-- The Go struct `containerd.Status`. -/
structure Status where
  Status : ProcessStatus
  ExitStatus : Nat
  deriving DecidableEq

end Containerd

namespace Uuid

/-- A `uuid.UUID`, by its canonical text, which is 36 characters long. -/
structure UUID where
  text : String
  length_eq : text.length = 36

/-- The Go method `UUID.String`. -/
def UUID.String (uuid : UUID) : String :=
  uuid.text

end Uuid

/-- The kill policy handed to the `Killer`. -/
inductive KillBehaviour where
  | KillGracefully
  | KillUngracefully
  deriving DecidableEq

/-! ## Calls on collaborators -/

/-- One call made on a collaborator, with its arguments. -/
inductive Event where
  | ID
  | Spec
  | Task (attach : Option Cio.Attach)
  | NewTask (ioCreate : Cio.Creator) (opts : List Containerd.NewTaskOpts)
  | TaskStart (task : Containerd.Task)
  | Exec (task : Containerd.Task) (id : String) (spec : Specs.Process) (ioCreate : Cio.Creator)
  | LoadProcess (task : Containerd.Task) (id : String) (ioAttach : Cio.Attach)
  | Wait (proc : Containerd.Process)
  | Start (proc : Containerd.Process)
  | CloseIO (proc : Containerd.Process) (opts : List Containerd.IOCloserOpts)
  | Status (proc : Containerd.Process)
  | Kill (task : Containerd.Task) (behaviour : KillBehaviour)
  | LookupUser (rootfsPath username : String)
  | SetupCwd (rootfsPath cwd : String)
  | Creator (containerID processID : String) (creator : Cio.Creator)
  | Attach (containerID processID : String) (attach : Cio.Attach)
  | NewRandom
  | Labels
  | SetLabels (labels : Containerd.Labels)
  deriving DecidableEq

/-- A computation that calls collaborators: the calls made, in order, and how
it ended. -/
structure Step (α : Type) where
  trace : List Event
  out : Outcome α

namespace Step

/-- Sequencing: the second part runs only if the first ended with a value. -/
def bind {α β : Type} (x : Step α) (f : α → Step β) : Step β :=
  match x.out with
  | Outcome.ok a => ⟨x.trace ++ (f a).trace, (f a).out⟩
  | Outcome.error err => ⟨x.trace, Outcome.error err⟩
  | Outcome.panicked reason => ⟨x.trace, Outcome.panicked reason⟩

instance : Monad Step where
  pure a := ⟨[], Outcome.ok a⟩
  bind := Step.bind

/-- The Go statement `return ..., err`. -/
def fail {α : Type} (err : GoError) : Step α :=
  ⟨[], Outcome.error err⟩

/-- The Go statement `panic(reason)`, or a run-time panic. -/
def throwPanic {α : Type} (reason : GoError) : Step α :=
  ⟨[], Outcome.panicked reason⟩

/-- A call on a collaborator: it is recorded, and its answer is the value. -/
def call {α : Type} (ev : Event) (answer : α) : Step α :=
  ⟨[ev], Outcome.ok answer⟩

/-- Dereference of a pointer: a nil pointer panics. -/
def deref {α : Type} : Option α → Step α
  | some a => pure a
  | none => throwPanic nilDereference

end Step

/-! ## The collaborators of `Container` -/

namespace Containerd

/-- The answers of the containerd client for one container, and for the tasks
and processes reached from it. -/
structure Container where
  ID : String
  Spec : Except GoError (Option Specs.Spec)
  Task : Option Cio.Attach → Except GoError Containerd.Task
  NewTask : Cio.Creator → List Containerd.NewTaskOpts → Except GoError Containerd.Task
  TaskStart : Containerd.Task → Option GoError
  Exec : Containerd.Task → String → Specs.Process → Cio.Creator →
    Except GoError Containerd.Process
  LoadProcess : Containerd.Task → String → Cio.Attach → Except GoError Containerd.Process
  Wait : Containerd.Process → Except GoError Containerd.ExitStatusC
  Start : Containerd.Process → Option GoError
  CloseIO : Containerd.Process → List Containerd.IOCloserOpts → Option GoError
  Status : Containerd.Process → Except GoError Containerd.Status
  Labels : Except GoError Containerd.Labels
  SetLabels : Containerd.Labels → Except GoError Containerd.Labels

end Containerd

/-- The Go interface `Killer`. -/
structure Killer where
  Kill : Containerd.Task → KillBehaviour → Option GoError

/-- The Go interface `RootfsManager`. -/
structure RootfsManager where
  SetupCwd : String → String → Option GoError
  LookupUser : String → String → Specs.User × Bool × Option GoError

/-- The Go interface `IOManager`. -/
structure IOManager where
  Creator : String → String → Cio.Creator → Cio.Creator
  Attach : String → String → Cio.Attach → Cio.Attach

/-- The Go struct `Container`. -/
structure Container where
  container : Containerd.Container
  killer : Killer
  rootfsManager : RootfsManager
  ioManager : IOManager

/-- The Go value `NewProcess(proc, exitStatusC)`, a `garden.Process`. -/
structure Process where
  process : Containerd.Process
  exitStatusC : Containerd.ExitStatusC
  deriving DecidableEq

/-! ## Constants and patterns of `container.go` -/

def SuperuserPath : String := "PATH=/usr/local/sbin:/usr/local/bin:/usr/sbin:/usr/bin:/sbin:/bin"

def Path : String := "PATH=/usr/local/bin:/usr/bin:/bin"

def GraceTimeKey : String := "garden.grace-time"

def noSuchFile : List Regexp.Node :=
  Regexp.MustCompile
    "starting container process caused: exec: .*: stat .*: no such file or directory"

def executableNotFound : List Regexp.Node :=
  Regexp.MustCompile
    "starting container process caused: exec: .*: executable file not found in \\$PATH"

def pathRegexp : List Regexp.Node :=
  Regexp.MustCompile "^PATH=.*$"

/-- Set a default path based on the UID if no existing PATH is found. -/
def envWithDefaultPath (uid : Nat) (currentEnv : List String) : String :=
  let pathFound := currentEnv.any (Regexp.MatchString pathRegexp)
  if pathFound then
    ""
  else if uid = 0 then
    SuperuserPath
  else
    Path

/-- The Go function `containerdCIO`. -/
def containerdCIO ( gdnProcIO : Garden.ProcessIO) (tty : Bool) : List Cio.Opt :=
  if !tty then
    [Cio.Opt.WithStreams gdnProcIO.Stdin gdnProcIO.Stdout gdnProcIO.Stderr]
  else
    [Cio.Opt.WithStreams gdnProcIO.Stdin gdnProcIO.Stdout gdnProcIO.Stderr,
     Cio.Opt.WithTerminal]

/-- The Go function `isNoSuchExecutable`. -/
def isNoSuchExecutable (err : GoError) : Bool :=
  Regexp.MatchString noSuchFile err.Error || Regexp.MatchString executableNotFound err.Error

namespace Container

/-- The Go method `Container.Handle`. -/
def Handle (c : Container) : String :=
  c.container.ID

/-- The Go method `Container.setupContainerdProcSpec`. The container spec's
`Process` is a pointer, and so is its `Root`, which is read only when a user is
looked up. -/
def setupContainerdProcSpec (c : Container) (gdnProcSpec : Garden.ProcessSpec)
    (containerSpec : Specs.Spec) : Step Specs.Process := do
  let procSpec ← Step.deref containerSpec.Process
  let procSpec := { procSpec with Args := [gdnProcSpec.Path] ++ gdnProcSpec.Args }
  let procSpec := { procSpec with Env := procSpec.Env ++ gdnProcSpec.Env }
  let cwd := if gdnProcSpec.Dir = "" then "/" else gdnProcSpec.Dir
  let procSpec := { procSpec with Cwd := cwd }
  let procSpec :=
    match gdnProcSpec.TTY with
    | none => procSpec
    | some tty =>
      let procSpec := { procSpec with Terminal := true }
      match tty.WindowSize with
      | none => procSpec
      | some windowSize =>
        { procSpec with
          ConsoleSize := some { Width := windowSize.Columns, Height := windowSize.Rows } }
  let procSpec ←
    if gdnProcSpec.User ≠ "" then do
      let root ← Step.deref containerSpec.Root
      let (user, ok, err) ←
        Step.call (Event.LookupUser root.Path gdnProcSpec.User)
          (c.rootfsManager.LookupUser root.Path gdnProcSpec.User)
      let procSpec := { procSpec with User := user }
      match err with
      | some err => Step.fail (GoError.wrapped "lookup user" err)
      | none =>
        if !ok then
          Step.fail (GoError.UserNotFoundError gdnProcSpec.User)
        else
          let setUserEnv := "USER=" ++ gdnProcSpec.User
          pure { procSpec with Env := procSpec.Env ++ [setUserEnv] }
    else
      pure procSpec
  let pathEnv := envWithDefaultPath procSpec.User.UID procSpec.Env
  if pathEnv ≠ "" then
    pure { procSpec with Env := procSpec.Env ++ [pathEnv] }
  else
    pure procSpec

end Container

/-- The Go function `procID`; `newRandom` is what `uuid.NewRandom()` answers. -/
def procID (newRandom : Except GoError Uuid.UUID) (gdnProcSpec : Garden.ProcessSpec) :
    Step String :=
  let id := gdnProcSpec.ID
  if id = "" then do
    match ← Step.call Event.NewRandom newRandom with
    | Except.error err => Step.throwPanic (GoError.wrapped "uuid gen" err)
    | Except.ok uuid => pure uuid.String
  else
    pure id

namespace Container

/-- The Go method `Container.Stop`. -/
def Stop (c : Container) (kill : Bool) : Step Unit := do
  match ← Step.call (Event.Task (some Cio.Attach.Load)) (c.container.Task (some Cio.Attach.Load)) with
  | Except.error err => Step.fail (GoError.wrapped "task lookup" err)
  | Except.ok task =>
    let behaviour :=
      if kill then KillBehaviour.KillUngracefully else KillBehaviour.KillGracefully
    match ← Step.call (Event.Kill task behaviour) (c.killer.Kill task behaviour) with
    | some err => Step.fail (GoError.wrapped "kill" err)
    | none => pure ()

/-- The Go method `Container.Run`: run a process inside the container;
`newRandom` is what `uuid.NewRandom()` answers. -/
def Run (c : Container) (newRandom : Except GoError Uuid.UUID)
    (spec : Garden.ProcessSpec) ( processIO : Garden.ProcessIO) : Step Process := do
  match ← Step.call Event.Spec c.container.Spec with
  | Except.error err => Step.fail (GoError.wrapped "container spec" err)
  | Except.ok containerSpecPtr =>
    let containerSpec ← Step.deref containerSpecPtr
    let procSpec ← c.setupContainerdProcSpec spec containerSpec
    let root ← Step.deref containerSpec.Root
    match ← Step.call (Event.SetupCwd root.Path procSpec.Cwd)
        (c.rootfsManager.SetupCwd root.Path procSpec.Cwd) with
    | some err => Step.fail (GoError.wrapped "setup cwd" err)
    | none =>
      let task ←
        match ← Step.call (Event.Task none) (c.container.Task none) with
        | Except.error err =>
          if err.IsNotFound then
            match ← Step.call
                (Event.NewTask Cio.Creator.NullIO [Containerd.NewTaskOpts.WithNoNewKeyring])
                (c.container.NewTask Cio.Creator.NullIO
                  [Containerd.NewTaskOpts.WithNoNewKeyring]) with
            | Except.error err => Step.fail (GoError.wrapped "recreating init task" err)
            | Except.ok initTask =>
              match ← Step.call (Event.TaskStart initTask) (c.container.TaskStart initTask) with
              | some err => Step.fail (GoError.wrapped "restarting init task" err)
              | none => pure initTask
          else
            Step.fail (GoError.wrapped "task retrieval" err)
        | Except.ok task => pure task
      let id ← procID newRandom spec
      let cioOpts := containerdCIO processIO spec.TTY.isSome
      let handle ← Step.call Event.ID c.Handle
      let ioCreator ←
        Step.call (Event.Creator handle id (Cio.Creator.NewCreator cioOpts))
          (c.ioManager.Creator handle id (Cio.Creator.NewCreator cioOpts))
      match ← Step.call (Event.Exec task id procSpec ioCreator)
          (c.container.Exec task id procSpec ioCreator) with
      | Except.error err => Step.fail (GoError.wrapped "task exec" err)
      | Except.ok proc =>
        match ← Step.call (Event.Wait proc) (c.container.Wait proc) with
        | Except.error err => Step.fail (GoError.wrapped "proc wait" err)
        | Except.ok exitStatusC =>
          match ← Step.call (Event.Start proc) (c.container.Start proc) with
          | some err =>
            if isNoSuchExecutable err then
              Step.fail (GoError.ExecutableNotFoundError err.Error)
            else
              Step.fail (GoError.wrapped "proc start" err)
          | none =>
            if spec.TTY.isNone then
              match ← Step.call (Event.CloseIO proc [Containerd.IOCloserOpts.WithStdinCloser])
                  (c.container.CloseIO proc [Containerd.IOCloserOpts.WithStdinCloser]) with
              | some err => Step.fail (GoError.wrapped "proc closeio" err)
              | none => pure ⟨proc, exitStatusC⟩
            else
              pure ⟨proc, exitStatusC⟩

/-- The Go method `Container.Attach`. -/
def Attach (c : Container) (pid : String) ( processIO : Garden.ProcessIO) : Step Process := do
  if pid = "" then
    Step.fail (GoError.ErrInvalidInput "empty process id")
  else
    match ← Step.call (Event.Task (some Cio.Attach.Load))
        (c.container.Task (some Cio.Attach.Load)) with
    | Except.error err => Step.fail (GoError.wrapped "task attach" err)
    | Except.ok task =>
      let cioOpts := containerdCIO processIO false
      let handle ← Step.call Event.ID c.Handle
      let ioAttach ←
        Step.call (Event.Attach handle pid (Cio.Attach.NewAttach cioOpts))
          (c.ioManager.Attach handle pid (Cio.Attach.NewAttach cioOpts))
      match ← Step.call (Event.LoadProcess task pid ioAttach)
          (c.container.LoadProcess task pid ioAttach) with
      | Except.error err => Step.fail (GoError.wrapped "load proc" err)
      | Except.ok proc =>
        match ← Step.call (Event.Status proc) (c.container.Status proc) with
        | Except.error err => Step.fail (GoError.wrapped "proc status" err)
        | Except.ok status =>
          if status.Status ≠ Containerd.Running then
            Step.fail (GoError.errorf ("proc not running: status = " ++ status.Status))
          else
            match ← Step.call (Event.Wait proc) (c.container.Wait proc) with
            | Except.error err => Step.fail (GoError.wrapped "proc wait" err)
            | Except.ok exitStatusC => pure ⟨proc, exitStatusC⟩

end Container

/-! ## Properties, limits and the operations that are not implemented

These methods are modelled with the pair that the Go method returns, the value
and the error (`none` for nil), since what is returned beside an error matters
for them. -/

/-- The two functions of the package that translate between properties and
labels; they are declared outside `container.go` and are taken as given. -/
structure LabelCodec where
  labelsToProperties : Containerd.Labels → Garden.Properties
  propertiesToLabels : Garden.Properties → Except GoError Containerd.Labels

/-- The Go call `fmt.Sprintf("%d", n)` for an integer: its base-10 rendering,
with a minus sign when it is negative. -/
def sprintfD (n : Int) : String :=
  match n with
  | Int.ofNat m => Nat.repr m
  | Int.negSucc m => "-" ++ Nat.repr (m + 1)

/-- The Go conversion `uint64(n)` of a signed 64-bit integer. -/
def uint64OfInt64 (n : Int) : Nat :=
  (n % 2 ^ 64).toNat

set_option linter.unusedVariables false

namespace Container

/-- The Go method `Container.Properties`: the current set of properties. -/
def Properties (c : Container) (codec : LabelCodec) :
    Step (Garden.Properties × Option GoError) := do
  match ← Step.call Event.Labels c.container.Labels with
  | Except.error err => pure ([], some (GoError.wrapped "labels retrieval" err))
  | Except.ok labels => pure (codec.labelsToProperties labels, none)

/-- The Go method `Container.Property`: the value of the property with the
specified name. -/
def Property (c : Container) (codec : LabelCodec) (name : String) :
    Step (String × Option GoError) := do
  let (properties, err) ← c.Properties codec
  match err with
  | some err => pure ("", some err)
  | none =>
    match properties.lookup name with
    | none => pure ("", some (GoError.ErrNotFound name))
    | some v => pure (v, none)

/-- The Go method `Container.SetProperty`: set a named property on a container
to a specified value. -/
def SetProperty (c : Container) (codec : LabelCodec) (name : String) (value : String) :
    Step (Option GoError) := do
  match codec.propertiesToLabels [(name, value)] with
  | Except.error err => pure (some err)
  | Except.ok labelSet =>
    match ← Step.call (Event.SetLabels labelSet) (c.container.SetLabels labelSet) with
    | Except.error err => pure (some (GoError.wrapped "set label" err))
    | Except.ok _ => pure none

/-- The Go method `Container.RemoveProperty`: not implemented. -/
def RemoveProperty (c : Container) (name : String) : Step (Option GoError) :=
  pure (some GoError.ErrNotImplemented)

/-- The Go method `Container.Info`: not implemented. -/
def Info (c : Container) : Step (Garden.ContainerInfo × Option GoError) :=
  pure (Garden.ContainerInfo.zero, some GoError.ErrNotImplemented)

/-- The Go method `Container.Metrics`: not implemented. -/
def Metrics (c : Container) : Step (Garden.Metrics × Option GoError) :=
  pure (Garden.Metrics.zero, some GoError.ErrNotImplemented)

/-- The Go method `Container.StreamIn`: not implemented. -/
def StreamIn (c : Container) (spec : Garden.StreamInSpec) : Step (Option GoError) :=
  pure (some GoError.ErrNotImplemented)

/-- The Go method `Container.StreamOut`: not implemented; the read closer it
returns is nil. -/
def StreamOut (c : Container) (spec : Garden.StreamOutSpec) :
    Step (Option Garden.Stream × Option GoError) :=
  pure (none, some GoError.ErrNotImplemented)

/-- The Go method `Container.SetGraceTime`: stores the grace time, a
`time.Duration` (a count of nanoseconds), as a containerd label with key
"garden.grace-time". -/
def SetGraceTime (c : Container) (codec : LabelCodec) (graceTime : Int) :
    Step (Option GoError) := do
  match ← c.SetProperty codec GraceTimeKey (sprintfD graceTime) with
  | some err => pure (some (GoError.wrapped "set grace time" err))
  | none => pure none

/-- The Go method `Container.CurrentCPULimits`: the CPU shares allocated to the
container. -/
def CurrentCPULimits (c : Container) : Step (Garden.CPULimits × Option GoError) := do
  match ← Step.call Event.Spec c.container.Spec with
  | Except.error err => pure ({ Weight := 0, LimitInShares := 0 }, some err)
  | Except.ok spec =>
    match spec with
    | none => pure ({ Weight := 0, LimitInShares := 0 }, none)
    | some spec =>
      match spec.Linux with
      | none => pure ({ Weight := 0, LimitInShares := 0 }, none)
      | some linux =>
        match linux.Resources with
        | none => pure ({ Weight := 0, LimitInShares := 0 }, none)
        | some resources =>
          match resources.CPU with
          | none => pure ({ Weight := 0, LimitInShares := 0 }, none)
          | some cpu =>
            match cpu.Shares with
            | none => pure ({ Weight := 0, LimitInShares := 0 }, none)
            | some shares => pure ({ Weight := shares, LimitInShares := 0 }, none)

/-- The Go method `Container.CurrentMemoryLimits`: the memory limit in bytes
allocated to the container. -/
def CurrentMemoryLimits (c : Container) : Step (Garden.MemoryLimits × Option GoError) := do
  match ← Step.call Event.Spec c.container.Spec with
  | Except.error err => pure ({ LimitInBytes := 0 }, some err)
  | Except.ok spec =>
    match spec with
    | none => pure ({ LimitInBytes := 0 }, none)
    | some spec =>
      match spec.Linux with
      | none => pure ({ LimitInBytes := 0 }, none)
      | some linux =>
        match linux.Resources with
        | none => pure ({ LimitInBytes := 0 }, none)
        | some resources =>
          match resources.Memory with
          | none => pure ({ LimitInBytes := 0 }, none)
          | some memory =>
            match memory.Limit with
            | none => pure ({ LimitInBytes := 0 }, none)
            | some limit => pure ({ LimitInBytes := uint64OfInt64 limit }, none)

/-- The Go method `Container.NetIn`: not implemented. -/
def NetIn (c : Container) (hostPort containerPort : Nat) : Step (Nat × Nat × Option GoError) :=
  pure (0, 0, some GoError.ErrNotImplemented)

/-- The Go method `Container.NetOut`: not implemented. -/
def NetOut (c : Container) (netOutRule : Garden.NetOutRule) : Step (Option GoError) :=
  pure (some GoError.ErrNotImplemented)

/-- The Go method `Container.BulkNetOut`: not implemented. -/
def BulkNetOut (c : Container) (netOutRules : List Garden.NetOutRule) : Step (Option GoError) :=
  pure (some GoError.ErrNotImplemented)

end Container

set_option linter.unusedVariables true

/-- The chain `spec -> Linux -> Resources -> CPU -> Shares` of a container spec
pointer: the shares, or nothing if the pointer or any link of the chain is nil. -/
def cpuShares (spec : Option Specs.Spec) : Option Nat :=
  spec.bind fun s => s.Linux.bind fun l => l.Resources.bind fun r => r.CPU.bind fun cpu =>
    cpu.Shares

/-- The chain `spec -> Linux -> Resources -> Memory -> Limit` of a container
spec pointer: the limit, or nothing if the pointer or any link of the chain is
nil. -/
def memoryLimit (spec : Option Specs.Spec) : Option Int :=
  spec.bind fun s => s.Linux.bind fun l => l.Resources.bind fun r => r.Memory.bind fun m =>
    m.Limit

/-! ## The stages of `setupContainerdProcSpec` and of `Run`

The lemmas below describe the two methods stage by stage; the stages are named
here. -/

/-- The process spec before the user is resolved: the container's process with
the command line, the environment, the working directory and the terminal
settings of the garden spec. -/
def baseProcSpec (gdnProcSpec : Garden.ProcessSpec) (procSpec : Specs.Process) : Specs.Process :=
  { Terminal := if gdnProcSpec.TTY.isSome then true else procSpec.Terminal
    ConsoleSize :=
      match gdnProcSpec.TTY with
      | none => procSpec.ConsoleSize
      | some tty =>
        match tty.WindowSize with
        | none => procSpec.ConsoleSize
        | some windowSize => some { Width := windowSize.Columns, Height := windowSize.Rows }
    User := procSpec.User
    Args := gdnProcSpec.Path :: gdnProcSpec.Args
    Env := procSpec.Env ++ gdnProcSpec.Env
    Cwd := if gdnProcSpec.Dir = "" then "/" else gdnProcSpec.Dir }

/-- The process spec once the user has been found. -/
def withUser (gdnProcSpec : Garden.ProcessSpec) (user : Specs.User) (procSpec : Specs.Process) :
    Specs.Process :=
  { procSpec with User := user, Env := procSpec.Env ++ ["USER=" ++ gdnProcSpec.User] }

/-- The last step of the construction: the default PATH entry, if one is due. -/
def withDefaultPath (procSpec : Specs.Process) : Specs.Process :=
  if envWithDefaultPath procSpec.User.UID procSpec.Env = "" then procSpec
  else { procSpec with Env := procSpec.Env ++ [envWithDefaultPath procSpec.User.UID procSpec.Env] }

namespace Container

/-- The recovery branch of `Container.Run`: the task was not found, so the
init task is made again and started. -/
def recreateInitTask (c : Container) : Step Containerd.Task := do
  match ← Step.call (Event.NewTask Cio.Creator.NullIO [Containerd.NewTaskOpts.WithNoNewKeyring])
      (c.container.NewTask Cio.Creator.NullIO [Containerd.NewTaskOpts.WithNoNewKeyring]) with
  | Except.error err => Step.fail (GoError.wrapped "recreating init task" err)
  | Except.ok initTask =>
    match ← Step.call (Event.TaskStart initTask) (c.container.TaskStart initTask) with
    | some err => Step.fail (GoError.wrapped "restarting init task" err)
    | none => pure initTask

/-- The second half of `Container.Run`, which follows the task lookup: the
process is exec'd on `task`, waited on, started, and its stdin marked closable. -/
def runOnTask (c : Container) (newRandom : Except GoError Uuid.UUID)
    (spec : Garden.ProcessSpec) ( processIO : Garden.ProcessIO)
    (procSpec : Specs.Process) (task : Containerd.Task) : Step Process := do
  let id ← procID newRandom spec
  let cioOpts := containerdCIO processIO spec.TTY.isSome
  let handle ← Step.call Event.ID c.Handle
  let ioCreator ←
    Step.call (Event.Creator handle id (Cio.Creator.NewCreator cioOpts))
      (c.ioManager.Creator handle id (Cio.Creator.NewCreator cioOpts))
  match ← Step.call (Event.Exec task id procSpec ioCreator)
      (c.container.Exec task id procSpec ioCreator) with
  | Except.error err => Step.fail (GoError.wrapped "task exec" err)
  | Except.ok proc =>
    match ← Step.call (Event.Wait proc) (c.container.Wait proc) with
    | Except.error err => Step.fail (GoError.wrapped "proc wait" err)
    | Except.ok exitStatusC =>
      match ← Step.call (Event.Start proc) (c.container.Start proc) with
      | some err =>
        if isNoSuchExecutable err then
          Step.fail (GoError.ExecutableNotFoundError err.Error)
        else
          Step.fail (GoError.wrapped "proc start" err)
      | none =>
        if spec.TTY.isNone then
          match ← Step.call (Event.CloseIO proc [Containerd.IOCloserOpts.WithStdinCloser])
              (c.container.CloseIO proc [Containerd.IOCloserOpts.WithStdinCloser]) with
          | some err => Step.fail (GoError.wrapped "proc closeio" err)
          | none => pure ⟨proc, exitStatusC⟩
        else
          pure ⟨proc, exitStatusC⟩

/-- The first half of `Container.Run`, up to the task on which the process is
exec'd: the container spec, the process spec, the working directory, and the
task lookup with its recovery. -/
def prepare (c : Container) (spec : Garden.ProcessSpec) :
    Step (Specs.Process × Containerd.Task) := do
  match ← Step.call Event.Spec c.container.Spec with
  | Except.error err => Step.fail (GoError.wrapped "container spec" err)
  | Except.ok containerSpecPtr =>
    let containerSpec ← Step.deref containerSpecPtr
    let procSpec ← c.setupContainerdProcSpec spec containerSpec
    let root ← Step.deref containerSpec.Root
    match ← Step.call (Event.SetupCwd root.Path procSpec.Cwd)
        (c.rootfsManager.SetupCwd root.Path procSpec.Cwd) with
    | some err => Step.fail (GoError.wrapped "setup cwd" err)
    | none =>
      match ← Step.call (Event.Task none) (c.container.Task none) with
      | Except.error err =>
        if err.IsNotFound then do
          let initTask ← c.recreateInitTask
          pure (procSpec, initTask)
        else
          Step.fail (GoError.wrapped "task retrieval" err)
      | Except.ok task => pure (procSpec, task)

/-- The part of `Container.Run` that follows the choice of the process id. -/
def execProcess (c : Container) (spec : Garden.ProcessSpec) ( processIO : Garden.ProcessIO)
    (procSpec : Specs.Process) (task : Containerd.Task) (id : String) : Step Process := do
  let cioOpts := containerdCIO processIO spec.TTY.isSome
  let handle ← Step.call Event.ID c.Handle
  let ioCreator ←
    Step.call (Event.Creator handle id (Cio.Creator.NewCreator cioOpts))
      (c.ioManager.Creator handle id (Cio.Creator.NewCreator cioOpts))
  match ← Step.call (Event.Exec task id procSpec ioCreator)
      (c.container.Exec task id procSpec ioCreator) with
  | Except.error err => Step.fail (GoError.wrapped "task exec" err)
  | Except.ok proc =>
    match ← Step.call (Event.Wait proc) (c.container.Wait proc) with
    | Except.error err => Step.fail (GoError.wrapped "proc wait" err)
    | Except.ok exitStatusC =>
      match ← Step.call (Event.Start proc) (c.container.Start proc) with
      | some err =>
        if isNoSuchExecutable err then
          Step.fail (GoError.ExecutableNotFoundError err.Error)
        else
          Step.fail (GoError.wrapped "proc start" err)
      | none =>
        if spec.TTY.isNone then
          match ← Step.call (Event.CloseIO proc [Containerd.IOCloserOpts.WithStdinCloser])
              (c.container.CloseIO proc [Containerd.IOCloserOpts.WithStdinCloser]) with
          | some err => Step.fail (GoError.wrapped "proc closeio" err)
          | none => pure ⟨proc, exitStatusC⟩
        else
          pure ⟨proc, exitStatusC⟩

end Container

/-- The calls that `Container.Run` makes before it looks the task up. -/
def Event.beforeTask : Event → Bool
  | Event.Spec => true
  | Event.LookupUser _ _ => true
  | Event.SetupCwd _ _ => true
  | _ => false

/-- The calls that `Container.Run` makes before it exec's the process. -/
def Event.beforeExec : Event → Bool
  | Event.Spec => true
  | Event.LookupUser _ _ => true
  | Event.SetupCwd _ _ => true
  | Event.Task none => true
  | Event.NewTask _ _ => true
  | Event.TaskStart _ => true
  | Event.NewRandom => true
  | _ => false

/-! ## The build tracker

`atc/builds/tracker.go` is not among the sources, only its tests are
(`atc/builds/tracker_test.go`); the tracker is modelled from the
specification. Its concurrency is modelled by interleaving: the enrollment of
one build is one atomic step, and so is the exit of one execution. -/

namespace Builds

/-- Modelled from the spec: a build as the tracker sees it, by the `ID` and the
`ResourceID` of the Build contract (the type is declared outside the sources);
the ID is positive for a persisted build and zero for an in-memory one. -/
structure Build where
  ID : Int
  ResourceID : Int
  deriving DecidableEq

/-- Modelled from the spec: the status of a build. -/
inductive BuildStatus where
  | pending
  | started
  | succeeded
  | failed
  | errored
  | aborted
  deriving DecidableEq

/-- Modelled from the spec: the tracking key of a build, which the missing
`tracker.go` computes: the ID if it is non-zero, else the resource ID. -/
def trackingKey (b : Build) : Int :=
  if b.ID ≠ 0 then b.ID else b.ResourceID

/-- Modelled from the spec: the state of the missing `Tracker` and of what it
has spawned. `running` is the running set of tracking keys; `active` holds the
executions that were spawned and have not exited; `started` records every
execution ever started (`Engine.NewBuild(build)` and `Runnable.Run`), in order;
`finished` records the calls of `Finish` that the tracker makes; `channel` holds
the in-memory builds that are buffered in the channel. -/
structure Tracker where
  running : List Int
  active : List Build
  started : List Build
  finished : List (Build × BuildStatus)
  channel : List Build
  deriving DecidableEq

namespace Tracker

/-- Modelled from the spec: the missing `NewTracker`: nothing runs yet. -/
def init : Tracker :=
  { running := [], active := [], started := [], finished := [], channel := [] }

/-- Modelled from the spec: step 3 of the missing `Tracker.Run` for one
candidate, with the spawn of step 4: the key is tested and set in one atomic
step; if it was there the build is skipped, else its execution is started. -/
def enroll (t : Tracker) (b : Build) : Tracker :=
  if trackingKey b ∈ t.running then t
  else
    { t with
      running := trackingKey b :: t.running
      active := t.active ++ [b]
      started := t.started ++ [b] }

/-- Modelled from the spec: the missing `Tracker.Run`; `startedBuilds` is what
the Build Source answers to `GetAllStartedBuilds`. A failed query is the only
error; otherwise the buffered in-memory builds are drained and every candidate
is enrolled. -/
def Run (t : Tracker) (startedBuilds : Except GoError (List Build)) :
    Tracker × Option GoError :=
  match startedBuilds with
  | Except.error err => (t, some err)
  | Except.ok builds =>
    ((builds ++ t.channel).foldl enroll { t with channel := [] }, none)

/-- Modelled from the spec: the end of step 4 of the missing `Tracker.Run` for
an execution that returns: its key is removed from the running set. -/
def complete (t : Tracker) (b : Build) : Tracker :=
  if b ∈ t.active then
    { t with active := t.active.erase b, running := t.running.erase (trackingKey b) }
  else t

/-- Modelled from the spec: the end of step 4 of the missing `Tracker.Run` for
an execution that panics: the panic is caught, the build is finished as
"errored", and its key is removed from the running set. -/
def recoverPanic (t : Tracker) (b : Build) : Tracker :=
  if b ∈ t.active then
    { t with
      finished := t.finished ++ [(b, BuildStatus.errored)]
      active := t.active.erase b
      running := t.running.erase (trackingKey b) }
  else t

/-- Modelled from the spec: an in-memory build is delivered over the channel. -/
def send (t : Tracker) (b : Build) : Tracker :=
  { t with channel := t.channel ++ [b] }

end Tracker

/-- Modelled from the spec: what can happen to the missing tracker, one atomic
step at a time: a whole call of `Run`, the enrollment of one candidate (a step
of a call of `Run` that overlaps with others), the delivery of an in-memory
build, the return of an execution, the panic of an execution. -/
inductive Action where
  | run (startedBuilds : Except GoError (List Build))
  | enroll (b : Build)
  | send (b : Build)
  | complete (b : Build)
  | panic (b : Build)

/-- Modelled from the spec: one step of the missing tracker. -/
def Tracker.step (t : Tracker) : Action → Tracker
  | Action.run startedBuilds => (t.Run startedBuilds).1
  | Action.enroll b => t.enroll b
  | Action.send b => t.send b
  | Action.complete b => t.complete b
  | Action.panic b => t.recoverPanic b

/-- Modelled from the spec: the state of the missing tracker after a sequence
of steps from its creation. -/
def Tracker.after (actions : List Action) : Tracker :=
  actions.foldl Tracker.step Tracker.init

/-- The keys of the active executions are pairwise different and are the keys
of the running set. -/
def Tracker.Consistent (t : Tracker) : Prop :=
  (t.active.map trackingKey).Nodup ∧ t.running.Nodup ∧
    ∀ k, k ∈ t.running ↔ k ∈ t.active.map trackingKey

end Builds

/-! ## Sample collaborators -/

namespace Sample

/-- The process of a container spec that runs as root and defines no PATH. -/
def rootProcess : Specs.Process :=
  { Terminal := false
    ConsoleSize := none
    User := { UID := 0, GID := 0, Username := "root" }
    Args := ["/bin/sh"]
    Env := ["HOME=/root"]
    Cwd := "/" }

/-- A container spec with a process and a root filesystem. -/
def containerSpec : Specs.Spec :=
  { Process := some rootProcess, Root := some { Path := "/rootfs" }, Linux := none }

/-- A container spec whose image defines its own PATH. -/
def containerSpecWithPath : Specs.Spec :=
  { Process := some { rootProcess with Env := ["PATH=/custom/bin"] }
    Root := some { Path := "/rootfs" }
    Linux := none }

/-- A rootfs manager that knows the user `alice` and no other. -/
def rootfsManager : RootfsManager :=
  { SetupCwd := fun _ _ => none
    LookupUser := fun _ username =>
      if username = "alice" then ({ UID := 1000, GID := 1000, Username := "alice" }, true, none)
      else ({ UID := 0, GID := 0, Username := "" }, false, none) }

/-- A containerd client all of whose calls succeed. -/
def client : Containerd.Container :=
  { ID := "some-handle"
    Spec := Except.ok (some containerSpec)
    Task := fun _ => Except.ok { id := 1 }
    NewTask := fun _ _ => Except.ok { id := 2 }
    TaskStart := fun _ => none
    Exec := fun _ _ _ _ => Except.ok { id := 7 }
    LoadProcess := fun _ _ _ => Except.ok { id := 7 }
    Wait := fun _ => Except.ok { id := 9 }
    Start := fun _ => none
    CloseIO := fun _ _ => none
    Status := fun _ => Except.ok { Status := Containerd.Running, ExitStatus := 0 }
    Labels := Except.ok [("garden.grace-time", "300000000000"), ("empty", "")]
    SetLabels := fun labels => Except.ok labels }

/-- A container all of whose collaborators succeed. -/
def healthy : Container :=
  { container := client
    killer := { Kill := fun _ _ => none }
    rootfsManager := rootfsManager
    ioManager := { Creator := fun _ _ creator => creator, Attach := fun _ _ attach => attach } }

/-- A garden process spec without a user, a TTY or a PATH. -/
def spec : Garden.ProcessSpec :=
  { ID := "proc-1"
    Path := "/bin/ls"
    Args := ["-l"]
    Env := ["FOO=bar"]
    Dir := ""
    User := ""
    TTY := none }

/-- Process I/O without streams. -/
def processIO : Garden.ProcessIO :=
  { Stdin := none, Stdout := none, Stderr := none }

/-- What `uuid.NewRandom()` answers in the samples. -/
def newRandom : Except GoError Uuid.UUID :=
  Except.ok { text := "123e4567-e89b-42d3-a456-426614174000", length_eq := by decide }

/-- The error of a start whose executable is not on the PATH. -/
def startError : GoError :=
  GoError.external false
    "starting container process caused: exec: \"missing\": executable file not found in $PATH"

/-- A container whose exec'd processes fail to start, for want of the
executable. -/
def failingStart : Container :=
  { healthy with container := { client with Start := fun _ => some startError } }

/-- A garden process spec that asks for a TTY. -/
def ttySpec : Garden.ProcessSpec :=
  { spec with TTY := some { WindowSize := some { Columns := 80, Rows := 24 } } }

/-- The error of a task lookup after the containerd daemon lost the task. -/
def taskNotFound : GoError :=
  GoError.external true "no running task found: task some-handle not found: not found"

/-- A container whose task is gone and can be made again. -/
def lostTask : Container :=
  { healthy with container := { client with Task := fun _ => Except.error taskNotFound } }

/-- The error of a task lookup that fails for another reason. -/
def daemonDown : GoError :=
  GoError.external false "connection error: transport is closing"

/-- A container whose task lookup fails, and not for want of the task. -/
def unreachable : Container :=
  { healthy with container := { client with Task := fun _ => Except.error daemonDown } }

/-- A garden process spec that names the user `alice`, whom the rootfs knows. -/
def aliceSpec : Garden.ProcessSpec :=
  { spec with User := "alice" }

/-- A garden process spec that names the user `bob`, whom the rootfs does not
know. -/
def bobSpec : Garden.ProcessSpec :=
  { spec with User := "bob" }

/-- The error of a user lookup that cannot read the user database. -/
def passwdUnreadable : GoError :=
  GoError.external false "open /rootfs/etc/passwd: permission denied"

/-- A container whose rootfs user lookup fails. -/
def brokenLookup : Container :=
  { healthy with
    rootfsManager :=
      { rootfsManager with
        LookupUser := fun _ _ => ({ UID := 0, GID := 0, Username := "" }, false,
          some passwdUnreadable) } }

/-- A container whose process has stopped. -/
def stopped : Container :=
  { healthy with
    container :=
      { client with Status := fun _ => Except.ok { Status := "stopped", ExitStatus := 0 } } }

/-- The error of a kill that fails. -/
def killFailed : GoError :=
  GoError.external false "graceful kill: context deadline exceeded"

/-- A codec that keeps every property as one label. -/
def codec : LabelCodec :=
  { labelsToProperties := fun labels => labels
    propertiesToLabels := fun properties => Except.ok properties }

/-- The error of a label retrieval that fails. -/
def labelsUnavailable : GoError :=
  GoError.external false "container some-handle: not found"

/-- A container whose labels cannot be retrieved. -/
def noLabels : Container :=
  { healthy with container := { client with Labels := Except.error labelsUnavailable } }

/-- A container spec with 512 CPU shares and a memory limit of 1 GiB. -/
def limitedSpec : Specs.Spec :=
  { containerSpec with
    Linux := some
      { Resources := some
          { Memory := some { Limit := some 1073741824 }, CPU := some { Shares := some 512 } } } }

/-- A container with CPU and memory limits. -/
def limited : Container :=
  { healthy with container := { client with Spec := Except.ok (some limitedSpec) } }

/-- A container spec whose memory limit is -1, the runtime's "unlimited". -/
def unlimitedSpec : Specs.Spec :=
  { containerSpec with
    Linux := some { Resources := some { Memory := some { Limit := some (-1) }, CPU := none } } }

/-- A container whose memory is unlimited. -/
def unlimited : Container :=
  { healthy with container := { client with Spec := Except.ok (some unlimitedSpec) } }

/-- The error of a label update that fails. -/
def labelsReadOnly : GoError :=
  GoError.external false "container some-handle: update labels: unavailable"

/-- A container whose labels cannot be updated. -/
def readOnlyLabels : Container :=
  { healthy with
    container := { client with SetLabels := fun _ => Except.error labelsReadOnly } }

/-- A garden process spec that leaves the choice of the process id to `Run`. -/
def anonymousSpec : Garden.ProcessSpec :=
  { spec with ID := "" }

/-- The error of a working directory that cannot be set up. -/
def cwdFailed : GoError :=
  GoError.external false "mkdir /rootfs/work: read-only file system"

/-- A container whose working directories cannot be set up. -/
def brokenCwd : Container :=
  { healthy with
    rootfsManager := { rootfsManager with SetupCwd := fun _ _ => some cwdFailed } }

/-- A garden process spec with a working directory. -/
def workSpec : Garden.ProcessSpec :=
  { spec with Dir := "/work" }

/-- The error of a wait that fails. -/
def waitFailed : GoError :=
  GoError.external false "process proc-1: not found"

/-- A container whose exec'd processes cannot be waited on. -/
def failingWait : Container :=
  { healthy with container := { client with Wait := fun _ => Except.error waitFailed } }

/-- The error of a spec retrieval that fails. -/
def specUnavailable : GoError :=
  GoError.external false "container some-handle: spec: unavailable"

/-- A container whose spec cannot be retrieved. -/
def noSpec : Container :=
  { healthy with container := { client with Spec := Except.error specUnavailable } }

end Sample

namespace Builds

/-- Modelled from the spec: a call that the missing tracker makes on the
Engine when it drains; `Ctx` is the type of the contexts. -/
inductive EngineCall (Ctx : Type) where
  | Drain (ctx : Ctx)
  deriving DecidableEq

/-- Modelled from the spec: the missing `Tracker.Drain`, which delegates to
`Engine.Drain(ctx)`: the tracker that it leaves and the calls that it makes on
the Engine. -/
def Tracker.Drain {Ctx : Type} (t : Tracker) (ctx : Ctx) : Tracker × List (EngineCall Ctx) :=
  (t, [EngineCall.Drain ctx])

/-- Modelled from the spec: a step of the missing tracker, or a call of its
`Drain`. -/
inductive DrainAction (Ctx : Type) where
  | act (a : Action)
  | drain (ctx : Ctx)

/-- Modelled from the spec: one step of the missing tracker beside the calls
that the Engine has seen so far. -/
def Tracker.stepWithDrain {Ctx : Type} (s : Tracker × List (EngineCall Ctx)) :
    DrainAction Ctx → Tracker × List (EngineCall Ctx)
  | DrainAction.act a => (s.1.step a, s.2)
  | DrainAction.drain ctx => ((s.1.Drain ctx).1, s.2 ++ (s.1.Drain ctx).2)

/-- Modelled from the spec: the missing tracker and the calls that the Engine
has seen after a sequence of steps and drains. -/
def Tracker.afterWithDrain {Ctx : Type} (actions : List (DrainAction Ctx)) :
    Tracker × List (EngineCall Ctx) :=
  actions.foldl Tracker.stepWithDrain (Tracker.init, [])

/-- The steps of a sequence, without the drains. -/
def DrainAction.steps {Ctx : Type} : List (DrainAction Ctx) → List Action
  | [] => []
  | DrainAction.act a :: rest => a :: DrainAction.steps rest
  | DrainAction.drain _ :: rest => DrainAction.steps rest

/-- The contexts of the drains of a sequence, in order. -/
def DrainAction.drains {Ctx : Type} : List (DrainAction Ctx) → List Ctx
  | [] => []
  | DrainAction.act _ :: rest => DrainAction.drains rest
  | DrainAction.drain ctx :: rest => ctx :: DrainAction.drains rest

end Builds

/-! ## The secret cache (`atc/creds/cached_secrets.go`)

Instants are counts of nanoseconds since the Unix epoch and durations are
counts of nanoseconds, as in Go's `time` package. -/

/-- The Go conversion to `int64`, which wraps. -/
def int64OfInt (n : Int) : Int :=
  (n + 2 ^ 63) % 2 ^ 64 - 2 ^ 63

/-- The Go function `time.Until`, for the clock reading `now`: the duration
`t.Sub(now)`, which is the largest or the smallest duration when the difference
does not fit. -/
def timeUntil (t : Int) (now : Int) : Int :=
  if t - now > 2 ^ 63 - 1 then 2 ^ 63 - 1
  else if t - now < -2 ^ 63 then -2 ^ 63
  else t - now

namespace GoCache

/-- The constant `DefaultExpiration` of `github.com/patrickmn/go-cache`. -/
def DefaultExpiration : Int := 0

/-- The struct `Item` of go-cache: the object and the instant at which it
expires, 0 for never. -/
structure Item (α : Type) where
  Object : α
  Expiration : Int
  deriving DecidableEq

/-- The cache of go-cache: its default expiration and its items; the map of
items is a list of assignments, the latest first. -/
structure Cache (α : Type) where
  defaultExpiration : Int
  items : List (String × Item α)
  deriving DecidableEq

set_option linter.unusedVariables false in
/-- The function `New` of go-cache. The janitor that it starts deletes expired
items, which `Get` does not return anyway, and so is not modelled. -/
def New {α : Type} (defaultExpiration : Int) (cleanupInterval : Int) : Cache α :=
  { defaultExpiration := defaultExpiration, items := [] }

/-- The method `Get` of go-cache, for the clock reading `now`: the item of the
key, unless it has expired. -/
def Cache.Get {α : Type} (c : Cache α) (now : Int) (k : String) : Option α :=
  match c.items.lookup k with
  | none => none
  | some item =>
    if item.Expiration > 0 ∧ now > item.Expiration then none
    else some item.Object

/-- The method `Set` of go-cache, for the clock reading `now`: the item
replaces the one of the key; it expires after `d`, after the default
expiration if `d` is `DefaultExpiration`, and never if that is not positive. -/
def Cache.Set {α : Type} (c : Cache α) (now : Int) (k : String) (x : α) (d : Int) : Cache α :=
  let d := if d = DefaultExpiration then c.defaultExpiration else d
  let e := if d > 0 then int64OfInt (now + d) else 0
  { c with items := (k, { Object := x, Expiration := e }) :: c.items }

end GoCache

namespace Creds

/-- The Go struct `SecretCacheConfig`. -/
structure SecretCacheConfig where
  Enabled : Bool
  Duration : Int
  DurationNotFound : Int
  PurgeInterval : Int
  deriving DecidableEq

/-- The Go struct `CacheEntry`; a value of type `any` is nil or a `Value`, and
the expiration is a pointer to an instant. -/
structure CacheEntry (Value : Type) where
  value : Option Value
  expiration : Option Int
  found : Bool
  deriving DecidableEq

/-- The four results of a secret lookup: `(any, *time.Time, bool, error)`. -/
structure Lookup (Value : Type) where
  value : Option Value
  expiration : Option Int
  found : Bool
  err : Option GoError
  deriving DecidableEq

/-- The Go struct `CachedSecrets`. The field `secrets` holds what the
underlying secret manager answers to `GetWithParams(cs.secrets, secretPath,
context)`; `Params` is the type `SecretLookupParams`, which is declared outside
the sources. -/
structure CachedSecrets (Value Params : Type) where
  secrets : String → Params → Lookup Value
  cacheConfig : SecretCacheConfig
  cache : GoCache.Cache (CacheEntry Value)

/-- A call that `CachedSecrets` makes on its cache or on the underlying secret
manager. -/
inductive Call (Value Params : Type) where
  | CacheGet (k : String)
  | SecretsGet (secretPath : String) (context : Params)
  | CacheSet (k : String) (entry : CacheEntry Value) (d : Int)
  deriving DecidableEq

/-- The readings of the clock during one call of `GetWithParams`: by
`cache.Get`, by `time.Until` and by `cache.Set`. -/
structure Clock where
  atGet : Int
  atUntil : Int
  atSet : Int
  deriving DecidableEq

/-- How a call of `GetWithParams` ends: its four results, the cache that it
leaves, and the calls that it has made. -/
structure Result (Value Params : Type) where
  lookup : Lookup Value
  cache : GoCache.Cache (CacheEntry Value)
  calls : List (Call Value Params)

/-- The Go function `NewCachedSecrets`. -/
def NewCachedSecrets {Value Params : Type} (secrets : String → Params → Lookup Value)
    (cacheConfig : SecretCacheConfig) : CachedSecrets Value Params :=
  { secrets := secrets
    cacheConfig := cacheConfig
    cache := GoCache.New cacheConfig.Duration cacheConfig.PurgeInterval }

/-- The Go method `CachedSecrets.GetWithParams`. -/
def CachedSecrets.GetWithParams {Value Params : Type} (cs : CachedSecrets Value Params)
    (clock : Clock) (secretPath : String) (context : Params) : Result Value Params :=
  match cs.cache.Get clock.atGet secretPath with
  | some result =>
    { lookup :=
        { value := result.value, expiration := result.expiration, found := result.found,
          err := none }
      cache := cs.cache
      calls := [Call.CacheGet secretPath] }
  | none =>
    let answer := cs.secrets secretPath context
    match answer.err with
    | some err =>
      { lookup := { value := none, expiration := none, found := false, err := some err }
        cache := cs.cache
        calls := [Call.CacheGet secretPath, Call.SecretsGet secretPath context] }
    | none =>
      let entry : CacheEntry Value :=
        { value := answer.value, expiration := answer.expiration, found := answer.found }
      if answer.found then
        let duration := cs.cacheConfig.Duration
        let duration :=
          match answer.expiration with
          | some expiration =>
            let itemDuration := timeUntil expiration clock.atUntil
            if itemDuration < duration ∧ itemDuration > 0 then itemDuration else duration
          | none => duration
        { lookup :=
            { value := answer.value, expiration := answer.expiration, found := answer.found,
              err := none }
          cache := cs.cache.Set clock.atSet secretPath entry duration
          calls := [Call.CacheGet secretPath, Call.SecretsGet secretPath context,
            Call.CacheSet secretPath entry duration] }
      else
        { lookup :=
            { value := answer.value, expiration := answer.expiration, found := answer.found,
              err := none }
          cache := cs.cache.Set clock.atSet secretPath entry cs.cacheConfig.DurationNotFound
          calls := [Call.CacheGet secretPath, Call.SecretsGet secretPath context,
            Call.CacheSet secretPath entry cs.cacheConfig.DurationNotFound] }

/-- The Go method `CachedSecrets.Get`; `zero` is the zero value
`SecretLookupParams{}`. -/
def CachedSecrets.Get {Value Params : Type} (cs : CachedSecrets Value Params) (zero : Params)
    (clock : Clock) (secretPath : String) : Result Value Params :=
  cs.GetWithParams clock secretPath zero

end Creds

/-! ## Visible workers and the expiry of workers (`atc/db/worker_factory.go`) -/

namespace Db

/-- What the methods `Name`, `TeamID` and `TeamName` of a `Worker` answer. -/
structure Worker where
  Name : String
  TeamID : Int
  TeamName : String
  deriving DecidableEq

/-- What `WorkerCache.Workers` answers: a slice, which may be nil, and an
error. -/
structure WorkerCache where
  Workers : Option (List Worker) × Option GoError

/-- The Go struct `workerFactory`, without its database connection. -/
structure workerFactory where
  cache : WorkerCache

/-- The loop of the closure `isVisible` over the team names. -/
def isVisibleLoop (worker : Worker) : List String → Bool
  | [] => false
  | team :: rest => if worker.TeamName = team then true else isVisibleLoop worker rest

/-- The closure `isVisible` of `workerFactory.VisibleWorkers`. -/
def isVisible (teamNames : List String) (worker : Worker) : Bool :=
  if worker.TeamID = 0 then true
  else isVisibleLoop worker teamNames

/-- The loop of `workerFactory.VisibleWorkers` over the workers, from the
slice `visibleWorkers` on. -/
def visibleWorkersLoop (teamNames : List String) : List Worker → List Worker → List Worker
  | [], visibleWorkers => visibleWorkers
  | worker :: rest, visibleWorkers =>
    if isVisible teamNames worker then
      visibleWorkersLoop teamNames rest (visibleWorkers ++ [worker])
    else
      visibleWorkersLoop teamNames rest visibleWorkers

/-- The Go method `workerFactory.VisibleWorkers`; a nil slice is `none`, and
ranging over a nil slice is ranging over an empty one. -/
def workerFactory.VisibleWorkers (f : workerFactory) (teamNames : List String) :
    Option (List Worker) × Option GoError :=
  match f.cache.Workers with
  | (_, some err) => (none, some err)
  | (workers, none) => (some (visibleWorkersLoop teamNames (workers.getD []) []), none)

end Db

/-! ## Go's `float64`, as far as `time.Duration.Seconds` needs it

A finite `float64` has a significand of 53 binary digits; the results of the
operations are rounded to the nearest such value, ties to the even significand.
The exponents that occur here are far from the limits of the format, which are
not modelled. -/

/-- The number of binary digits of `n`, found by halving at most `fuel` times. -/
def bitLengthAux : Nat → Nat → Nat
  | 0, _ => 0
  | fuel + 1, n => if n = 0 then 0 else bitLengthAux fuel (n / 2) + 1

/-- The number of binary digits of `n`. -/
def bitLength (n : Nat) : Nat :=
  bitLengthAux n n

/-- A finite value of the Go type `float64`: `mant * 2 ^ exp`. -/
structure Float64 where
  mant : Int
  exp : Int
  deriving DecidableEq

namespace Float64

/-- The fraction `a / (den * 2 ^ p)`, as a numerator and a denominator. -/
def scaled (a den : Nat) (p : Int) : Nat × Nat :=
  if 0 ≤ p then (a, den * 2 ^ p.toNat) else (a * 2 ^ (-p).toNat, den)

/-- The exponent `p` at which the positive fraction `a / den` has a
significand of 53 digits: `2 ^ 52 ≤ a / (den * 2 ^ p) < 2 ^ 53`. -/
def exponent (a den : Nat) : Int :=
  let p : Int := (bitLength a : Int) - (bitLength den : Int) - 53
  if (scaled a den p).1 < 2 ^ 53 * (scaled a den p).2 then p else p + 1

/-- The integer nearest to `n / d`, the even one of two that are equally near. -/
def nearestEven (n d : Nat) : Nat :=
  if 2 * (n % d) < d then n / d
  else if d < 2 * (n % d) then n / d + 1
  else if (n / d) % 2 = 0 then n / d
  else n / d + 1

/-- The `float64` nearest to the fraction `num / den`. -/
def round (num : Int) (den : Nat) : Float64 :=
  if num = 0 then { mant := 0, exp := 0 }
  else
    let p := exponent num.natAbs den
    let m := nearestEven (scaled num.natAbs den p).1 (scaled num.natAbs den p).2
    { mant := if num < 0 then -(m : Int) else (m : Int), exp := p }

/-- The value of a `float64` as a fraction: a numerator and a denominator. -/
def toFrac (f : Float64) : Int × Nat :=
  if 0 ≤ f.exp then (f.mant * 2 ^ f.exp.toNat, 1) else (f.mant, 2 ^ (-f.exp).toNat)

/-- The Go conversion `float64(n)` of an integer. -/
def ofInt (n : Int) : Float64 :=
  round n 1

/-- The Go operation `f + g` on `float64`. -/
def add (f g : Float64) : Float64 :=
  round ((toFrac f).1 * (toFrac g).2 + (toFrac g).1 * (toFrac f).2)
    ((toFrac f).2 * (toFrac g).2)

/-- The Go operation `f / g` on `float64`, for `g` other than zero. -/
def div (f g : Float64) : Float64 :=
  round ((toFrac f).1 * (toFrac g).2 * (toFrac g).1.sign) ((toFrac f).2 * (toFrac g).1.natAbs)

/-- The Go conversion `int(f)`, which discards the fraction. -/
def toInt (f : Float64) : Int :=
  Int.tdiv (toFrac f).1 (toFrac f).2

/-- The value of a `float64` as a rational number. -/
def toRat (f : Float64) : ℚ :=
  f.mant * (2 : ℚ) ^ f.exp

/-- The `float64` of the opposite value. -/
def neg (f : Float64) : Float64 :=
  { mant := -f.mant, exp := f.exp }

end Float64

/-- The Go constant `time.Second`, a count of nanoseconds. -/
def Second : Int := 1000000000

/-- The Go method `time.Duration.Seconds`. -/
def Seconds (d : Int) : Float64 :=
  let sec := Int.tdiv d Second
  let nsec := Int.tmod d Second
  Float64.add (Float64.ofInt sec) (Float64.div (Float64.ofInt nsec) (Float64.ofInt 1000000000))

namespace Db

/-- The value of the variable `expires` in `saveWorker` and in
`workerFactory.HeartbeatWorker`, which compute it from `ttl` by the same
statements. -/
def expires (ttl : Int) : String :=
  let expires := "NULL"
  if ttl ≠ 0 then
    "NOW() + '" ++ sprintfD (Float64.toInt (Seconds ttl)) ++ " second'::INTERVAL"
  else
    expires

end Db

/-! ## Samples for the secret cache and for the worker factory -/

namespace CredsSample

/-- A secret manager that knows the secret `/concourse/main/token`, which
expires at the instant 2000, fails on `/concourse/main/broken`, and does not
find anything else. -/
def secrets : String → Unit → Creds.Lookup String := fun secretPath _ =>
  if secretPath = "/concourse/main/token" then
    { value := some "s3cr3t", expiration := some 2000, found := true, err := none }
  else if secretPath = "/concourse/main/broken" then
    { value := none, expiration := none, found := false,
      err := some (GoError.external false "vault: connection refused") }
  else
    { value := none, expiration := none, found := false, err := none }

/-- A cache configuration: secrets for 5000 ns, what is not found for 100 ns. -/
def cacheConfig : Creds.SecretCacheConfig :=
  { Enabled := true, Duration := 5000, DurationNotFound := 100, PurgeInterval := 600 }

/-- Cached secrets with an empty cache. -/
def cachedSecrets : Creds.CachedSecrets String Unit :=
  Creds.NewCachedSecrets secrets cacheConfig

/-- A call of `GetWithParams` at the instant 1000. -/
def clock : Creds.Clock :=
  { atGet := 1000, atUntil := 1000, atSet := 1000 }

/-- A later call, at the instant 1050. -/
def later : Creds.Clock :=
  { atGet := 1050, atUntil := 1050, atSet := 1050 }

end CredsSample

namespace DbSample

/-- Three workers: one of no team, one of the team `main`, one of the team
`other`. -/
def workers : List Db.Worker :=
  [{ Name := "shared", TeamID := 0, TeamName := "" },
   { Name := "w-main", TeamID := 1, TeamName := "main" },
   { Name := "w-other", TeamID := 2, TeamName := "other" }]

/-- A worker factory whose cache answers with the three workers. -/
def factory : Db.workerFactory :=
  { cache := { Workers := (some workers, none) } }

/-- A worker factory whose cache fails. -/
def broken : Db.workerFactory :=
  { cache := { Workers := (none, some (GoError.external false "cache: refresh failed")) } }

end DbSample

/-! ## The matcher, in terms of the shape of the text -/

namespace Regexp

theorem starLoop_iff (k : Bool → List Char → Bool) (a : Bool) (s : List Char) :
    starLoop k a s = true ↔
      ∃ u v, s = u ++ v ∧ '\n' ∉ u ∧ k (a && u.isEmpty) v = true := by
  induction s generalizing a with
  | nil =>
    simp only [starLoop]
    constructor
    · intro h
      exact ⟨[], [], rfl, by simp, by simpa using h⟩
    · rintro ⟨u, v, h, -, hk⟩
      have hu : u = [] := by
        cases u with
        | nil => rfl
        | cons x u => simp at h
      have hv : v = [] := by
        subst hu
        simpa using h.symm
      subst hu hv
      simpa using hk
  | cons x s ih =>
    simp only [starLoop, Bool.or_eq_true, Bool.and_eq_true, bne_iff_ne, ne_eq, ih]
    constructor
    · rintro (h | ⟨hx, u, v, hs, hu, hk⟩)
      · exact ⟨[], x :: s, rfl, by simp, by simpa using h⟩
      · refine ⟨x :: u, v, by simp [hs], ?_, by simpa using hk⟩
        simp only [List.mem_cons, not_or]
        exact ⟨fun h => hx h.symm, hu⟩
    · rintro ⟨u, v, hs, hu, hk⟩
      cases u with
      | nil =>
        left
        simp only [List.nil_append] at hs
        subst hs
        simpa using hk
      | cons y u =>
        right
        simp only [List.cons_append, List.cons.injEq] at hs
        obtain ⟨rfl, rfl⟩ := hs
        simp only [List.mem_cons, not_or] at hu
        exact ⟨fun h => hu.1 h.symm, u, v, rfl, hu.2, by simpa using hk⟩

theorem matchHere_lit (c : Char) (p : List Node) (a : Bool) (s : List Char) :
    matchHere (Node.lit c :: p) a s = true ↔
      ∃ t, s = c :: t ∧ matchHere p false t = true := by
  cases s with
  | nil => simp [matchHere]
  | cons x s =>
    simp only [matchHere, Bool.and_eq_true, beq_iff_eq, List.cons.injEq]
    constructor
    · rintro ⟨rfl, h⟩
      exact ⟨s, ⟨rfl, rfl⟩, h⟩
    · rintro ⟨t, ⟨rfl, rfl⟩, h⟩
      exact ⟨rfl, h⟩

theorem matchHere_lits (l : List Char) (p : List Node) (a : Bool) (s : List Char) :
    matchHere (lits l ++ p) a s = true ↔
      ∃ t, s = l ++ t ∧ matchHere p (a && l.isEmpty) t = true := by
  induction l generalizing a s with
  | nil => simp [lits]
  | cons c l ih =>
    show matchHere (Node.lit c :: (lits l ++ p)) a s = true ↔ _
    rw [matchHere_lit]
    constructor
    · rintro ⟨t, rfl, h⟩
      obtain ⟨t', rfl, h'⟩ := (ih false t).1 h
      exact ⟨t', rfl, by simpa using h'⟩
    · rintro ⟨t, rfl, h⟩
      exact ⟨l ++ t, rfl, (ih false (l ++ t)).2 ⟨t, rfl, by simpa using h⟩⟩

theorem matchHere_anyStar (p : List Node) (a : Bool) (s : List Char) :
    matchHere (Node.anyStar :: p) a s = true ↔
      ∃ u v, s = u ++ v ∧ '\n' ∉ u ∧ matchHere p (a && u.isEmpty) v = true := by
  rw [matchHere, starLoop_iff]

theorem matchHere_beginText (p : List Node) (a : Bool) (s : List Char) :
    matchHere (Node.beginText :: p) a s = true ↔ a = true ∧ matchHere p a s = true := by
  rw [matchHere, Bool.and_eq_true]

theorem matchHere_endText (p : List Node) (a : Bool) (s : List Char) :
    matchHere (Node.endText :: p) a s = true ↔ s = [] ∧ matchHere p a s = true := by
  rw [matchHere, Bool.and_eq_true, List.isEmpty_iff]

theorem search_iff (re : List Node) (a : Bool) (s : List Char) :
    search re a s = true ↔
      ∃ u v, s = u ++ v ∧ matchHere re (a && u.isEmpty) v = true := by
  induction s generalizing a with
  | nil =>
    simp only [search]
    constructor
    · intro h
      exact ⟨[], [], rfl, by simpa using h⟩
    · rintro ⟨u, v, h, hk⟩
      have hu : u = [] := by
        cases u with
        | nil => rfl
        | cons x u => simp at h
      have hv : v = [] := by
        subst hu
        simpa using h.symm
      subst hu hv
      simpa using hk
  | cons x s ih =>
    simp only [search, Bool.or_eq_true, ih]
    constructor
    · rintro (h | ⟨u, v, hs, hk⟩)
      · exact ⟨[], x :: s, rfl, by simpa using h⟩
      · exact ⟨x :: u, v, by simp [hs], by simpa using hk⟩
    · rintro ⟨u, v, hs, hk⟩
      cases u with
      | nil =>
        left
        simp only [List.nil_append] at hs
        subst hs
        simpa using hk
      | cons y u =>
        right
        simp only [List.cons_append, List.cons.injEq] at hs
        obtain ⟨rfl, rfl⟩ := hs
        exact ⟨u, v, rfl, by simpa using hk⟩

/-- A pattern `^` literal `.*` `$` accepts the texts that begin with the
literal and hold no line feed after it. -/
theorem search_anchored_lits (l : List Char) (s : List Char) :
    search (Node.beginText :: (lits l ++ [Node.anyStar, Node.endText])) true s = true ↔
      ∃ v, s = l ++ v ∧ '\n' ∉ v := by
  rw [search_iff]
  constructor
  · rintro ⟨u, v, rfl, h⟩
    rw [matchHere_beginText] at h
    obtain ⟨hu, h⟩ := h
    simp only [Bool.true_and, List.isEmpty_iff] at hu
    subst hu
    rw [matchHere_lits] at h
    obtain ⟨t, rfl, h⟩ := h
    rw [matchHere_anyStar] at h
    obtain ⟨u', v', rfl, hn, h⟩ := h
    rw [matchHere_endText] at h
    obtain ⟨rfl, -⟩ := h
    exact ⟨u', by simp, hn⟩
  · rintro ⟨v, rfl, hn⟩
    refine ⟨[], l ++ v, rfl, ?_⟩
    rw [matchHere_beginText]
    refine ⟨rfl, ?_⟩
    rw [matchHere_lits]
    refine ⟨v, rfl, ?_⟩
    rw [matchHere_anyStar]
    refine ⟨v, [], by simp, hn, ?_⟩
    rw [matchHere_endText]
    exact ⟨rfl, rfl⟩

/-- A pattern literal `.*` literal accepts the texts that hold the first
literal, then a run without line feed, then the second literal. -/
theorem search_lits_star_lits (A D : List Char) (s : List Char) :
    search (lits A ++ (Node.anyStar :: (lits D ++ []))) true s = true ↔
      ∃ pre a post, s = pre ++ (A ++ (a ++ (D ++ post))) ∧ '\n' ∉ a := by
  rw [search_iff]
  constructor
  · rintro ⟨pre, v, rfl, h⟩
    rw [matchHere_lits] at h
    obtain ⟨t, rfl, h⟩ := h
    rw [matchHere_anyStar] at h
    obtain ⟨a, v', rfl, ha, h⟩ := h
    rw [matchHere_lits] at h
    obtain ⟨post, rfl, -⟩ := h
    exact ⟨pre, a, post, rfl, ha⟩
  · rintro ⟨pre, a, post, rfl, ha⟩
    refine ⟨pre, _, rfl, ?_⟩
    rw [matchHere_lits]
    refine ⟨_, rfl, ?_⟩
    rw [matchHere_anyStar]
    refine ⟨a, _, rfl, ha, ?_⟩
    rw [matchHere_lits]
    exact ⟨post, rfl, rfl⟩

/-- A pattern literal `.*` literal `.*` literal accepts the texts that hold the
three literals in order, with runs without line feed between them. -/
theorem search_lits_star_lits_star_lits (A B C : List Char) (s : List Char) :
    search (lits A ++ (Node.anyStar :: (lits B ++ (Node.anyStar :: (lits C ++ []))))) true s =
        true ↔
      ∃ pre a b post, s = pre ++ (A ++ (a ++ (B ++ (b ++ (C ++ post))))) ∧
        '\n' ∉ a ∧ '\n' ∉ b := by
  rw [search_iff]
  constructor
  · rintro ⟨pre, v, rfl, h⟩
    rw [matchHere_lits] at h
    obtain ⟨t, rfl, h⟩ := h
    rw [matchHere_anyStar] at h
    obtain ⟨a, v', rfl, ha, h⟩ := h
    rw [matchHere_lits] at h
    obtain ⟨t', rfl, h⟩ := h
    rw [matchHere_anyStar] at h
    obtain ⟨b, v'', rfl, hb, h⟩ := h
    rw [matchHere_lits] at h
    obtain ⟨post, rfl, -⟩ := h
    exact ⟨pre, a, b, post, rfl, ha, hb⟩
  · rintro ⟨pre, a, b, post, rfl, ha, hb⟩
    refine ⟨pre, _, rfl, ?_⟩
    rw [matchHere_lits]
    refine ⟨_, rfl, ?_⟩
    rw [matchHere_anyStar]
    refine ⟨a, _, rfl, ha, ?_⟩
    rw [matchHere_lits]
    refine ⟨_, rfl, ?_⟩
    rw [matchHere_anyStar]
    refine ⟨b, _, rfl, hb, ?_⟩
    rw [matchHere_lits]
    exact ⟨post, rfl, rfl⟩

end Regexp

theorem pathRegexp_eq :
    pathRegexp = Regexp.Node.beginText ::
      (Regexp.lits "PATH=".data ++ [Regexp.Node.anyStar, Regexp.Node.endText]) := by
  decide

/-- What `pathRegexp` accepts: the texts that begin with `PATH=` and hold no
line feed after it. -/
theorem pathRegexp_MatchString_iff (s : String) :
    Regexp.MatchString pathRegexp s = true ↔
      ∃ v, s.data = "PATH=".data ++ v ∧ '\n' ∉ v := by
  unfold Regexp.MatchString
  rw [pathRegexp_eq, Regexp.search_anchored_lits]

theorem noSuchFile_eq :
    noSuchFile =
      Regexp.lits "starting container process caused: exec: ".data ++
        (Regexp.Node.anyStar :: (Regexp.lits ": stat ".data ++
          (Regexp.Node.anyStar :: (Regexp.lits ": no such file or directory".data ++ [])))) := by
  decide

/-- What `noSuchFile` accepts: the texts that hold, anywhere,
"starting container process caused: exec: ", then ": stat ", then
": no such file or directory", with no line feed between the three. -/
theorem noSuchFile_MatchString_iff (s : String) :
    Regexp.MatchString noSuchFile s = true ↔
      ∃ pre a b post,
        s.data = pre ++ ("starting container process caused: exec: ".data ++
          (a ++ (": stat ".data ++ (b ++ (": no such file or directory".data ++ post))))) ∧
        '\n' ∉ a ∧ '\n' ∉ b := by
  unfold Regexp.MatchString
  rw [noSuchFile_eq, Regexp.search_lits_star_lits_star_lits]

theorem executableNotFound_eq :
    executableNotFound =
      Regexp.lits "starting container process caused: exec: ".data ++
        (Regexp.Node.anyStar ::
          (Regexp.lits ": executable file not found in $PATH".data ++ [])) := by
  decide

/-- What `executableNotFound` accepts: the texts that hold, anywhere,
"starting container process caused: exec: " and then
": executable file not found in $PATH", with no line feed between the two. -/
theorem executableNotFound_MatchString_iff (s : String) :
    Regexp.MatchString executableNotFound s = true ↔
      ∃ pre a post,
        s.data = pre ++ ("starting container process caused: exec: ".data ++
          (a ++ (": executable file not found in $PATH".data ++ post))) ∧
        '\n' ∉ a := by
  unfold Regexp.MatchString
  rw [executableNotFound_eq, Regexp.search_lits_star_lits]

/-- An environment with an entry `PATH=<value>`, the value without line feed,
gets no default PATH. -/
theorem envWithDefaultPath_of_path_entry (uid : Nat) (env : List String) (value : String)
    (hmem : "PATH=" ++ value ∈ env) (hvalue : '\n' ∉ value.data) :
    envWithDefaultPath uid env = "" := by
  have hm : Regexp.MatchString pathRegexp ("PATH=" ++ value) = true :=
    (pathRegexp_MatchString_iff _).2 ⟨value.data, by simp [String.data_append], hvalue⟩
  have : env.any (Regexp.MatchString pathRegexp) = true :=
    List.any_eq_true.2 ⟨_, hmem, hm⟩
  simp [envWithDefaultPath, this]

theorem not_pathRegexp_of_not_prefix (e : String) (h : ¬ "PATH=".data <+: e.data) :
    Regexp.MatchString pathRegexp e = false := by
  rw [Bool.eq_false_iff]
  intro hm
  obtain ⟨v, hv, -⟩ := (pathRegexp_MatchString_iff e).1 hm
  exact h ⟨v, hv.symm⟩

theorem user_entry_not_path (u : String) :
    Regexp.MatchString pathRegexp ("USER=" ++ u) = false := by
  apply not_pathRegexp_of_not_prefix
  rintro ⟨v, hv⟩
  simp [String.data_append] at hv

theorem envWithDefaultPath_of_no_path (uid : Nat) (env : List String)
    (h : ∀ e ∈ env, Regexp.MatchString pathRegexp e = false) :
    envWithDefaultPath uid env = if uid = 0 then SuperuserPath else Path := by
  have : env.any (Regexp.MatchString pathRegexp) = false := by
    rw [List.any_eq_false]
    intro e he
    simp [h e he]
  simp [envWithDefaultPath, this]

/-! ## `setupContainerdProcSpec`, stage by stage -/

theorem Step.bind_ok {α β : Type} (t : List Event) (a : α) (f : α → Step β) :
    Step.bind ⟨t, Outcome.ok a⟩ f = ⟨t ++ (f a).trace, (f a).out⟩ := rfl

theorem Step.bind_error {α β : Type} (t : List Event) (err : GoError) (f : α → Step β) :
    Step.bind ⟨t, Outcome.error err⟩ f = ⟨t, Outcome.error err⟩ := rfl

theorem Step.bind_panicked {α β : Type} (t : List Event) (r : GoError) (f : α → Step β) :
    Step.bind ⟨t, Outcome.panicked r⟩ f = ⟨t, Outcome.panicked r⟩ := rfl

theorem setup_nil_process (c : Container) (gdn : Garden.ProcessSpec) (cs : Specs.Spec)
    (hproc : cs.Process = none) :
    c.setupContainerdProcSpec gdn cs = ⟨[], Outcome.panicked nilDereference⟩ := by
  simp [Container.setupContainerdProcSpec, hproc, Step.deref, bind, Step.bind, Step.throwPanic]

theorem setup_no_user (c : Container) (gdn : Garden.ProcessSpec) (cs : Specs.Spec)
    (proc : Specs.Process) (hproc : cs.Process = some proc) (huser : gdn.User = "") :
    c.setupContainerdProcSpec gdn cs =
      ⟨[], Outcome.ok (withDefaultPath (baseProcSpec gdn proc))⟩ := by
  rcases gdn with ⟨id, path, args, env, dir, user, _ | ⟨_ | ws⟩⟩ <;>
    simp only at huser <;> subst huser <;>
    simp only [Container.setupContainerdProcSpec, hproc, Step.deref, bind, Step.bind, pure,
      withDefaultPath, baseProcSpec] <;>
    simp <;> split <;> simp_all

theorem setup_nil_root (c : Container) (gdn : Garden.ProcessSpec) (cs : Specs.Spec)
    (proc : Specs.Process) (hproc : cs.Process = some proc) (hroot : cs.Root = none)
    (huser : gdn.User ≠ "") :
    c.setupContainerdProcSpec gdn cs = ⟨[], Outcome.panicked nilDereference⟩ := by
  simp [Container.setupContainerdProcSpec, hproc, hroot, huser, Step.deref, bind, Step.bind,
    Step.throwPanic, pure]

theorem setup_user (c : Container) (gdn : Garden.ProcessSpec) (cs : Specs.Spec)
    (proc : Specs.Process) (root : Specs.Root) (hproc : cs.Process = some proc)
    (hroot : cs.Root = some root) (huser : gdn.User ≠ "") :
    c.setupContainerdProcSpec gdn cs =
      ⟨[Event.LookupUser root.Path gdn.User],
        match c.rootfsManager.LookupUser root.Path gdn.User with
        | (_, _, some err) => Outcome.error (GoError.wrapped "lookup user" err)
        | (_, false, none) => Outcome.error (GoError.UserNotFoundError gdn.User)
        | (user, true, none) =>
          Outcome.ok (withDefaultPath (withUser gdn user (baseProcSpec gdn proc)))⟩ := by
  rcases hl : c.rootfsManager.LookupUser root.Path gdn.User with ⟨user, ok, err⟩
  rcases gdn with ⟨id, path, args, env, dir, guser, _ | ⟨_ | ws⟩⟩ <;>
    simp only at huser hl <;>
    rcases err with _ | err <;> rcases ok with _ | _ <;>
    simp only [Container.setupContainerdProcSpec, hproc, hroot, Step.deref, bind, Step.bind, pure,
      withDefaultPath, baseProcSpec, withUser, Step.call, Step.fail, hl] <;>
    simp [huser] <;> split <;> simp_all

theorem setup_lookup_error (c : Container) (gdn : Garden.ProcessSpec) (cs : Specs.Spec)
    (proc : Specs.Process) (root : Specs.Root) (user : Specs.User) (ok : Bool) (err : GoError)
    (hproc : cs.Process = some proc) (hroot : cs.Root = some root) (huser : gdn.User ≠ "")
    (hl : c.rootfsManager.LookupUser root.Path gdn.User = (user, ok, some err)) :
    c.setupContainerdProcSpec gdn cs =
      ⟨[Event.LookupUser root.Path gdn.User],
        Outcome.error (GoError.wrapped "lookup user" err)⟩ := by
  rw [setup_user c gdn cs proc root hproc hroot huser, hl]
  cases ok <;> rfl

theorem setup_user_missing (c : Container) (gdn : Garden.ProcessSpec) (cs : Specs.Spec)
    (proc : Specs.Process) (root : Specs.Root) (user : Specs.User)
    (hproc : cs.Process = some proc) (hroot : cs.Root = some root) (huser : gdn.User ≠ "")
    (hl : c.rootfsManager.LookupUser root.Path gdn.User = (user, false, none)) :
    c.setupContainerdProcSpec gdn cs =
      ⟨[Event.LookupUser root.Path gdn.User],
        Outcome.error (GoError.UserNotFoundError gdn.User)⟩ := by
  rw [setup_user c gdn cs proc root hproc hroot huser, hl]

theorem setup_user_found (c : Container) (gdn : Garden.ProcessSpec) (cs : Specs.Spec)
    (proc : Specs.Process) (root : Specs.Root) (user : Specs.User)
    (hproc : cs.Process = some proc) (hroot : cs.Root = some root) (huser : gdn.User ≠ "")
    (hl : c.rootfsManager.LookupUser root.Path gdn.User = (user, true, none)) :
    c.setupContainerdProcSpec gdn cs =
      ⟨[Event.LookupUser root.Path gdn.User],
        Outcome.ok (withDefaultPath (withUser gdn user (baseProcSpec gdn proc)))⟩ := by
  rw [setup_user c gdn cs proc root hproc hroot huser, hl]

theorem setup_trace_beforeExec (c : Container) (spec : Garden.ProcessSpec) (cs : Specs.Spec) :
    ∀ ev ∈ (c.setupContainerdProcSpec spec cs).trace, ev.beforeExec = true := by
  rcases hproc : cs.Process with _ | proc
  · simp [setup_nil_process c spec cs hproc]
  · by_cases huser : spec.User = ""
    · simp [setup_no_user c spec cs proc hproc huser]
    · rcases hroot : cs.Root with _ | root
      · simp [setup_nil_root c spec cs proc hproc hroot huser]
      · simp [setup_user c spec cs proc root hproc hroot huser, Event.beforeExec]

/-! ## `Run`, stage by stage -/

theorem runOnTask_eq_bind (c : Container) (newRandom : Except GoError Uuid.UUID)
    (spec : Garden.ProcessSpec) ( processIO : Garden.ProcessIO)
    (procSpec : Specs.Process) (task : Containerd.Task) :
    c.runOnTask newRandom spec processIO procSpec task =
      Step.bind (procID newRandom spec) (c.execProcess spec processIO procSpec task) := rfl

theorem procID_eq (newRandom : Except GoError Uuid.UUID) (spec : Garden.ProcessSpec) :
    procID newRandom spec =
      if spec.ID = "" then
        match newRandom with
        | Except.error err => ⟨[Event.NewRandom], Outcome.panicked (GoError.wrapped "uuid gen" err)⟩
        | Except.ok uuid => ⟨[Event.NewRandom], Outcome.ok uuid.String⟩
      else ⟨[], Outcome.ok spec.ID⟩ := by
  unfold procID
  by_cases h : spec.ID = ""
  · rcases newRandom with err | uuid <;>
      simp [h, bind, Step.bind, Step.call, Step.throwPanic, pure]
  · simp [h, pure]

theorem recreateInitTask_eq (c : Container) :
    c.recreateInitTask =
      match c.container.NewTask Cio.Creator.NullIO [Containerd.NewTaskOpts.WithNoNewKeyring] with
      | Except.error err =>
        ⟨[Event.NewTask Cio.Creator.NullIO [Containerd.NewTaskOpts.WithNoNewKeyring]],
          Outcome.error (GoError.wrapped "recreating init task" err)⟩
      | Except.ok initTask =>
        ⟨[Event.NewTask Cio.Creator.NullIO [Containerd.NewTaskOpts.WithNoNewKeyring],
            Event.TaskStart initTask],
          match c.container.TaskStart initTask with
          | some err => Outcome.error (GoError.wrapped "restarting init task" err)
          | none => Outcome.ok initTask⟩ := by
  unfold Container.recreateInitTask
  simp only [bind, pure, Step.call, Step.fail, Step.bind_ok]
  rcases c.container.NewTask _ _ with err | t
  · rfl
  · rcases h : c.container.TaskStart t with _ | err <;> simp [h]

theorem Run_eq_bind (c : Container) (newRandom : Except GoError Uuid.UUID)
    (spec : Garden.ProcessSpec) ( processIO : Garden.ProcessIO) :
    c.Run newRandom spec processIO =
      Step.bind (c.prepare spec) (fun pt => c.runOnTask newRandom spec processIO pt.1 pt.2) := by
  unfold Container.Run Container.prepare
  rw [recreateInitTask_eq]
  simp only [bind, pure, Step.call, Step.fail, Step.deref, Step.throwPanic, Step.bind_ok]
  rcases c.container.Spec with err | _ | cs
  · rfl
  · rfl
  · simp only [Step.bind_ok]
    rcases c.setupContainerdProcSpec spec cs with ⟨t, _ | _ | _⟩
    · simp only [Step.bind_ok]
      rcases cs.Root with _ | root
      · rfl
      · simp only [Step.bind_ok]
        rcases c.rootfsManager.SetupCwd root.Path _ with _ | err
        · simp only [Step.bind_ok]
          rcases c.container.Task none with err | task
          · by_cases hnf : err.IsNotFound = true
            · simp only [hnf, if_true]
              rcases c.container.NewTask Cio.Creator.NullIO
                  [Containerd.NewTaskOpts.WithNoNewKeyring] with e | initTask
              · simp [Step.bind_error]
              · simp only [Step.bind_ok]
                rcases hts : c.container.TaskStart initTask with _ | e
                · simp only [hts, Step.bind_ok, Container.runOnTask, bind, pure, Step.call,
                    Step.fail]
                  simp
                · simp [hts, Step.bind_error]
            · simp [hnf, Step.bind_error]
          · simp only [Step.bind_ok, Container.runOnTask, bind, pure, Step.call, Step.fail]
            simp
        · rfl
    · rfl
    · rfl

theorem recreateInitTask_trace_beforeExec (c : Container) :
    ∀ ev ∈ c.recreateInitTask.trace, ev.beforeExec = true := by
  rw [recreateInitTask_eq]
  rcases c.container.NewTask _ _ with err | t <;> simp [Event.beforeExec]

theorem setup_trace_beforeTask (c : Container) (spec : Garden.ProcessSpec) (cs : Specs.Spec) :
    ∀ ev ∈ (c.setupContainerdProcSpec spec cs).trace, ev.beforeTask = true := by
  rcases hproc : cs.Process with _ | proc
  · simp [setup_nil_process c spec cs hproc]
  · by_cases huser : spec.User = ""
    · simp [setup_no_user c spec cs proc hproc huser]
    · rcases hroot : cs.Root with _ | root
      · simp [setup_nil_root c spec cs proc hproc hroot huser]
      · simp [setup_user c spec cs proc root hproc hroot huser, Event.beforeTask]

/-- Either `prepare` ends before the task lookup, with an error or a panic and
having called nothing but the spec retrieval, the user lookup and the working
directory setup; or all of these succeeded and it goes on with the task lookup
and, on a not-found error, the recovery. -/
theorem prepare_cases (c : Container) (spec : Garden.ProcessSpec) :
    ((∀ ev ∈ (c.prepare spec).trace, ev.beforeTask = true) ∧
        ∀ r, (c.prepare spec).out ≠ Outcome.ok r) ∨
      ∃ cs root t1 procSpec,
        c.container.Spec = Except.ok (some cs) ∧
        c.setupContainerdProcSpec spec cs = ⟨t1, Outcome.ok procSpec⟩ ∧
        cs.Root = some root ∧
        c.rootfsManager.SetupCwd root.Path procSpec.Cwd = none ∧
        c.prepare spec =
          match c.container.Task none with
          | Except.ok task =>
            ⟨Event.Spec :: t1 ++ [Event.SetupCwd root.Path procSpec.Cwd, Event.Task none],
              Outcome.ok (procSpec, task)⟩
          | Except.error err =>
            if err.IsNotFound then
              ⟨Event.Spec :: t1 ++ [Event.SetupCwd root.Path procSpec.Cwd, Event.Task none] ++
                  c.recreateInitTask.trace,
                match c.recreateInitTask.out with
                | Outcome.ok initTask => Outcome.ok (procSpec, initTask)
                | Outcome.error e => Outcome.error e
                | Outcome.panicked r => Outcome.panicked r⟩
            else
              ⟨Event.Spec :: t1 ++ [Event.SetupCwd root.Path procSpec.Cwd, Event.Task none],
                Outcome.error (GoError.wrapped "task retrieval" err)⟩ := by
  unfold Container.prepare
  simp only [bind, pure, Step.call, Step.fail, Step.deref, Step.throwPanic, Step.bind_ok]
  rcases hspec : c.container.Spec with err | _ | cs
  · left
    simp [Event.beforeTask]
  · left
    simp [Event.beforeTask, Step.bind_panicked]
  · have h1 := setup_trace_beforeTask c spec cs
    simp only [Step.bind_ok]
    rcases hsetup : c.setupContainerdProcSpec spec cs with ⟨t1, procSpec | e | r⟩
    · rw [hsetup] at h1
      simp only [Step.bind_ok]
      rcases hroot : cs.Root with _ | root
      · left
        simp only [Step.bind_panicked, List.append_nil]
        refine ⟨?_, by simp⟩
        intro ev hev
        simp only [List.mem_append, List.mem_cons, List.mem_singleton, List.not_mem_nil,
          or_false, false_or] at hev
        rcases hev with rfl | hev
        · rfl
        · exact h1 ev hev
      · simp only [Step.bind_ok]
        rcases hcwd : c.rootfsManager.SetupCwd root.Path procSpec.Cwd with _ | err
        · right
          refine ⟨cs, root, t1, procSpec, rfl, hsetup, hroot, hcwd, ?_⟩
          simp only [Step.bind_ok]
          rcases c.container.Task none with err | task
          · by_cases hnf : err.IsNotFound = true
            · rcases c.recreateInitTask with ⟨t2, _ | _ | _⟩ <;>
                simp [hnf, Step.bind_ok, Step.bind_error, Step.bind_panicked]
            · simp [hnf, Step.bind_error]
          · simp
        · left
          simp only [Step.bind_error, List.append_nil]
          refine ⟨?_, by simp⟩
          intro ev hev
          simp only [List.mem_append, List.mem_cons, List.mem_singleton, List.not_mem_nil,
            or_false, false_or] at hev
          rcases hev with rfl | hev | rfl
          · rfl
          · exact h1 ev hev
          · rfl
    · left
      rw [hsetup] at h1
      simp only [Step.bind_error, List.append_nil]
      refine ⟨?_, by simp⟩
      intro ev hev
      simp only [List.mem_append, List.mem_cons, List.mem_singleton, List.not_mem_nil,
        or_false, false_or] at hev
      rcases hev with rfl | hev
      · rfl
      · exact h1 ev hev
    · left
      rw [hsetup] at h1
      simp only [Step.bind_panicked, List.append_nil]
      refine ⟨?_, by simp⟩
      intro ev hev
      simp only [List.mem_append, List.mem_cons, List.mem_singleton, List.not_mem_nil,
        or_false, false_or] at hev
      rcases hev with rfl | hev
      · rfl
      · exact h1 ev hev

/-- The calls and the outcome of `execProcess`, call by call. -/
theorem execProcess_eq (c : Container) (spec : Garden.ProcessSpec) ( processIO : Garden.ProcessIO)
    (procSpec : Specs.Process) (task : Containerd.Task) (id : String) :
    c.execProcess spec processIO procSpec task id =
      match c.container.Exec task id procSpec
          (c.ioManager.Creator c.Handle id
            (Cio.Creator.NewCreator ( containerdCIO processIO spec.TTY.isSome))) with
      | Except.error err =>
        ⟨[Event.ID,
            Event.Creator c.Handle id
              (Cio.Creator.NewCreator ( containerdCIO processIO spec.TTY.isSome)),
            Event.Exec task id procSpec
              (c.ioManager.Creator c.Handle id
                (Cio.Creator.NewCreator ( containerdCIO processIO spec.TTY.isSome)))],
          Outcome.error (GoError.wrapped "task exec" err)⟩
      | Except.ok proc =>
        ⟨[Event.ID,
            Event.Creator c.Handle id
              (Cio.Creator.NewCreator ( containerdCIO processIO spec.TTY.isSome)),
            Event.Exec task id procSpec
              (c.ioManager.Creator c.Handle id
                (Cio.Creator.NewCreator ( containerdCIO processIO spec.TTY.isSome))),
            Event.Wait proc] ++
            (match c.container.Wait proc with
              | Except.error _ => []
              | Except.ok _ =>
                [Event.Start proc] ++
                  (match c.container.Start proc with
                    | some _ => []
                    | none =>
                      if spec.TTY.isNone then
                        [Event.CloseIO proc [Containerd.IOCloserOpts.WithStdinCloser]]
                      else [])),
          match c.container.Wait proc with
          | Except.error err => Outcome.error (GoError.wrapped "proc wait" err)
          | Except.ok exitStatusC =>
            match c.container.Start proc with
            | some err =>
              if isNoSuchExecutable err then
                Outcome.error (GoError.ExecutableNotFoundError err.Error)
              else Outcome.error (GoError.wrapped "proc start" err)
            | none =>
              if spec.TTY.isNone then
                match c.container.CloseIO proc [Containerd.IOCloserOpts.WithStdinCloser] with
                | some err => Outcome.error (GoError.wrapped "proc closeio" err)
                | none => Outcome.ok ⟨proc, exitStatusC⟩
              else Outcome.ok ⟨proc, exitStatusC⟩⟩ := by
  unfold Container.execProcess
  simp only [bind, pure, Step.call, Step.fail, Step.bind_ok]
  rcases hx : c.container.Exec task id procSpec _ with err | proc
  · simp [hx, Step.bind_error]
  · rcases hw : c.container.Wait proc with err | ch
    · simp [hx, hw]
    · rcases hs : c.container.Start proc with _ | err
      · by_cases htty : spec.TTY.isNone = true
        · rcases hc : c.container.CloseIO proc [Containerd.IOCloserOpts.WithStdinCloser]
            with _ | err <;> simp [hx, hw, hs, hc, htty]
        · simp [hx, hw, hs, htty]
      · by_cases hn : isNoSuchExecutable err = true <;> simp [hx, hw, hs, hn]

theorem beforeExec_of_beforeTask (ev : Event) (h : ev.beforeTask = true) :
    ev.beforeExec = true := by
  cases ev <;> simp_all [Event.beforeTask, Event.beforeExec]

theorem prepare_trace_beforeExec (c : Container) (spec : Garden.ProcessSpec) :
    ∀ ev ∈ (c.prepare spec).trace, ev.beforeExec = true := by
  rcases prepare_cases c spec with ⟨h, -⟩ | ⟨cs, root, t1, procSpec, -, hsetup, -, -, heq⟩
  · exact fun ev hev => beforeExec_of_beforeTask ev (h ev hev)
  · have h1 := setup_trace_beforeExec c spec cs
    have h2 := recreateInitTask_trace_beforeExec c
    rw [hsetup] at h1
    simp only at h1
    rw [heq]
    rcases c.container.Task none with err | task
    · by_cases hnf : err.IsNotFound = true
      · simp only [hnf, if_true, List.mem_append, List.mem_cons, List.mem_singleton,
          List.not_mem_nil, or_false, or_imp, forall_and, forall_eq, Bool.false_eq_true, if_false]
        exact ⟨⟨⟨rfl, h1⟩, rfl, rfl⟩, h2⟩
      · simp only [hnf, List.mem_append, List.mem_cons, List.mem_singleton,
          List.not_mem_nil, or_false, or_imp, forall_and, forall_eq, Bool.false_eq_true, if_false]
        exact ⟨⟨rfl, h1⟩, rfl, rfl⟩
    · simp only [List.mem_append, List.mem_cons, List.mem_singleton,
        List.not_mem_nil, or_false, or_imp, forall_and, forall_eq, Bool.false_eq_true, if_false]
      exact ⟨⟨rfl, h1⟩, rfl, rfl⟩

/-- Either `Run` ends before it exec's the process, without a process, or it
is `execProcess` on some task and with some id, after calls that come before
the exec. -/
theorem Run_cases (c : Container) (newRandom : Except GoError Uuid.UUID)
    (spec : Garden.ProcessSpec) ( processIO : Garden.ProcessIO) :
    ((∀ ev ∈ (c.Run newRandom spec processIO).trace, ev.beforeExec = true) ∧
        ∀ r, (c.Run newRandom spec processIO).out ≠ Outcome.ok r) ∨
      ∃ pre procSpec task id,
        (∀ ev ∈ pre, ev.beforeExec = true) ∧
        c.Run newRandom spec processIO =
          ⟨pre ++ (c.execProcess spec processIO procSpec task id).trace,
            (c.execProcess spec processIO procSpec task id).out⟩ := by
  have hp := prepare_trace_beforeExec c spec
  rw [Run_eq_bind]
  rcases hprep : c.prepare spec with ⟨t, ⟨procSpec, task⟩ | e | r⟩
  · rw [hprep] at hp
    simp only [Step.bind_ok, runOnTask_eq_bind, procID_eq]
    by_cases hid : spec.ID = ""
    · rcases newRandom with err | uuid
      · left
        simp only [hid, if_true, Step.bind_panicked]
        refine ⟨?_, by simp⟩
        intro ev hev
        simp only [List.mem_append, List.mem_singleton] at hev
        rcases hev with hev | rfl
        · exact hp ev hev
        · rfl
      · right
        refine ⟨t ++ [Event.NewRandom], procSpec, task, uuid.String, ?_, ?_⟩
        · intro ev hev
          simp only [List.mem_append, List.mem_singleton] at hev
          rcases hev with hev | rfl
          · exact hp ev hev
          · rfl
        · simp [hid, Step.bind_ok]
    · right
      refine ⟨t, procSpec, task, spec.ID, hp, ?_⟩
      simp [hid, Step.bind_ok]
  · left
    rw [hprep] at hp
    exact ⟨by simpa [Step.bind_error] using hp, by simp [Step.bind_error]⟩
  · left
    rw [hprep] at hp
    exact ⟨by simpa [Step.bind_panicked] using hp, by simp [Step.bind_panicked]⟩

/-! ## Default PATH -/

theorem withDefaultPath_of_no_path (q : Specs.Process)
    (h : ∀ e ∈ q.Env, Regexp.MatchString pathRegexp e = false) :
    withDefaultPath q =
      { q with Env := q.Env ++ [if q.User.UID = 0 then SuperuserPath else Path] } := by
  unfold withDefaultPath
  rw [envWithDefaultPath_of_no_path _ _ h]
  by_cases hu : q.User.UID = 0 <;> simp [hu, SuperuserPath, Path]

/-- C1, as stated, fails: the garden process spec `Sample.spec` has no PATH entry
in its `Env` and its construction succeeds with UID 0, but the container spec's
own process environment defines a PATH, so no default is injected and the
resulting environment does not contain `SuperuserPath`. -/
theorem default_path_not_injected_over_container_path :
    (∀ e ∈ Sample.spec.Env, ¬ "PATH=".data <+: e.data) ∧
      (Sample.healthy.setupContainerdProcSpec Sample.spec Sample.containerSpecWithPath).out =
        Outcome.ok
          { Terminal := false
            ConsoleSize := none
            User := { UID := 0, GID := 0, Username := "root" }
            Args := ["/bin/ls", "-l"]
            Env := ["PATH=/custom/bin", "FOO=bar"]
            Cwd := "/" } ∧
      SuperuserPath ∉ ["PATH=/custom/bin", "FOO=bar"] := by
  decide

/-- C1 (amended): if neither the container spec's process environment nor the
garden process spec's `Env` has an entry that begins with `PATH=`, and the
construction of the process spec succeeds, then the resulting environment
contains `SuperuserPath` when the resolved UID is 0 and `Path` when it is not. -/
theorem default_path_injected (c : Container) (gdnProcSpec : Garden.ProcessSpec)
    (containerSpec : Specs.Spec) (proc procSpec : Specs.Process)
    (hproc : containerSpec.Process = some proc)
    (hnone : ∀ e ∈ proc.Env ++ gdnProcSpec.Env, ¬ "PATH=".data <+: e.data)
    (hok : (c.setupContainerdProcSpec gdnProcSpec containerSpec).out = Outcome.ok procSpec) :
    (procSpec.User.UID = 0 → SuperuserPath ∈ procSpec.Env) ∧
      (procSpec.User.UID ≠ 0 → Path ∈ procSpec.Env) := by
  have hbase : ∀ e ∈ (baseProcSpec gdnProcSpec proc).Env,
      Regexp.MatchString pathRegexp e = false := fun e he =>
    not_pathRegexp_of_not_prefix e (hnone e he)
  by_cases huser : gdnProcSpec.User = ""
  · rw [setup_no_user c gdnProcSpec containerSpec proc hproc huser] at hok
    simp only [Outcome.ok.injEq] at hok
    subst hok
    rw [withDefaultPath_of_no_path _ hbase]
    constructor
    · intro h
      simp only [] at h
      simp [h]
    · intro h
      simp only [] at h
      simp [h]
  · rcases hroot : containerSpec.Root with _ | root
    · rw [setup_nil_root c gdnProcSpec containerSpec proc hproc hroot huser] at hok
      simp at hok
    · rcases hl : c.rootfsManager.LookupUser root.Path gdnProcSpec.User with ⟨user, ok, err⟩
      rcases err with _ | err
      · rcases ok with _ | _
        · rw [setup_user_missing c gdnProcSpec containerSpec proc root user hproc hroot huser hl]
            at hok
          simp at hok
        · rw [setup_user_found c gdnProcSpec containerSpec proc root user hproc hroot huser hl]
            at hok
          simp only [Outcome.ok.injEq] at hok
          subst hok
          have hu : ∀ e ∈ (withUser gdnProcSpec user (baseProcSpec gdnProcSpec proc)).Env,
              Regexp.MatchString pathRegexp e = false := by
            intro e he
            simp only [withUser, List.mem_append, List.mem_singleton] at he
            rcases he with he | rfl
            · exact hbase e he
            · exact user_entry_not_path _
          rw [withDefaultPath_of_no_path _ hu]
          constructor
          · intro h
            simp only [] at h
            simp [h]
          · intro h
            simp only [] at h
            simp [h]
      · rw [setup_lookup_error c gdnProcSpec containerSpec proc root user ok err hproc hroot
          huser hl] at hok
        simp at hok

/-- C1 (amended), at a sample: a root container without PATH, a spec without
PATH. -/
theorem default_path_injected_witness :
    (0 = 0 → SuperuserPath ∈ ["HOME=/root", "FOO=bar", SuperuserPath]) ∧
      (0 ≠ 0 → Path ∈ ["HOME=/root", "FOO=bar", SuperuserPath]) :=
  default_path_injected Sample.healthy Sample.spec Sample.containerSpec Sample.rootProcess
    { Terminal := false
      ConsoleSize := none
      User := { UID := 0, GID := 0, Username := "root" }
      Args := ["/bin/ls", "-l"]
      Env := ["HOME=/root", "FOO=bar", SuperuserPath]
      Cwd := "/" }
    rfl (by decide) (by decide)

/-- C2, at the failing input: a supplied PATH entry whose value holds a line
feed is not recognised by `pathRegexp`, so `envWithDefaultPath` answers the
default and the construction appends a second PATH entry. -/
theorem path_with_line_feed_gets_second_path :
    envWithDefaultPath 0 ["PATH=/opt/bin\n/bin"] = SuperuserPath ∧
      (Sample.healthy.setupContainerdProcSpec
          { Sample.spec with Env := ["PATH=/opt/bin\n/bin"] } Sample.containerSpec).out =
        Outcome.ok
          { Terminal := false
            ConsoleSize := none
            User := { UID := 0, GID := 0, Username := "root" }
            Args := ["/bin/ls", "-l"]
            Env := ["HOME=/root", "PATH=/opt/bin\n/bin", SuperuserPath]
            Cwd := "/" } := by
  decide

/-! ## Start of the process -/

theorem execProcess_started (c : Container) (spec : Garden.ProcessSpec)
    ( processIO : Garden.ProcessIO) (procSpec : Specs.Process) (task : Containerd.Task)
    (id : String) (proc : Containerd.Process)
    (hmem : Event.Start proc ∈ (c.execProcess spec processIO procSpec task id).trace) :
    ∃ exitStatusC,
      c.container.Exec task id procSpec
          (c.ioManager.Creator c.Handle id
            (Cio.Creator.NewCreator ( containerdCIO processIO spec.TTY.isSome))) =
        Except.ok proc ∧
      c.container.Wait proc = Except.ok exitStatusC := by
  rw [execProcess_eq] at hmem
  rcases hx : c.container.Exec task id procSpec
      (c.ioManager.Creator c.Handle id
        (Cio.Creator.NewCreator ( containerdCIO processIO spec.TTY.isSome))) with err | p
  · simp [hx] at hmem
  · rcases hw : c.container.Wait p with err | ch
    · simp [hx, hw] at hmem
    · have hp : proc = p := by
        rcases hs : c.container.Start p with _ | err
        · by_cases htty : spec.TTY.isNone = true <;> simpa [hx, hw, hs, htty] using hmem
        · simpa [hx, hw, hs] using hmem
      subst hp
      exact ⟨ch, rfl, hw⟩

theorem execProcess_start_failure (c : Container) (spec : Garden.ProcessSpec)
    ( processIO : Garden.ProcessIO) (procSpec : Specs.Process) (task : Containerd.Task)
    (id : String) (proc : Containerd.Process) (e : GoError)
    (hmem : Event.Start proc ∈ (c.execProcess spec processIO procSpec task id).trace)
    (hstart : c.container.Start proc = some e) :
    (c.execProcess spec processIO procSpec task id).out =
      if isNoSuchExecutable e then Outcome.error (GoError.ExecutableNotFoundError e.Error)
      else Outcome.error (GoError.wrapped "proc start" e) := by
  obtain ⟨ch, hx, hw⟩ := execProcess_started c spec processIO procSpec task id proc hmem
  rw [execProcess_eq]
  simp only [hx, hw, hstart]

theorem Run_start_mem (c : Container) (newRandom : Except GoError Uuid.UUID)
    (spec : Garden.ProcessSpec) ( processIO : Garden.ProcessIO) (proc : Containerd.Process)
    (hmem : Event.Start proc ∈ (c.Run newRandom spec processIO).trace) :
    ∃ pre procSpec task id,
      (∀ ev ∈ pre, ev.beforeExec = true) ∧
      c.Run newRandom spec processIO =
          ⟨pre ++ (c.execProcess spec processIO procSpec task id).trace,
            (c.execProcess spec processIO procSpec task id).out⟩ ∧
      Event.Start proc ∈ (c.execProcess spec processIO procSpec task id).trace := by
  rcases Run_cases c newRandom spec processIO with ⟨h, -⟩ | ⟨pre, procSpec, task, id, hpre, heq⟩
  · have := h _ hmem
    simp [Event.beforeExec] at this
  · refine ⟨pre, procSpec, task, id, hpre, heq, ?_⟩
    rw [heq] at hmem
    simp only [List.mem_append] at hmem
    rcases hmem with hmem | hmem
    · have := hpre _ hmem
      simp [Event.beforeExec] at this
    · exact hmem

/-- C3: whenever `Run` has started the exec'd process `proc` and the start has
failed with the error `e`, `Run` returns `garden.ExecutableNotFoundError` with
`Message = e.Error()` if and only if the text of `e` matches `noSuchFile` or
`executableNotFound`; for every other start error it returns the error
`fmt.Errorf("proc start: %w", e)`, which is no `ExecutableNotFoundError`; in
both cases no process is returned. -/
theorem missing_executable_classification (c : Container)
    (newRandom : Except GoError Uuid.UUID) (spec : Garden.ProcessSpec)
    ( processIO : Garden.ProcessIO) (proc : Containerd.Process) (e : GoError)
    (hmem : Event.Start proc ∈ (c.Run newRandom spec processIO).trace)
    (hstart : c.container.Start proc = some e) :
    ((c.Run newRandom spec processIO).out =
          Outcome.error (GoError.ExecutableNotFoundError e.Error) ↔
        (Regexp.MatchString noSuchFile e.Error = true ∨
          Regexp.MatchString executableNotFound e.Error = true)) ∧
      (¬ (Regexp.MatchString noSuchFile e.Error = true ∨
            Regexp.MatchString executableNotFound e.Error = true) →
        (c.Run newRandom spec processIO).out = Outcome.error (GoError.wrapped "proc start" e) ∧
          ∀ Message, (c.Run newRandom spec processIO).out ≠
            Outcome.error (GoError.ExecutableNotFoundError Message)) ∧
      ∀ r, (c.Run newRandom spec processIO).out ≠ Outcome.ok r := by
  obtain ⟨pre, procSpec, task, id, -, heq, hmem'⟩ :=
    Run_start_mem c newRandom spec processIO proc hmem
  have hout := execProcess_start_failure c spec processIO procSpec task id proc e hmem' hstart
  rw [heq]
  simp only [hout]
  by_cases hm : Regexp.MatchString noSuchFile e.Error = true ∨
      Regexp.MatchString executableNotFound e.Error = true
  · have hb : isNoSuchExecutable e = true := by
      simpa [isNoSuchExecutable] using hm
    simp [hb, hm]
  · have hb : isNoSuchExecutable e = false := by
      rw [Bool.eq_false_iff]
      intro h
      exact hm (by simpa [isNoSuchExecutable] using h)
    simp [hb, hm]

/-- C3, at a sample: the start fails with "executable file not found in
$PATH", and `Run` returns the `ExecutableNotFoundError` that carries the text. -/
theorem missing_executable_classification_witness :
    Event.Start { id := 7 } ∈
        (Sample.failingStart.Run Sample.newRandom Sample.spec Sample.processIO).trace ∧
      Sample.failingStart.container.Start { id := 7 } = some Sample.startError ∧
      (Sample.failingStart.Run Sample.newRandom Sample.spec Sample.processIO).out =
        Outcome.error (GoError.ExecutableNotFoundError Sample.startError.Error) :=
  ⟨by decide, rfl,
    (missing_executable_classification Sample.failingStart Sample.newRandom Sample.spec
      Sample.processIO { id := 7 } Sample.startError (by decide) rfl).1.2
      (Or.inr (by decide))⟩

/-! ## Standard input of a process without a TTY -/

theorem execProcess_trace_of_started (c : Container) (spec : Garden.ProcessSpec)
    ( processIO : Garden.ProcessIO) (procSpec : Specs.Process) (task : Containerd.Task)
    (id : String) (proc : Containerd.Process)
    (hmem : Event.Start proc ∈ (c.execProcess spec processIO procSpec task id).trace)
    (hstart : c.container.Start proc = none) :
    (c.execProcess spec processIO procSpec task id).trace =
      [Event.ID,
        Event.Creator c.Handle id
          (Cio.Creator.NewCreator ( containerdCIO processIO spec.TTY.isSome)),
        Event.Exec task id procSpec
          (c.ioManager.Creator c.Handle id
            (Cio.Creator.NewCreator ( containerdCIO processIO spec.TTY.isSome))),
        Event.Wait proc, Event.Start proc] ++
        (if spec.TTY.isNone then [Event.CloseIO proc [Containerd.IOCloserOpts.WithStdinCloser]]
          else []) := by
  obtain ⟨ch, hx, hw⟩ := execProcess_started c spec processIO procSpec task id proc hmem
  rw [execProcess_eq]
  simp [hx, hw, hstart]

theorem execProcess_no_closeIO_of_tty (c : Container) (spec : Garden.ProcessSpec)
    ( processIO : Garden.ProcessIO) (procSpec : Specs.Process) (task : Containerd.Task)
    (id : String) (htty : spec.TTY ≠ none) (p : Containerd.Process)
    (o : List Containerd.IOCloserOpts) :
    Event.CloseIO p o ∉ (c.execProcess spec processIO procSpec task id).trace := by
  have hn : spec.TTY.isNone = false := by
    cases h : spec.TTY with
    | none => exact absurd h htty
    | some tty => rfl
  rw [execProcess_eq]
  rcases hx : c.container.Exec task id procSpec
      (c.ioManager.Creator c.Handle id
        (Cio.Creator.NewCreator ( containerdCIO processIO spec.TTY.isSome))) with err | q
  · simp
  · rcases hw : c.container.Wait q with err | ch
    · simp [hw]
    · rcases hs : c.container.Start q with _ | err <;> simp [hw, hs, hn, htty]

/-- C4: for a process spec with a TTY, `Run` never calls `CloseIO`; and whenever
`Run` has started the process `proc` successfully, it calls `CloseIO` if and
only if the spec has no TTY, in which case the call is
`proc.CloseIO(ctx, containerd.WithStdinCloser)`, made right after `proc.Start`
as the last call of `Run`, and is the only call of `CloseIO`. -/
theorem closeIO_iff_no_tty (c : Container) (newRandom : Except GoError Uuid.UUID)
    (spec : Garden.ProcessSpec) ( processIO : Garden.ProcessIO) :
    (spec.TTY ≠ none →
        ∀ p o, Event.CloseIO p o ∉ (c.Run newRandom spec processIO).trace) ∧
      ∀ proc, Event.Start proc ∈ (c.Run newRandom spec processIO).trace →
        c.container.Start proc = none →
        ((∃ p o, Event.CloseIO p o ∈ (c.Run newRandom spec processIO).trace) ↔
            spec.TTY = none) ∧
          (spec.TTY = none →
            ∃ pre, (c.Run newRandom spec processIO).trace =
                pre ++ [Event.Start proc,
                  Event.CloseIO proc [Containerd.IOCloserOpts.WithStdinCloser]] ∧
              ∀ p o, Event.CloseIO p o ∉ pre) := by
  have hA : spec.TTY ≠ none →
      ∀ p o, Event.CloseIO p o ∉ (c.Run newRandom spec processIO).trace := by
    intro htty p o hmem
    rcases Run_cases c newRandom spec processIO with ⟨h, -⟩ | ⟨pre, procSpec, task, id, hpre, heq⟩
    · have := h _ hmem
      simp [Event.beforeExec] at this
    · rw [heq] at hmem
      simp only [List.mem_append] at hmem
      rcases hmem with hmem | hmem
      · have := hpre _ hmem
        simp [Event.beforeExec] at this
      · exact execProcess_no_closeIO_of_tty c spec processIO procSpec task id htty p o hmem
  refine ⟨hA, ?_⟩
  intro proc hmem hstart
  obtain ⟨pre, procSpec, task, id, hpre, heq, hmem'⟩ :=
    Run_start_mem c newRandom spec processIO proc hmem
  have htr := execProcess_trace_of_started c spec processIO procSpec task id proc hmem' hstart
  have hB : spec.TTY = none →
      ∃ pre', (c.Run newRandom spec processIO).trace =
          pre' ++ [Event.Start proc,
            Event.CloseIO proc [Containerd.IOCloserOpts.WithStdinCloser]] ∧
        ∀ p o, Event.CloseIO p o ∉ pre' := by
    intro hnone
    refine ⟨pre ++ [Event.ID,
        Event.Creator c.Handle id
          (Cio.Creator.NewCreator ( containerdCIO processIO spec.TTY.isSome)),
        Event.Exec task id procSpec
          (c.ioManager.Creator c.Handle id
            (Cio.Creator.NewCreator ( containerdCIO processIO spec.TTY.isSome))),
        Event.Wait proc], ?_, ?_⟩
    · rw [heq]
      simp only [htr, hnone]
      simp
    · intro p o hp
      simp only [List.mem_append, List.mem_cons, List.mem_singleton, List.not_mem_nil,
        or_false] at hp
      rcases hp with hp | hp
      · have := hpre _ hp
        simp [Event.beforeExec] at this
      · simp at hp
  refine ⟨⟨?_, ?_⟩, hB⟩
  · rintro ⟨p, o, hp⟩
    by_contra hne
    exact hA hne p o hp
  · intro hnone
    obtain ⟨pre', htrace, -⟩ := hB hnone
    exact ⟨proc, [Containerd.IOCloserOpts.WithStdinCloser], by simp [htrace]⟩

/-- C4, at samples: a spec without a TTY, whose process starts, has its stdin
marked closable; a spec with a TTY makes no call of `CloseIO`. -/
theorem closeIO_iff_no_tty_witness :
    (Sample.ttySpec.TTY ≠ none ∧
        Event.CloseIO { id := 7 } [Containerd.IOCloserOpts.WithStdinCloser] ∉
          (Sample.healthy.Run Sample.newRandom Sample.ttySpec Sample.processIO).trace) ∧
      (Event.Start { id := 7 } ∈
          (Sample.healthy.Run Sample.newRandom Sample.spec Sample.processIO).trace ∧
        Sample.healthy.container.Start { id := 7 } = none ∧
        ∃ p o, Event.CloseIO p o ∈
          (Sample.healthy.Run Sample.newRandom Sample.spec Sample.processIO).trace) :=
  ⟨⟨by decide,
      (closeIO_iff_no_tty Sample.healthy Sample.newRandom Sample.ttySpec Sample.processIO).1
        (by decide) _ _⟩,
    by decide, rfl,
    ((closeIO_iff_no_tty Sample.healthy Sample.newRandom Sample.spec Sample.processIO).2
      { id := 7 } (by decide) rfl).1.2 rfl⟩

/-! ## Task recovery -/

theorem runOnTask_exec_task (c : Container) (newRandom : Except GoError Uuid.UUID)
    (spec : Garden.ProcessSpec) ( processIO : Garden.ProcessIO) (procSpec : Specs.Process)
    (task : Containerd.Task) (t : Containerd.Task) (id : String) (ps : Specs.Process)
    (io : Cio.Creator)
    (hmem : Event.Exec t id ps io ∈ (c.runOnTask newRandom spec processIO procSpec task).trace) :
    t = task ∧ ps = procSpec := by
  have key : ∀ id', Event.Exec t id ps io ∈ (c.execProcess spec processIO procSpec task id').trace →
      t = task ∧ ps = procSpec := by
    intro id' h
    rw [execProcess_eq] at h
    rcases hx : c.container.Exec task id' procSpec
        (c.ioManager.Creator c.Handle id'
          (Cio.Creator.NewCreator ( containerdCIO processIO spec.TTY.isSome))) with err | q
    · simp only [hx, List.mem_cons, List.mem_singleton, List.not_mem_nil, or_false] at h
      rcases h with h | h | h
      · simp at h
      · simp at h
      · simp only [Event.Exec.injEq] at h
        exact ⟨h.1, h.2.2.1⟩
    · rcases hw : c.container.Wait q with err | ch
      · simp only [hx, hw, List.append_nil, List.mem_cons, List.mem_singleton,
          List.not_mem_nil, or_false] at h
        rcases h with h | h | h | h
        · simp at h
        · simp at h
        · simp only [Event.Exec.injEq] at h
          exact ⟨h.1, h.2.2.1⟩
        · simp at h
      · rcases hs : c.container.Start q with _ | err
        · by_cases htty : spec.TTY.isNone = true
          · simp only [hx, hw, hs, htty, if_true, List.mem_append, List.mem_cons,
              List.mem_singleton, List.not_mem_nil, or_false] at h
            rcases h with (h | h | h | h) | h | h
            · simp at h
            · simp at h
            · simp only [Event.Exec.injEq] at h
              exact ⟨h.1, h.2.2.1⟩
            · simp at h
            · simp at h
            · simp at h
          · simp only [hx, hw, hs, htty, List.mem_append, List.mem_cons,
              List.mem_singleton, List.not_mem_nil, or_false, Bool.false_eq_true, if_false] at h
            rcases h with (h | h | h | h) | h
            · simp at h
            · simp at h
            · simp only [Event.Exec.injEq] at h
              exact ⟨h.1, h.2.2.1⟩
            · simp at h
            · simp at h
        · simp only [hx, hw, hs, List.append_nil, List.mem_append, List.mem_cons,
            List.mem_singleton, List.not_mem_nil, or_false] at h
          rcases h with (h | h | h | h) | h
          · simp at h
          · simp at h
          · simp only [Event.Exec.injEq] at h
            exact ⟨h.1, h.2.2.1⟩
          · simp at h
          · simp at h
  rw [runOnTask_eq_bind, procID_eq] at hmem
  by_cases hid : spec.ID = ""
  · rcases newRandom with err | uuid
    · simp [hid, Step.bind_panicked] at hmem
    · simp only [hid, if_true, Step.bind_ok, List.mem_append, List.mem_singleton] at hmem
      rcases hmem with hmem | hmem
      · simp at hmem
      · exact key _ hmem
  · simp only [hid, if_false, Step.bind_ok, List.nil_append] at hmem
    exact key _ hmem

theorem runOnTask_exec_mem (c : Container) (newRandom : Except GoError Uuid.UUID)
    (spec : Garden.ProcessSpec) ( processIO : Garden.ProcessIO) (procSpec : Specs.Process)
    (task : Containerd.Task) (hid : spec.ID ≠ "" ∨ ∃ uuid, newRandom = Except.ok uuid) :
    ∃ id io, Event.Exec task id procSpec io ∈
      (c.runOnTask newRandom spec processIO procSpec task).trace := by
  have key : ∀ id', Event.Exec task id' procSpec
      (c.ioManager.Creator c.Handle id'
        (Cio.Creator.NewCreator ( containerdCIO processIO spec.TTY.isSome))) ∈
      (c.execProcess spec processIO procSpec task id').trace := by
    intro id'
    rw [execProcess_eq]
    rcases c.container.Exec task id' procSpec
        (c.ioManager.Creator c.Handle id'
          (Cio.Creator.NewCreator ( containerdCIO processIO spec.TTY.isSome))) with err | q <;>
      simp
  rw [runOnTask_eq_bind, procID_eq]
  by_cases hid' : spec.ID = ""
  · rcases hid with hid | ⟨uuid, rfl⟩
    · exact absurd hid' hid
    · simp only [hid', if_true, Step.bind_ok]
      exact ⟨_, _, List.mem_append_right _ (key uuid.String)⟩
  · simp only [hid', if_false, Step.bind_ok, List.nil_append]
    exact ⟨_, _, key spec.ID⟩

theorem Run_of_task_lookup (c : Container) (newRandom : Except GoError Uuid.UUID)
    (spec : Garden.ProcessSpec) ( processIO : Garden.ProcessIO)
    (hreach : Event.Task none ∈ (c.Run newRandom spec processIO).trace) :
    ∃ pre procSpec,
      (∀ ev ∈ pre, ev.beforeTask = true) ∧
      c.prepare spec =
        match c.container.Task none with
        | Except.ok task => ⟨pre ++ [Event.Task none], Outcome.ok (procSpec, task)⟩
        | Except.error err =>
          if err.IsNotFound then
            ⟨pre ++ [Event.Task none] ++ c.recreateInitTask.trace,
              match c.recreateInitTask.out with
              | Outcome.ok initTask => Outcome.ok (procSpec, initTask)
              | Outcome.error e => Outcome.error e
              | Outcome.panicked r => Outcome.panicked r⟩
          else
            ⟨pre ++ [Event.Task none], Outcome.error (GoError.wrapped "task retrieval" err)⟩ := by
  rcases prepare_cases c spec with ⟨h, hout⟩ | ⟨cs, root, t1, procSpec, -, hsetup, -, -, heq⟩
  · exfalso
    rw [Run_eq_bind] at hreach
    rcases hprep : c.prepare spec with ⟨t, r | e | r⟩
    · exact hout r (by rw [hprep])
    · rw [hprep] at hreach h
      have := h _ (by simpa [Step.bind_error] using hreach)
      simp [Event.beforeTask] at this
    · rw [hprep] at hreach h
      have := h _ (by simpa [Step.bind_panicked] using hreach)
      simp [Event.beforeTask] at this
  · have h1 := setup_trace_beforeTask c spec cs
    rw [hsetup] at h1
    simp only at h1
    refine ⟨Event.Spec :: t1 ++ [Event.SetupCwd root.Path procSpec.Cwd], procSpec, ?_, ?_⟩
    · simp only [List.mem_append, List.mem_cons, List.mem_singleton, List.not_mem_nil,
        or_false, or_imp, forall_and, forall_eq]
      exact ⟨⟨rfl, h1⟩, rfl⟩
    · rw [heq]
      rcases c.container.Task none with err | task
      · by_cases hnf : err.IsNotFound = true <;> simp [hnf]
      · simp

/-- C5: whenever `Run` has looked the task up and the lookup has failed with the
error `err`: if `err` is a not-found error, `Run` makes a new task with the
null I/O binding; if that fails, it returns "recreating init task" and neither
starts a task nor exec's a process; otherwise it starts the new task; if that
fails, it returns "restarting init task" and exec's no process; otherwise it
goes on as usual on the new task, so that every exec is on the new task, and
there is one as soon as a process id can be chosen. If `err` is not a
not-found error, `Run` returns "task retrieval" and neither makes a task, nor
starts one, nor exec's a process. -/
theorem task_recovery (c : Container) (newRandom : Except GoError Uuid.UUID)
    (spec : Garden.ProcessSpec) ( processIO : Garden.ProcessIO) (err : GoError)
    (hreach : Event.Task none ∈ (c.Run newRandom spec processIO).trace)
    (hlookup : c.container.Task none = Except.error err) :
    (err.IsNotFound = true →
        Event.NewTask Cio.Creator.NullIO [Containerd.NewTaskOpts.WithNoNewKeyring] ∈
            (c.Run newRandom spec processIO).trace ∧
          (∀ e, c.container.NewTask Cio.Creator.NullIO
                [Containerd.NewTaskOpts.WithNoNewKeyring] = Except.error e →
              (c.Run newRandom spec processIO).out =
                  Outcome.error (GoError.wrapped "recreating init task" e) ∧
                (∀ t, Event.TaskStart t ∉ (c.Run newRandom spec processIO).trace) ∧
                ∀ t id ps io, Event.Exec t id ps io ∉ (c.Run newRandom spec processIO).trace) ∧
          ∀ initTask, c.container.NewTask Cio.Creator.NullIO
                [Containerd.NewTaskOpts.WithNoNewKeyring] = Except.ok initTask →
              Event.TaskStart initTask ∈ (c.Run newRandom spec processIO).trace ∧
                (∀ e, c.container.TaskStart initTask = some e →
                  (c.Run newRandom spec processIO).out =
                      Outcome.error (GoError.wrapped "restarting init task" e) ∧
                    ∀ t id ps io,
                      Event.Exec t id ps io ∉ (c.Run newRandom spec processIO).trace) ∧
                (c.container.TaskStart initTask = none →
                  (∃ pre procSpec,
                      c.Run newRandom spec processIO =
                        ⟨pre ++ (c.runOnTask newRandom spec processIO procSpec initTask).trace,
                          (c.runOnTask newRandom spec processIO procSpec initTask).out⟩) ∧
                    (∀ t id ps io,
                      Event.Exec t id ps io ∈ (c.Run newRandom spec processIO).trace →
                        t = initTask) ∧
                    ((spec.ID ≠ "" ∨ ∃ uuid, newRandom = Except.ok uuid) →
                      ∃ id ps io,
                        Event.Exec initTask id ps io ∈
                          (c.Run newRandom spec processIO).trace))) ∧
      (err.IsNotFound = false →
        (c.Run newRandom spec processIO).out =
            Outcome.error (GoError.wrapped "task retrieval" err) ∧
          (∀ io opts, Event.NewTask io opts ∉ (c.Run newRandom spec processIO).trace) ∧
          (∀ t, Event.TaskStart t ∉ (c.Run newRandom spec processIO).trace) ∧
          ∀ t id ps io, Event.Exec t id ps io ∉ (c.Run newRandom spec processIO).trace) := by
  obtain ⟨pre, procSpec, hpre, hprep⟩ :=
    Run_of_task_lookup c newRandom spec processIO hreach
  rw [hlookup] at hprep
  simp only at hprep
  have hnoStart : ∀ t, Event.TaskStart t ∉ pre := by
    intro t ht
    have := hpre _ ht
    simp [Event.beforeTask] at this
  have hnoExec : ∀ t id ps io, Event.Exec t id ps io ∉ pre := by
    intro t id ps io ht
    have := hpre _ ht
    simp [Event.beforeTask] at this
  have hnoNew : ∀ io opts, Event.NewTask io opts ∉ pre := by
    intro io opts ht
    have := hpre _ ht
    simp [Event.beforeTask] at this
  constructor
  · intro hnf
    rw [if_pos hnf, recreateInitTask_eq] at hprep
    rcases hnew : c.container.NewTask Cio.Creator.NullIO
        [Containerd.NewTaskOpts.WithNoNewKeyring] with e | initTask
    · rw [hnew] at hprep
      simp only at hprep
      have hrun : c.Run newRandom spec processIO =
          ⟨pre ++ [Event.Task none] ++
              [Event.NewTask Cio.Creator.NullIO [Containerd.NewTaskOpts.WithNoNewKeyring]],
            Outcome.error (GoError.wrapped "recreating init task" e)⟩ := by
        rw [Run_eq_bind, hprep, Step.bind_error]
      refine ⟨by simp [hrun], ?_, by simp⟩
      intro e' he'
      simp only [Except.error.injEq] at he'
      subst he'
      refine ⟨by rw [hrun], ?_, ?_⟩
      · intro t
        simp [hrun, hnoStart t]
      · intro t id ps io
        simp [hrun, hnoExec t id ps io]
    · rw [hnew] at hprep
      simp only at hprep
      rcases hts : c.container.TaskStart initTask with _ | e
      · rw [hts] at hprep
        simp only at hprep
        have hrun : c.Run newRandom spec processIO =
            ⟨pre ++ [Event.Task none] ++
                [Event.NewTask Cio.Creator.NullIO [Containerd.NewTaskOpts.WithNoNewKeyring],
                  Event.TaskStart initTask] ++
                (c.runOnTask newRandom spec processIO procSpec initTask).trace,
              (c.runOnTask newRandom spec processIO procSpec initTask).out⟩ := by
          rw [Run_eq_bind, hprep, Step.bind_ok]
        refine ⟨by simp [hrun], by simp, ?_⟩
        intro t ht
        simp only [Except.ok.injEq] at ht
        subst ht
        refine ⟨by simp [hrun], by simp [hts], ?_⟩
        intro _
        refine ⟨⟨_, procSpec, hrun⟩, ?_, ?_⟩
        · intro t id ps io hmem
          rw [hrun] at hmem
          simp only [List.mem_append, List.mem_cons, List.mem_singleton, List.not_mem_nil,
            or_false] at hmem
          rcases hmem with ((hmem | hmem) | hmem | hmem) | hmem
          · exact absurd hmem (hnoExec t id ps io)
          · simp at hmem
          · simp at hmem
          · simp at hmem
          · exact (runOnTask_exec_task c newRandom spec processIO procSpec initTask t id ps io
              hmem).1
        · intro hid
          obtain ⟨id, io, hmem⟩ :=
            runOnTask_exec_mem c newRandom spec processIO procSpec initTask hid
          exact ⟨id, procSpec, io, by rw [hrun]; exact List.mem_append_right _ hmem⟩
      · rw [hts] at hprep
        simp only at hprep
        have hrun : c.Run newRandom spec processIO =
            ⟨pre ++ [Event.Task none] ++
                [Event.NewTask Cio.Creator.NullIO [Containerd.NewTaskOpts.WithNoNewKeyring],
                  Event.TaskStart initTask],
              Outcome.error (GoError.wrapped "restarting init task" e)⟩ := by
          rw [Run_eq_bind, hprep, Step.bind_error]
        refine ⟨by simp [hrun], by simp, ?_⟩
        intro t ht
        simp only [Except.ok.injEq] at ht
        subst ht
        refine ⟨by simp [hrun], ?_, by simp [hts]⟩
        intro e' he'
        rw [hts] at he'
        simp only [Option.some.injEq] at he'
        subst he'
        refine ⟨by rw [hrun], ?_⟩
        intro t id ps io
        simp [hrun, hnoExec t id ps io]
  · intro hnf
    rw [if_neg (by simp [hnf])] at hprep
    have hrun : c.Run newRandom spec processIO =
        ⟨pre ++ [Event.Task none], Outcome.error (GoError.wrapped "task retrieval" err)⟩ := by
      rw [Run_eq_bind, hprep, Step.bind_error]
    refine ⟨by rw [hrun], ?_, ?_, ?_⟩
    · intro io opts
      simp [hrun, hnoNew io opts]
    · intro t
      simp [hrun, hnoStart t]
    · intro t id ps io
      simp [hrun, hnoExec t id ps io]

/-- C5, at samples: the task is lost and made again, and the process is exec'd
on the new task; the daemon is unreachable, and no task is made. -/
theorem task_recovery_witness :
    (Event.Task none ∈
          (Sample.lostTask.Run Sample.newRandom Sample.spec Sample.processIO).trace ∧
        Sample.lostTask.container.Task none = Except.error Sample.taskNotFound ∧
        Event.NewTask Cio.Creator.NullIO [Containerd.NewTaskOpts.WithNoNewKeyring] ∈
          (Sample.lostTask.Run Sample.newRandom Sample.spec Sample.processIO).trace) ∧
      (Event.Task none ∈
          (Sample.unreachable.Run Sample.newRandom Sample.spec Sample.processIO).trace ∧
        Sample.unreachable.container.Task none = Except.error Sample.daemonDown ∧
        (Sample.unreachable.Run Sample.newRandom Sample.spec Sample.processIO).out =
          Outcome.error (GoError.wrapped "task retrieval" Sample.daemonDown)) :=
  ⟨⟨by decide, rfl,
      ((task_recovery Sample.lostTask Sample.newRandom Sample.spec Sample.processIO
        Sample.taskNotFound (by decide) rfl).1 rfl).1⟩,
    by decide, rfl,
    ((task_recovery Sample.unreachable Sample.newRandom Sample.spec Sample.processIO
      Sample.daemonDown (by decide) rfl).2 rfl).1⟩

/-! ## The user of the process -/

theorem Run_of_setup_error (c : Container) (newRandom : Except GoError Uuid.UUID)
    (spec : Garden.ProcessSpec) ( processIO : Garden.ProcessIO) (cs : Specs.Spec) (e : GoError)
    (hspec : c.container.Spec = Except.ok (some cs))
    (hsetup : (c.setupContainerdProcSpec spec cs).out = Outcome.error e) :
    c.Run newRandom spec processIO =
      ⟨Event.Spec :: (c.setupContainerdProcSpec spec cs).trace, Outcome.error e⟩ := by
  rw [Run_eq_bind]
  unfold Container.prepare
  simp only [bind, pure, Step.call, Step.fail, Step.deref, Step.throwPanic, Step.bind_ok, hspec]
  rcases hs : c.setupContainerdProcSpec spec cs with ⟨t, o⟩
  rw [hs] at hsetup
  simp only at hsetup
  subst hsetup
  simp [Step.bind_error]

/-- C6: for a process spec with a non-empty `User`, on a container spec with a
process and a root filesystem: if the rootfs user lookup answers "not found"
without an error, the construction of the process spec fails with
`UserNotFoundError{User: spec.User}`, and so does `Run`; the text of that error
is "user '<User>' not found: no matching entries in /etc/passwd". If the lookup
answers an error, the failure is the error wrapped as "lookup user", which is
no `UserNotFoundError`. -/
theorem user_not_found_is_distinguishable (c : Container)
    (newRandom : Except GoError Uuid.UUID) (spec : Garden.ProcessSpec)
    ( processIO : Garden.ProcessIO) (cs : Specs.Spec) (proc : Specs.Process)
    (root : Specs.Root)
    (hspec : c.container.Spec = Except.ok (some cs))
    (hproc : cs.Process = some proc) (hroot : cs.Root = some root)
    (huser : spec.User ≠ "") :
    (∀ user, c.rootfsManager.LookupUser root.Path spec.User = (user, false, none) →
        (c.setupContainerdProcSpec spec cs).out =
            Outcome.error (GoError.UserNotFoundError spec.User) ∧
          (c.Run newRandom spec processIO).out =
            Outcome.error (GoError.UserNotFoundError spec.User) ∧
          (GoError.UserNotFoundError spec.User).Error =
            "user '" ++ spec.User ++ "' not found: no matching entries in /etc/passwd") ∧
      ∀ user ok err, c.rootfsManager.LookupUser root.Path spec.User = (user, ok, some err) →
        (c.setupContainerdProcSpec spec cs).out =
            Outcome.error (GoError.wrapped "lookup user" err) ∧
          (c.Run newRandom spec processIO).out =
            Outcome.error (GoError.wrapped "lookup user" err) ∧
          ∀ User, GoError.wrapped "lookup user" err ≠ GoError.UserNotFoundError User := by
  constructor
  · intro user hl
    have h := setup_user_missing c spec cs proc root user hproc hroot huser hl
    have hout : (c.setupContainerdProcSpec spec cs).out =
        Outcome.error (GoError.UserNotFoundError spec.User) := by rw [h]
    refine ⟨hout, ?_, rfl⟩
    rw [Run_of_setup_error c newRandom spec processIO cs _ hspec hout]
  · intro user ok err hl
    have h := setup_lookup_error c spec cs proc root user ok err hproc hroot huser hl
    have hout : (c.setupContainerdProcSpec spec cs).out =
        Outcome.error (GoError.wrapped "lookup user" err) := by rw [h]
    refine ⟨hout, ?_, by simp⟩
    rw [Run_of_setup_error c newRandom spec processIO cs _ hspec hout]

/-- C6, at a sample: the rootfs does not know `bob`. -/
theorem user_not_found_is_distinguishable_witness :
    Sample.healthy.container.Spec = Except.ok (some Sample.containerSpec) ∧
      Sample.bobSpec.User ≠ "" ∧
      Sample.healthy.rootfsManager.LookupUser "/rootfs" "bob" =
        ({ UID := 0, GID := 0, Username := "" }, false, none) ∧
      (Sample.healthy.Run Sample.newRandom Sample.bobSpec Sample.processIO).out =
        Outcome.error (GoError.UserNotFoundError "bob") :=
  ⟨rfl, by decide, by decide,
    ((user_not_found_is_distinguishable Sample.healthy Sample.newRandom Sample.bobSpec
      Sample.processIO Sample.containerSpec Sample.rootProcess { Path := "/rootfs" } rfl rfl rfl
      (by decide)).1 { UID := 0, GID := 0, Username := "" } (by decide)).2.1⟩

theorem envWithDefaultPath_values (uid : Nat) (env : List String) :
    envWithDefaultPath uid env = "" ∨ envWithDefaultPath uid env = SuperuserPath ∨
      envWithDefaultPath uid env = Path := by
  unfold envWithDefaultPath
  simp only
  split
  · exact Or.inl rfl
  · split
    · exact Or.inr (Or.inl rfl)
    · exact Or.inr (Or.inr rfl)

theorem withDefaultPath_user (q : Specs.Process) : (withDefaultPath q).User = q.User := by
  unfold withDefaultPath
  split <;> rfl

theorem withDefaultPath_env (q : Specs.Process) :
    ∃ extra, (withDefaultPath q).Env = q.Env ++ extra ∧
      ∀ e ∈ extra, e = SuperuserPath ∨ e = Path := by
  unfold withDefaultPath
  split
  · exact ⟨[], by simp, by simp⟩
  · rename_i h
    refine ⟨[envWithDefaultPath q.User.UID q.Env], rfl, ?_⟩
    intro e he
    simp only [List.mem_singleton] at he
    subst he
    rcases envWithDefaultPath_values q.User.UID q.Env with h' | h'
    · exact absurd h' h
    · exact h'

/-- C7: for a process spec with a non-empty `User` that the rootfs lookup finds
(on a container spec with a process and a root filesystem), the construction
succeeds, the resulting environment contains `USER=<spec.User>`, and the user
of the process is the one the lookup answered. For a process spec with an empty
`User` no lookup is made (no collaborator is called at all), the user is the
container's, and the environment is the container's followed by the spec's
and by nothing else but a default PATH entry. -/
theorem user_injection (c : Container) (spec : Garden.ProcessSpec) (cs : Specs.Spec)
    (proc : Specs.Process) (hproc : cs.Process = some proc) :
    (∀ root user, cs.Root = some root → spec.User ≠ "" →
        c.rootfsManager.LookupUser root.Path spec.User = (user, true, none) →
        ∃ procSpec, (c.setupContainerdProcSpec spec cs).out = Outcome.ok procSpec ∧
          "USER=" ++ spec.User ∈ procSpec.Env ∧ procSpec.User = user) ∧
      (spec.User = "" →
        (c.setupContainerdProcSpec spec cs).trace = [] ∧
          ∃ procSpec, (c.setupContainerdProcSpec spec cs).out = Outcome.ok procSpec ∧
            procSpec.User = proc.User ∧
            ∃ extra, procSpec.Env = proc.Env ++ spec.Env ++ extra ∧
              ∀ e ∈ extra, e = SuperuserPath ∨ e = Path) := by
  constructor
  · intro root user hroot huser hl
    rw [setup_user_found c spec cs proc root user hproc hroot huser hl]
    refine ⟨_, rfl, ?_, ?_⟩
    · obtain ⟨extra, henv, -⟩ := withDefaultPath_env (withUser spec user (baseProcSpec spec proc))
      rw [henv]
      simp [withUser]
    · rw [withDefaultPath_user]
      rfl
  · intro huser
    rw [setup_no_user c spec cs proc hproc huser]
    refine ⟨rfl, _, rfl, ?_, ?_⟩
    · rw [withDefaultPath_user]
      rfl
    · exact withDefaultPath_env (baseProcSpec spec proc)

/-- C7, at samples: `alice` is found and becomes the user of the process; a
spec without a user makes no lookup. -/
theorem user_injection_witness :
    (Sample.aliceSpec.User ≠ "" ∧
        Sample.healthy.rootfsManager.LookupUser "/rootfs" "alice" =
          ({ UID := 1000, GID := 1000, Username := "alice" }, true, none) ∧
        ∃ procSpec,
          (Sample.healthy.setupContainerdProcSpec Sample.aliceSpec Sample.containerSpec).out =
              Outcome.ok procSpec ∧
            "USER=" ++ Sample.aliceSpec.User ∈ procSpec.Env ∧
            procSpec.User = { UID := 1000, GID := 1000, Username := "alice" }) ∧
      (Sample.spec.User = "" ∧
        (Sample.healthy.setupContainerdProcSpec Sample.spec Sample.containerSpec).trace = []) :=
  ⟨⟨by decide, by decide,
      (user_injection Sample.healthy Sample.aliceSpec Sample.containerSpec Sample.rootProcess
        rfl).1 { Path := "/rootfs" } { UID := 1000, GID := 1000, Username := "alice" } rfl
        (by decide) (by decide)⟩,
    rfl,
    ((user_injection Sample.healthy Sample.spec Sample.containerSpec Sample.rootProcess
      rfl).2 rfl).1⟩

/-! ## `Attach` -/

/-- C8: `Attach` with an empty process id returns no process and the error
`ErrInvalidInput("empty process id")`, and calls no collaborator. -/
theorem attach_empty_pid (c : Container) ( processIO : Garden.ProcessIO) :
    c.Attach "" processIO =
      ⟨[], Outcome.error (GoError.ErrInvalidInput "empty process id")⟩ := by
  simp [Container.Attach, Step.fail]

/-- The calls and the outcome of `Attach` for a non-empty process id, call by
call. -/
theorem Attach_eq (c : Container) (pid : String) ( processIO : Garden.ProcessIO)
    (hpid : pid ≠ "") :
    c.Attach pid processIO =
      match c.container.Task (some Cio.Attach.Load) with
      | Except.error err =>
        ⟨[Event.Task (some Cio.Attach.Load)], Outcome.error (GoError.wrapped "task attach" err)⟩
      | Except.ok task =>
        match c.container.LoadProcess task pid
            (c.ioManager.Attach c.Handle pid
              (Cio.Attach.NewAttach ( containerdCIO processIO false))) with
        | Except.error err =>
          ⟨[Event.Task (some Cio.Attach.Load), Event.ID,
              Event.Attach c.Handle pid (Cio.Attach.NewAttach ( containerdCIO processIO false)),
              Event.LoadProcess task pid
                (c.ioManager.Attach c.Handle pid
                  (Cio.Attach.NewAttach ( containerdCIO processIO false)))],
            Outcome.error (GoError.wrapped "load proc" err)⟩
        | Except.ok proc =>
          match c.container.Status proc with
          | Except.error err =>
            ⟨[Event.Task (some Cio.Attach.Load), Event.ID,
                Event.Attach c.Handle pid (Cio.Attach.NewAttach ( containerdCIO processIO false)),
                Event.LoadProcess task pid
                  (c.ioManager.Attach c.Handle pid
                    (Cio.Attach.NewAttach ( containerdCIO processIO false))),
                Event.Status proc],
              Outcome.error (GoError.wrapped "proc status" err)⟩
          | Except.ok status =>
            if status.Status ≠ Containerd.Running then
              ⟨[Event.Task (some Cio.Attach.Load), Event.ID,
                  Event.Attach c.Handle pid
                    (Cio.Attach.NewAttach ( containerdCIO processIO false)),
                  Event.LoadProcess task pid
                    (c.ioManager.Attach c.Handle pid
                      (Cio.Attach.NewAttach ( containerdCIO processIO false))),
                  Event.Status proc],
                Outcome.error
                  (GoError.errorf ("proc not running: status = " ++ status.Status))⟩
            else
              ⟨[Event.Task (some Cio.Attach.Load), Event.ID,
                  Event.Attach c.Handle pid
                    (Cio.Attach.NewAttach ( containerdCIO processIO false)),
                  Event.LoadProcess task pid
                    (c.ioManager.Attach c.Handle pid
                      (Cio.Attach.NewAttach ( containerdCIO processIO false))),
                  Event.Status proc, Event.Wait proc],
                match c.container.Wait proc with
                | Except.error err => Outcome.error (GoError.wrapped "proc wait" err)
                | Except.ok exitStatusC => Outcome.ok ⟨proc, exitStatusC⟩⟩ := by
  unfold Container.Attach
  simp only [bind, pure, Step.call, Step.fail, Step.bind_ok, hpid, if_false]
  rcases ht : c.container.Task (some Cio.Attach.Load) with err | task
  · simp [Step.bind_error]
  · rcases hl : c.container.LoadProcess task pid
        (c.ioManager.Attach c.Handle pid
          (Cio.Attach.NewAttach ( containerdCIO processIO false))) with err | proc
    · simp [hl]
    · rcases hs : c.container.Status proc with err | status
      · simp [hl, hs]
      · by_cases hr : status.Status = Containerd.Running
        · rcases hw : c.container.Wait proc with err | ch <;> simp [hl, hs, hr, hw]
        · simp [hl, hs, hr]

/-- C9: for a non-empty process id for which the task lookup, the process load
and the status query succeed, `Attach` returns a process only if the status is
`Running`, and then it has obtained the exit-status channel of the loaded
process, which the returned process carries; for every other status it returns
no process and the error "proc not running: status = <status>", and makes no
call of `Wait`. -/
theorem attach_only_to_running (c : Container) (pid : String) ( processIO : Garden.ProcessIO)
    (task : Containerd.Task) (proc : Containerd.Process) (status : Containerd.Status)
    (hpid : pid ≠ "")
    (htask : c.container.Task (some Cio.Attach.Load) = Except.ok task)
    (hload : c.container.LoadProcess task pid
        (c.ioManager.Attach c.Handle pid
          (Cio.Attach.NewAttach ( containerdCIO processIO false))) = Except.ok proc)
    (hstatus : c.container.Status proc = Except.ok status) :
    (∀ r, (c.Attach pid processIO).out = Outcome.ok r →
        status.Status = Containerd.Running ∧
          Event.Wait proc ∈ (c.Attach pid processIO).trace ∧
          r.process = proc ∧ c.container.Wait proc = Except.ok r.exitStatusC) ∧
      (status.Status ≠ Containerd.Running →
        (c.Attach pid processIO).out =
            Outcome.error (GoError.errorf ("proc not running: status = " ++ status.Status)) ∧
          ∀ p, Event.Wait p ∉ (c.Attach pid processIO).trace) ∧
      (status.Status = Containerd.Running →
        ∀ exitStatusC, c.container.Wait proc = Except.ok exitStatusC →
          (c.Attach pid processIO).out = Outcome.ok ⟨proc, exitStatusC⟩) := by
  rw [Attach_eq c pid processIO hpid]
  simp only [htask, hload, hstatus]
  by_cases hr : status.Status = Containerd.Running
  · simp only [hr, ne_eq, not_true_eq_false, if_false]
    refine ⟨?_, by simp, ?_⟩
    · intro r hout
      rcases hw : c.container.Wait proc with err | ch
      · simp [hw] at hout
      · simp only [hw, Outcome.ok.injEq] at hout
        subst hout
        exact ⟨trivial, by simp, rfl, rfl⟩
    · intro _ ch hw
      simp [hw]
  · simp only [ne_eq, hr, not_false_eq_true, if_true]
    refine ⟨by simp, ?_, by simp⟩
    intro _
    exact ⟨trivial, by simp⟩

/-- C9, at a sample: the process has stopped, and `Attach` refuses it. -/
theorem attach_only_to_running_witness :
    ("proc-1" ≠ "" ∧
        Sample.stopped.container.Task (some Cio.Attach.Load) = Except.ok { id := 1 } ∧
        Sample.stopped.container.Status { id := 7 } =
          Except.ok { Status := "stopped", ExitStatus := 0 } ∧
        "stopped" ≠ Containerd.Running) ∧
      (Sample.stopped.Attach "proc-1" Sample.processIO).out =
        Outcome.error (GoError.errorf ("proc not running: status = " ++ "stopped")) :=
  ⟨⟨by decide, rfl, rfl, by decide⟩,
    ((attach_only_to_running Sample.stopped "proc-1" Sample.processIO { id := 1 } { id := 7 }
      { Status := "stopped", ExitStatus := 0 } (by decide) rfl rfl rfl).2.1 (by decide)).1⟩

/-! ## `Stop` -/

/-- C10: if the task lookup fails, `Stop` returns the error wrapped as
"task lookup" and its only call is the lookup, so the killer is not invoked.
Otherwise its calls are the lookup and then one call of the killer, on the
loaded task, with `KillUngracefully` when `kill` is true and `KillGracefully`
when it is false; `Stop` returns nil if the killer succeeds and its error
wrapped as "kill" if it fails. -/
theorem stop_invokes_killer (c : Container) (kill : Bool) :
    (∀ err, c.container.Task (some Cio.Attach.Load) = Except.error err →
        c.Stop kill =
          ⟨[Event.Task (some Cio.Attach.Load)],
            Outcome.error (GoError.wrapped "task lookup" err)⟩) ∧
      ∀ task, c.container.Task (some Cio.Attach.Load) = Except.ok task →
        (c.Stop kill).trace =
            [Event.Task (some Cio.Attach.Load),
              Event.Kill task
                (if kill then KillBehaviour.KillUngracefully
                  else KillBehaviour.KillGracefully)] ∧
          (c.killer.Kill task
                (if kill then KillBehaviour.KillUngracefully
                  else KillBehaviour.KillGracefully) = none →
            (c.Stop kill).out = Outcome.ok ()) ∧
          ∀ err, c.killer.Kill task
                (if kill then KillBehaviour.KillUngracefully
                  else KillBehaviour.KillGracefully) = some err →
            (c.Stop kill).out = Outcome.error (GoError.wrapped "kill" err) := by
  constructor
  · intro err hl
    simp [Container.Stop, bind, pure, Step.call, Step.fail, Step.bind_ok, Step.bind_error, hl]
  · intro task hl
    unfold Container.Stop
    simp only [bind, pure, Step.call, Step.fail, Step.bind_ok, hl]
    rcases hk : c.killer.Kill task
        (if kill then KillBehaviour.KillUngracefully else KillBehaviour.KillGracefully)
      with _ | err <;> simp [hk]

/-- C10, at a sample: a graceful stop of a container whose task is found. -/
theorem stop_invokes_killer_witness :
    Sample.healthy.container.Task (some Cio.Attach.Load) = Except.ok { id := 1 } ∧
      (Sample.healthy.Stop false).trace =
        [Event.Task (some Cio.Attach.Load),
          Event.Kill { id := 1 } KillBehaviour.KillGracefully] :=
  ⟨rfl, ((stop_invokes_killer Sample.healthy false).2 { id := 1 } rfl).1⟩

/-! ## Properties -/

/-- C11: if the label retrieval succeeds and the labels decode to the property
set `P`, `Properties` returns `P`, and `Property(name)` returns `(P[name], nil)`
when `name` is a key of `P`, whatever the value, and `("", ErrNotFound(name))`
when it is not. If the label retrieval fails, `Property` returns the empty
string and the very error that `Properties` returns, which is the retrieval
error wrapped as "labels retrieval". In all cases the only call is the one
label retrieval. -/
theorem property_agrees_with_properties (c : Container) (codec : LabelCodec) (name : String) :
    (∀ labels, c.container.Labels = Except.ok labels →
        c.Properties codec =
            ⟨[Event.Labels], Outcome.ok (codec.labelsToProperties labels, none)⟩ ∧
          (∀ v, (codec.labelsToProperties labels).lookup name = some v →
            c.Property codec name = ⟨[Event.Labels], Outcome.ok (v, none)⟩) ∧
          ((codec.labelsToProperties labels).lookup name = none →
            c.Property codec name =
              ⟨[Event.Labels], Outcome.ok ("", some (GoError.ErrNotFound name))⟩)) ∧
      ∀ err, c.container.Labels = Except.error err →
        c.Properties codec =
            ⟨[Event.Labels],
              Outcome.ok ([], some (GoError.wrapped "labels retrieval" err))⟩ ∧
          c.Property codec name =
            ⟨[Event.Labels],
              Outcome.ok ("", some (GoError.wrapped "labels retrieval" err))⟩ := by
  constructor
  · intro labels hl
    have hp : c.Properties codec =
        ⟨[Event.Labels], Outcome.ok (codec.labelsToProperties labels, none)⟩ := by
      simp [Container.Properties, bind, pure, Step.call, Step.bind_ok, hl]
    refine ⟨hp, ?_, ?_⟩
    · intro v hv
      simp [Container.Property, bind, pure, Step.bind_ok, hp, hv]
    · intro hv
      simp [Container.Property, bind, pure, Step.bind_ok, hp, hv]
  · intro err hl
    have hp : c.Properties codec =
        ⟨[Event.Labels], Outcome.ok ([], some (GoError.wrapped "labels retrieval" err))⟩ := by
      simp [Container.Properties, bind, pure, Step.call, Step.bind_ok, hl]
    refine ⟨hp, ?_⟩
    simp [Container.Property, bind, pure, Step.bind_ok, hp]

/-- C11, at samples: a property whose value is the empty string is found; a
name that is no key is not; a failed retrieval is passed on. -/
theorem property_agrees_with_properties_witness :
    (Sample.healthy.container.Labels =
          Except.ok [("garden.grace-time", "300000000000"), ("empty", "")] ∧
        Sample.healthy.Property Sample.codec "empty" =
          ⟨[Event.Labels], Outcome.ok ("", none)⟩ ∧
        Sample.healthy.Property Sample.codec "absent" =
          ⟨[Event.Labels], Outcome.ok ("", some (GoError.ErrNotFound "absent"))⟩) ∧
      (Sample.noLabels.container.Labels = Except.error Sample.labelsUnavailable ∧
        Sample.noLabels.Property Sample.codec "empty" =
          ⟨[Event.Labels],
            Outcome.ok ("", some (GoError.wrapped "labels retrieval" Sample.labelsUnavailable))⟩) :=
  ⟨⟨rfl,
      ((property_agrees_with_properties Sample.healthy Sample.codec "empty").1 _ rfl).2.1 ""
        (by decide),
      ((property_agrees_with_properties Sample.healthy Sample.codec "absent").1 _ rfl).2.2
        (by decide)⟩,
    rfl, ((property_agrees_with_properties Sample.noLabels Sample.codec "empty").2 _ rfl).2⟩

/-! ## Operations that are not implemented -/

/-- C12: `Info`, `Metrics`, `StreamIn`, `StreamOut`, `NetIn`, `NetOut`,
`BulkNetOut` and `RemoveProperty` return `ErrNotImplemented` for every input,
beside the zero values of their other results, and call no collaborator. -/
theorem unimplemented_operations (c : Container) (name : String)
    (streamIn : Garden.StreamInSpec) (streamOut : Garden.StreamOutSpec)
    (hostPort containerPort : Nat) (rule : Garden.NetOutRule)
    (rules : List Garden.NetOutRule) :
    c.Info = ⟨[], Outcome.ok (Garden.ContainerInfo.zero, some GoError.ErrNotImplemented)⟩ ∧
      c.Metrics = ⟨[], Outcome.ok (Garden.Metrics.zero, some GoError.ErrNotImplemented)⟩ ∧
      c.StreamIn streamIn = ⟨[], Outcome.ok (some GoError.ErrNotImplemented)⟩ ∧
      c.StreamOut streamOut = ⟨[], Outcome.ok (none, some GoError.ErrNotImplemented)⟩ ∧
      c.NetIn hostPort containerPort =
        ⟨[], Outcome.ok (0, 0, some GoError.ErrNotImplemented)⟩ ∧
      c.NetOut rule = ⟨[], Outcome.ok (some GoError.ErrNotImplemented)⟩ ∧
      c.BulkNetOut rules = ⟨[], Outcome.ok (some GoError.ErrNotImplemented)⟩ ∧
      c.RemoveProperty name = ⟨[], Outcome.ok (some GoError.ErrNotImplemented)⟩ :=
  ⟨rfl, rfl, rfl, rfl, rfl, rfl, rfl, rfl⟩

/-! ## Resource limits -/

/-- The chain to the CPU shares is whole exactly when every link is there. -/
theorem cpuShares_eq_some_iff (spec : Option Specs.Spec) (shares : Nat) :
    cpuShares spec = some shares ↔
      ∃ s linux resources cpu, spec = some s ∧ s.Linux = some linux ∧
        linux.Resources = some resources ∧ resources.CPU = some cpu ∧
        cpu.Shares = some shares := by
  simp [cpuShares, Option.bind_eq_some]

/-- The chain to the memory limit is whole exactly when every link is there. -/
theorem memoryLimit_eq_some_iff (spec : Option Specs.Spec) (limit : Int) :
    memoryLimit spec = some limit ↔
      ∃ s linux resources memory, spec = some s ∧ s.Linux = some linux ∧
        linux.Resources = some resources ∧ resources.Memory = some memory ∧
        memory.Limit = some limit := by
  simp [memoryLimit, Option.bind_eq_some]

theorem CurrentCPULimits_eq (c : Container) :
    c.CurrentCPULimits =
      match c.container.Spec with
      | Except.error err => ⟨[Event.Spec], Outcome.ok ({ Weight := 0, LimitInShares := 0 }, some err)⟩
      | Except.ok spec =>
        match cpuShares spec with
        | none => ⟨[Event.Spec], Outcome.ok ({ Weight := 0, LimitInShares := 0 }, none)⟩
        | some shares =>
          ⟨[Event.Spec], Outcome.ok ({ Weight := shares, LimitInShares := 0 }, none)⟩ := by
  unfold Container.CurrentCPULimits
  simp only [bind, pure, Step.call, Step.bind_ok]
  rcases c.container.Spec with err | _ | ⟨proc, root, _ | ⟨_ | ⟨mem, _ | ⟨_ | shares⟩⟩⟩⟩ <;> rfl

theorem CurrentMemoryLimits_eq (c : Container) :
    c.CurrentMemoryLimits =
      match c.container.Spec with
      | Except.error err => ⟨[Event.Spec], Outcome.ok ({ LimitInBytes := 0 }, some err)⟩
      | Except.ok spec =>
        match memoryLimit spec with
        | none => ⟨[Event.Spec], Outcome.ok ({ LimitInBytes := 0 }, none)⟩
        | some limit =>
          ⟨[Event.Spec], Outcome.ok ({ LimitInBytes := uint64OfInt64 limit }, none)⟩ := by
  unfold Container.CurrentMemoryLimits
  simp only [bind, pure, Step.call, Step.bind_ok]
  rcases c.container.Spec with err | _ | ⟨proc, root, _ | ⟨_ | ⟨_ | ⟨_ | limit⟩, cpu⟩⟩⟩ <;> rfl

/-- C13: when the spec retrieval succeeds, `CurrentCPULimits` returns
`CPULimits{Weight: s}` and a nil error if the chain
`spec -> Linux -> Resources -> CPU -> Shares` is whole with the value `s`, and
the zero-value `CPULimits` and a nil error if the spec or a link of the chain is
nil; when the retrieval fails, it returns the zero value and that error. Its
only call is the spec retrieval. -/
theorem current_cpu_limits (c : Container) :
    (∀ spec, c.container.Spec = Except.ok spec →
        (∀ s, cpuShares spec = some s →
          c.CurrentCPULimits =
            ⟨[Event.Spec], Outcome.ok ({ Weight := s, LimitInShares := 0 }, none)⟩) ∧
          (cpuShares spec = none →
            c.CurrentCPULimits =
              ⟨[Event.Spec], Outcome.ok ({ Weight := 0, LimitInShares := 0 }, none)⟩)) ∧
      ∀ err, c.container.Spec = Except.error err →
        c.CurrentCPULimits =
          ⟨[Event.Spec], Outcome.ok ({ Weight := 0, LimitInShares := 0 }, some err)⟩ := by
  refine ⟨fun spec hs => ⟨fun s h => ?_, fun h => ?_⟩, fun err hs => ?_⟩ <;>
    rw [CurrentCPULimits_eq] <;> simp [hs, *]

/-- C13, at samples: 512 shares are projected; a spec without `Linux` gives the
zero value. -/
theorem current_cpu_limits_witness :
    (Sample.limited.container.Spec = Except.ok (some Sample.limitedSpec) ∧
        cpuShares (some Sample.limitedSpec) = some 512 ∧
        Sample.limited.CurrentCPULimits =
          ⟨[Event.Spec], Outcome.ok ({ Weight := 512, LimitInShares := 0 }, none)⟩) ∧
      (Sample.healthy.container.Spec = Except.ok (some Sample.containerSpec) ∧
        cpuShares (some Sample.containerSpec) = none ∧
        Sample.healthy.CurrentCPULimits =
          ⟨[Event.Spec], Outcome.ok ({ Weight := 0, LimitInShares := 0 }, none)⟩) :=
  ⟨⟨rfl, rfl, ((current_cpu_limits Sample.limited).1 _ rfl).1 512 rfl⟩,
    rfl, rfl, ((current_cpu_limits Sample.healthy).1 _ rfl).2 rfl⟩

theorem uint64OfInt64_of_nonneg (n : Int) (h0 : 0 ≤ n) (h : n < 2 ^ 63) :
    (uint64OfInt64 n : Int) = n := by
  unfold uint64OfInt64
  rw [Int.toNat_of_nonneg (Int.emod_nonneg _ (by norm_num))]
  exact Int.emod_eq_of_lt h0 (by omega)

theorem uint64OfInt64_of_neg (n : Int) (h0 : n < 0) (h : -2 ^ 63 ≤ n) :
    (uint64OfInt64 n : Int) = n + 2 ^ 64 := by
  unfold uint64OfInt64
  rw [Int.toNat_of_nonneg (Int.emod_nonneg _ (by norm_num))]
  have : n % 2 ^ 64 = (n + 2 ^ 64) % 2 ^ 64 := by simp
  rw [this]
  exact Int.emod_eq_of_lt (by omega) (by omega)

/-- C14, as stated, fails: with the memory limit -1, which is a signed 64-bit
value, `CurrentMemoryLimits` returns 18446744073709551615 bytes and a nil
error, and that is not numerically equal to -1. -/
theorem current_memory_limits_of_minus_one :
    memoryLimit (some Sample.unlimitedSpec) = some (-1) ∧
      Sample.unlimited.CurrentMemoryLimits =
        ⟨[Event.Spec], Outcome.ok ({ LimitInBytes := 18446744073709551615 }, none)⟩ ∧
      ((18446744073709551615 : Nat) : Int) ≠ -1 := by
  have h : uint64OfInt64 (-1) = 18446744073709551615 := by decide
  refine ⟨rfl, ?_, by decide⟩
  rw [CurrentMemoryLimits_eq, ← h]
  rfl

/-- C14 (amended): for a container spec whose `Linux.Resources.Memory.Limit` is
there with the signed 64-bit value `L`, `CurrentMemoryLimits` returns
`LimitInBytes = uint64(L)` and a nil error, which is numerically equal to `L`
when `L` is not negative (and is `L + 2^64` when it is); if the spec or a link
of the chain is nil it returns the zero-value `MemoryLimits` and a nil error. -/
theorem current_memory_limits (c : Container) (spec : Option Specs.Spec)
    (hspec : c.container.Spec = Except.ok spec) :
    (∀ L, memoryLimit spec = some L → -2 ^ 63 ≤ L → L < 2 ^ 63 →
        c.CurrentMemoryLimits =
            ⟨[Event.Spec], Outcome.ok ({ LimitInBytes := uint64OfInt64 L }, none)⟩ ∧
          (0 ≤ L → (uint64OfInt64 L : Int) = L) ∧
          (L < 0 → (uint64OfInt64 L : Int) = L + 2 ^ 64)) ∧
      (memoryLimit spec = none →
        c.CurrentMemoryLimits = ⟨[Event.Spec], Outcome.ok ({ LimitInBytes := 0 }, none)⟩) := by
  constructor
  · intro L hL hlo hhi
    refine ⟨?_, fun h0 => uint64OfInt64_of_nonneg L h0 hhi,
      fun h0 => uint64OfInt64_of_neg L h0 hlo⟩
    rw [CurrentMemoryLimits_eq]
    simp [hspec, hL]
  · intro hL
    rw [CurrentMemoryLimits_eq]
    simp [hspec, hL]

/-- C14 (amended), at a sample: a limit of 1 GiB is returned as it is. -/
theorem current_memory_limits_witness :
    Sample.limited.container.Spec = Except.ok (some Sample.limitedSpec) ∧
      memoryLimit (some Sample.limitedSpec) = some 1073741824 ∧
      ((uint64OfInt64 1073741824 : Nat) : Int) = 1073741824 :=
  ⟨rfl, rfl,
    ((current_memory_limits Sample.limited (some Sample.limitedSpec) rfl).1 1073741824 rfl
      (by decide) (by decide)).2.1 (by decide)⟩

/-! ## Grace time -/

/-- The calls and the result of `SetProperty`, call by call. -/
theorem SetProperty_eq (c : Container) (codec : LabelCodec) (name value : String) :
    c.SetProperty codec name value =
      match codec.propertiesToLabels [(name, value)] with
      | Except.error err => ⟨[], Outcome.ok (some err)⟩
      | Except.ok labelSet =>
        ⟨[Event.SetLabels labelSet],
          Outcome.ok
            (match c.container.SetLabels labelSet with
              | Except.error err => some (GoError.wrapped "set label" err)
              | Except.ok _ => none)⟩ := by
  unfold Container.SetProperty
  simp only [bind, pure, Step.call, Step.bind_ok]
  rcases codec.propertiesToLabels [(name, value)] with err | labelSet
  · rfl
  · rcases h : c.container.SetLabels labelSet with err | labels <;> simp [h]

/-- C15: `SetGraceTime(d)` makes the calls of
`SetProperty("garden.grace-time", v)`, where `v` is `d`, a count of
nanoseconds, rendered in base 10; it returns nil if and only if that
`SetProperty` returns nil, and otherwise the error of that `SetProperty`
wrapped as "set grace time". -/
theorem set_grace_time_is_set_property (c : Container) (codec : LabelCodec) (graceTime : Int) :
    (c.SetGraceTime codec graceTime).trace =
        (c.SetProperty codec "garden.grace-time" (sprintfD graceTime)).trace ∧
      ((c.SetGraceTime codec graceTime).out = Outcome.ok none ↔
        (c.SetProperty codec "garden.grace-time" (sprintfD graceTime)).out = Outcome.ok none) ∧
      ∀ err,
        (c.SetProperty codec "garden.grace-time" (sprintfD graceTime)).out =
            Outcome.ok (some err) →
          (c.SetGraceTime codec graceTime).out =
            Outcome.ok (some (GoError.wrapped "set grace time" err)) := by
  unfold Container.SetGraceTime
  simp only [bind, pure, GraceTimeKey]
  rw [SetProperty_eq]
  rcases codec.propertiesToLabels [("garden.grace-time", sprintfD graceTime)] with err | labelSet
  · simp [Step.bind_ok]
  · rcases h : c.container.SetLabels labelSet with err | labels <;> simp [Step.bind_ok, h]

/-- C15, at samples: five minutes are stored as "300000000000"; a failed label
update comes back wrapped twice. -/
theorem set_grace_time_is_set_property_witness :
    sprintfD 300000000000 = "300000000000" ∧ sprintfD (-5) = "-5" ∧
      (Sample.healthy.SetGraceTime Sample.codec 300000000000).trace =
        [Event.SetLabels [("garden.grace-time", "300000000000")]] ∧
      ((Sample.readOnlyLabels.SetProperty Sample.codec "garden.grace-time"
            (sprintfD 300000000000)).out =
          Outcome.ok (some (GoError.wrapped "set label" Sample.labelsReadOnly)) ∧
        (Sample.readOnlyLabels.SetGraceTime Sample.codec 300000000000).out =
          Outcome.ok (some (GoError.wrapped "set grace time"
            (GoError.wrapped "set label" Sample.labelsReadOnly)))) :=
  ⟨by decide, by decide,
    (set_grace_time_is_set_property Sample.healthy Sample.codec 300000000000).1.trans
      (by decide),
    by decide,
    (set_grace_time_is_set_property Sample.readOnlyLabels Sample.codec 300000000000).2.2 _
      (by decide)⟩

/-! ## The id of the process -/

/-- The calls of `execProcess` begin with the handle, the I/O creator and the
exec, all for the same id; the others are calls on the process. -/
theorem execProcess_trace_shape (c : Container) (spec : Garden.ProcessSpec)
    ( processIO : Garden.ProcessIO) (procSpec : Specs.Process) (task : Containerd.Task)
    (id : String) :
    ∃ rest,
      (c.execProcess spec processIO procSpec task id).trace =
        [Event.ID,
          Event.Creator c.Handle id
            (Cio.Creator.NewCreator ( containerdCIO processIO spec.TTY.isSome)),
          Event.Exec task id procSpec
            (c.ioManager.Creator c.Handle id
              (Cio.Creator.NewCreator ( containerdCIO processIO spec.TTY.isSome)))] ++ rest ∧
      ∀ ev ∈ rest, (∃ p, ev = Event.Wait p) ∨ (∃ p, ev = Event.Start p) ∨
        ∃ p o, ev = Event.CloseIO p o := by
  rw [execProcess_eq]
  rcases hx : c.container.Exec task id procSpec
      (c.ioManager.Creator c.Handle id
        (Cio.Creator.NewCreator ( containerdCIO processIO spec.TTY.isSome))) with err | q
  · exact ⟨[], by simp, by simp⟩
  · rcases hw : c.container.Wait q with err | ch
    · exact ⟨[Event.Wait q], by simp [hw], by simp⟩
    · rcases hs : c.container.Start q with _ | err
      · by_cases htty : spec.TTY.isNone = true
        · refine ⟨[Event.Wait q, Event.Start q,
            Event.CloseIO q [Containerd.IOCloserOpts.WithStdinCloser]],
            by simp [hw, hs, htty], ?_⟩
          simp
        · refine ⟨[Event.Wait q, Event.Start q], by simp [hw, hs, htty], ?_⟩
          simp
      · exact ⟨[Event.Wait q, Event.Start q], by simp [hw, hs], by simp⟩

/-- `Run_cases`, with the id that is chosen: `spec.ID` if it is not empty, and
else the text of the UUID that `uuid.NewRandom()` answered in this run. -/
theorem Run_cases_id (c : Container) (newRandom : Except GoError Uuid.UUID)
    (spec : Garden.ProcessSpec) ( processIO : Garden.ProcessIO) :
    ((∀ ev ∈ (c.Run newRandom spec processIO).trace, ev.beforeExec = true) ∧
        ∀ r, (c.Run newRandom spec processIO).out ≠ Outcome.ok r) ∨
      ∃ pre procSpec task id,
        (∀ ev ∈ pre, ev.beforeExec = true) ∧
        c.Run newRandom spec processIO =
          ⟨pre ++ (c.execProcess spec processIO procSpec task id).trace,
            (c.execProcess spec processIO procSpec task id).out⟩ ∧
        (spec.ID ≠ "" → id = spec.ID) ∧
        (spec.ID = "" →
          ∃ uuid, newRandom = Except.ok uuid ∧ id = uuid.String ∧ Event.NewRandom ∈ pre) := by
  have hp := prepare_trace_beforeExec c spec
  rw [Run_eq_bind]
  rcases hprep : c.prepare spec with ⟨t, ⟨procSpec, task⟩ | e | r⟩
  · rw [hprep] at hp
    simp only [Step.bind_ok, runOnTask_eq_bind, procID_eq]
    by_cases hid : spec.ID = ""
    · rcases newRandom with err | uuid
      · left
        simp only [hid, if_true, Step.bind_panicked]
        refine ⟨?_, by simp⟩
        intro ev hev
        simp only [List.mem_append, List.mem_singleton] at hev
        rcases hev with hev | rfl
        · exact hp ev hev
        · rfl
      · right
        refine ⟨t ++ [Event.NewRandom], procSpec, task, uuid.String, ?_, ?_,
          fun h => absurd hid h, fun _ => ⟨uuid, rfl, rfl, by simp⟩⟩
        · intro ev hev
          simp only [List.mem_append, List.mem_singleton] at hev
          rcases hev with hev | rfl
          · exact hp ev hev
          · rfl
        · simp [hid, Step.bind_ok]
    · right
      refine ⟨t, procSpec, task, spec.ID, hp, ?_, fun _ => rfl, fun h => absurd h hid⟩
      simp [hid, Step.bind_ok]
  · left
    rw [hprep] at hp
    exact ⟨by simpa [Step.bind_error] using hp, by simp [Step.bind_error]⟩
  · left
    rw [hprep] at hp
    exact ⟨by simpa [Step.bind_panicked] using hp, by simp [Step.bind_panicked]⟩

theorem UUID_String_ne_empty (uuid : Uuid.UUID) : uuid.String ≠ "" := by
  intro h
  have hlen := uuid.length_eq
  unfold Uuid.UUID.String at h
  rw [h] at hlen
  simp at hlen

/-- C16: in every run, the id handed to the I/O manager's `Creator` and the id
handed to the task's `Exec` are `spec.ID` when that is not empty, and otherwise
the text of the UUID that `uuid.NewRandom()` answered in this very run, which
is not empty; every exec is preceded in the run by the call of `Creator` for
the same id, and uses the creator that this call answered. -/
theorem process_id_selection (c : Container) (newRandom : Except GoError Uuid.UUID)
    (spec : Garden.ProcessSpec) ( processIO : Garden.ProcessIO) :
    (∀ handle id creator,
        Event.Creator handle id creator ∈ (c.Run newRandom spec processIO).trace →
          (spec.ID ≠ "" → id = spec.ID) ∧
            (spec.ID = "" →
              ∃ uuid, newRandom = Except.ok uuid ∧ id = uuid.String ∧ id ≠ "" ∧
                Event.NewRandom ∈ (c.Run newRandom spec processIO).trace)) ∧
      ∀ task id procSpec ioCreator,
        Event.Exec task id procSpec ioCreator ∈ (c.Run newRandom spec processIO).trace →
          (spec.ID ≠ "" → id = spec.ID) ∧
            (spec.ID = "" →
              ∃ uuid, newRandom = Except.ok uuid ∧ id = uuid.String ∧ id ≠ "" ∧
                Event.NewRandom ∈ (c.Run newRandom spec processIO).trace) ∧
            ∃ creator,
              ioCreator = c.ioManager.Creator c.Handle id creator ∧
                ∃ pre post, (c.Run newRandom spec processIO).trace =
                  pre ++ Event.Creator c.Handle id creator ::
                    Event.Exec task id procSpec ioCreator :: post := by
  rcases Run_cases_id c newRandom spec processIO with
    ⟨h, -⟩ | ⟨pre, ps, tk, i, hpre, heq, hne, hemp⟩
  · constructor
    · intro handle id creator hmem
      have := h _ hmem
      simp [Event.beforeExec] at this
    · intro task id procSpec ioCreator hmem
      have := h _ hmem
      simp [Event.beforeExec] at this
  · obtain ⟨rest, hshape, hrest⟩ := execProcess_trace_shape c spec processIO ps tk i
    have hid : ∀ id, id = i →
        (spec.ID ≠ "" → id = spec.ID) ∧
          (spec.ID = "" →
            ∃ uuid, newRandom = Except.ok uuid ∧ id = uuid.String ∧ id ≠ "" ∧
              Event.NewRandom ∈ (c.Run newRandom spec processIO).trace) := by
      rintro id rfl
      refine ⟨hne, fun he => ?_⟩
      obtain ⟨uuid, hnr, hi, hmem⟩ := hemp he
      refine ⟨uuid, hnr, hi, ?_, ?_⟩
      · rw [hi]
        exact UUID_String_ne_empty uuid
      · rw [heq]
        exact List.mem_append_left _ hmem
    constructor
    · intro handle id creator hmem
      apply hid
      rw [heq] at hmem
      simp only [hshape, List.mem_append, List.mem_cons, List.not_mem_nil, or_false] at hmem
      rcases hmem with hmem | (hmem | hmem | hmem) | hmem
      · have := hpre _ hmem
        simp [Event.beforeExec] at this
      · simp at hmem
      · simp only [Event.Creator.injEq] at hmem
        exact hmem.2.1
      · simp at hmem
      · rcases hrest _ hmem with ⟨p, hp⟩ | ⟨p, hp⟩ | ⟨p, o, hp⟩ <;> simp at hp
    · intro task id procSpec ioCreator hmem
      have hev : Event.Exec task id procSpec ioCreator =
          Event.Exec tk i ps
            (c.ioManager.Creator c.Handle i
              (Cio.Creator.NewCreator ( containerdCIO processIO spec.TTY.isSome))) := by
        rw [heq] at hmem
        simp only [hshape, List.mem_append, List.mem_cons, List.not_mem_nil, or_false] at hmem
        rcases hmem with hmem | (hmem | hmem | hmem) | hmem
        · have := hpre _ hmem
          simp [Event.beforeExec] at this
        · simp at hmem
        · simp at hmem
        · exact hmem
        · rcases hrest _ hmem with ⟨p, hp⟩ | ⟨p, hp⟩ | ⟨p, o, hp⟩ <;> simp at hp
      simp only [Event.Exec.injEq] at hev
      obtain ⟨rfl, rfl, rfl, rfl⟩ := hev
      refine ⟨(hid id rfl).1, (hid id rfl).2,
        Cio.Creator.NewCreator ( containerdCIO processIO spec.TTY.isSome), rfl,
        pre ++ [Event.ID], rest, ?_⟩
      rw [heq]
      simp [hshape]

/-- C16, at samples: a given id is used as it is; with no id given, the text of
the generated UUID is used for the creator and for the exec. -/
theorem process_id_selection_witness :
    (Event.Creator "some-handle" "proc-1"
          (Cio.Creator.NewCreator [Cio.Opt.WithStreams none none none]) ∈
          (Sample.healthy.Run Sample.newRandom Sample.spec Sample.processIO).trace ∧
        Sample.spec.ID ≠ "" ∧ "proc-1" = Sample.spec.ID) ∧
      (Event.Exec { id := 1 } "123e4567-e89b-42d3-a456-426614174000"
          { Terminal := false
            ConsoleSize := none
            User := { UID := 0, GID := 0, Username := "root" }
            Args := ["/bin/ls", "-l"]
            Env := ["HOME=/root", "FOO=bar", SuperuserPath]
            Cwd := "/" }
          (Cio.Creator.NewCreator [Cio.Opt.WithStreams none none none]) ∈
          (Sample.healthy.Run Sample.newRandom Sample.anonymousSpec Sample.processIO).trace ∧
        Sample.anonymousSpec.ID = "" ∧
        ∃ uuid, Sample.newRandom = Except.ok uuid ∧
          "123e4567-e89b-42d3-a456-426614174000" = uuid.String ∧
          "123e4567-e89b-42d3-a456-426614174000" ≠ "" ∧
          Event.NewRandom ∈
            (Sample.healthy.Run Sample.newRandom Sample.anonymousSpec Sample.processIO).trace) :=
  ⟨⟨by decide, by decide,
      ((process_id_selection Sample.healthy Sample.newRandom Sample.spec Sample.processIO).1
        "some-handle" "proc-1" (Cio.Creator.NewCreator [Cio.Opt.WithStreams none none none])
        (by decide)).1 (by decide)⟩,
    by decide, rfl,
    ((process_id_selection Sample.healthy Sample.newRandom Sample.anonymousSpec
      Sample.processIO).2 { id := 1 } "123e4567-e89b-42d3-a456-426614174000"
        { Terminal := false
          ConsoleSize := none
          User := { UID := 0, GID := 0, Username := "root" }
          Args := ["/bin/ls", "-l"]
          Env := ["HOME=/root", "FOO=bar", SuperuserPath]
          Cwd := "/" }
        (Cio.Creator.NewCreator [Cio.Opt.WithStreams none none none]) (by decide)).2.1 rfl⟩

/-! ## The working directory -/

theorem withDefaultPath_cwd (q : Specs.Process) : (withDefaultPath q).Cwd = q.Cwd := by
  unfold withDefaultPath
  split <;> rfl

/-- The working directory of the constructed process. -/
theorem setup_cwd (c : Container) (spec : Garden.ProcessSpec) (cs : Specs.Spec)
    (procSpec : Specs.Process)
    (hok : (c.setupContainerdProcSpec spec cs).out = Outcome.ok procSpec) :
    procSpec.Cwd = if spec.Dir = "" then "/" else spec.Dir := by
  rcases hproc : cs.Process with _ | proc
  · rw [setup_nil_process c spec cs hproc] at hok
    simp at hok
  · by_cases huser : spec.User = ""
    · rw [setup_no_user c spec cs proc hproc huser] at hok
      simp only [Outcome.ok.injEq] at hok
      subst hok
      rw [withDefaultPath_cwd]
      rfl
    · rcases hroot : cs.Root with _ | root
      · rw [setup_nil_root c spec cs proc hproc hroot huser] at hok
        simp at hok
      · rcases hl : c.rootfsManager.LookupUser root.Path spec.User with ⟨user, ok, err⟩
        rcases err with _ | err
        · rcases ok with _ | _
          · rw [setup_user_missing c spec cs proc root user hproc hroot huser hl] at hok
            simp at hok
          · rw [setup_user_found c spec cs proc root user hproc hroot huser hl] at hok
            simp only [Outcome.ok.injEq] at hok
            subst hok
            rw [withDefaultPath_cwd]
            rfl
        · rw [setup_lookup_error c spec cs proc root user ok err hproc hroot huser hl] at hok
          simp at hok

theorem setup_trace_lookup (c : Container) (spec : Garden.ProcessSpec) (cs : Specs.Spec) :
    ∀ ev ∈ (c.setupContainerdProcSpec spec cs).trace, ∃ r u, ev = Event.LookupUser r u := by
  rcases hproc : cs.Process with _ | proc
  · simp [setup_nil_process c spec cs hproc]
  · by_cases huser : spec.User = ""
    · simp [setup_no_user c spec cs proc hproc huser]
    · rcases hroot : cs.Root with _ | root
      · simp [setup_nil_root c spec cs proc hproc hroot huser]
      · simp [setup_user c spec cs proc root hproc hroot huser]

theorem recreateInitTask_trace_events (c : Container) :
    ∀ ev ∈ c.recreateInitTask.trace,
      (∃ io opts, ev = Event.NewTask io opts) ∨ ∃ t, ev = Event.TaskStart t := by
  rw [recreateInitTask_eq]
  rcases c.container.NewTask _ _ with err | t <;> simp

/-- Either `prepare` ends before the working directory is set up, or the
container spec, the process spec and the root are there and the working
directory of the process spec is set up in the root: if that fails, `prepare`
ends with the error; if not, the task lookup follows. -/
theorem prepare_cwd_cases (c : Container) (spec : Garden.ProcessSpec) :
    ((∀ ev ∈ (c.prepare spec).trace, ev = Event.Spec ∨ ∃ r u, ev = Event.LookupUser r u) ∧
        ∀ r, (c.prepare spec).out ≠ Outcome.ok r) ∨
      ∃ cs root t1 procSpec,
        c.container.Spec = Except.ok (some cs) ∧
        c.setupContainerdProcSpec spec cs = ⟨t1, Outcome.ok procSpec⟩ ∧
        cs.Root = some root ∧
        ((∃ err, c.rootfsManager.SetupCwd root.Path procSpec.Cwd = some err ∧
            c.prepare spec =
              ⟨Event.Spec :: t1 ++ [Event.SetupCwd root.Path procSpec.Cwd],
                Outcome.error (GoError.wrapped "setup cwd" err)⟩) ∨
          (c.rootfsManager.SetupCwd root.Path procSpec.Cwd = none ∧
            ∃ rest, (c.prepare spec).trace =
                Event.Spec :: t1 ++
                  Event.SetupCwd root.Path procSpec.Cwd :: Event.Task none :: rest ∧
              ∀ ev ∈ rest,
                (∃ io opts, ev = Event.NewTask io opts) ∨ ∃ t, ev = Event.TaskStart t)) := by
  have h2 := recreateInitTask_trace_events c
  unfold Container.prepare
  simp only [bind, pure, Step.call, Step.fail, Step.deref, Step.throwPanic, Step.bind_ok]
  rcases hspec : c.container.Spec with err | _ | cs
  · left
    simp
  · left
    simp [Step.bind_panicked]
  · have h1 := setup_trace_lookup c spec cs
    simp only [Step.bind_ok]
    rcases hsetup : c.setupContainerdProcSpec spec cs with ⟨t1, procSpec | e | r⟩
    · rw [hsetup] at h1
      simp only at h1
      simp only [Step.bind_ok]
      rcases hroot : cs.Root with _ | root
      · left
        simp only [Step.bind_panicked, List.append_nil]
        refine ⟨?_, by simp⟩
        simp only [List.mem_append, List.mem_cons, List.mem_singleton, List.not_mem_nil,
          or_false, false_or, or_imp, forall_and, forall_eq]
        exact ⟨Or.inl trivial, fun ev hev => Or.inr (h1 ev hev)⟩
      · simp only [Step.bind_ok]
        right
        refine ⟨cs, root, t1, procSpec, rfl, hsetup, hroot, ?_⟩
        rcases hcwd : c.rootfsManager.SetupCwd root.Path procSpec.Cwd with _ | err
        · right
          refine ⟨rfl, ?_⟩
          simp only [Step.bind_ok]
          rcases c.container.Task none with err | task
          · by_cases hnf : err.IsNotFound = true
            · refine ⟨c.recreateInitTask.trace, ?_, h2⟩
              rcases c.recreateInitTask with ⟨t2, _ | _ | _⟩ <;>
                simp [hnf, Step.bind_ok, Step.bind_error, Step.bind_panicked]
            · exact ⟨[], by simp [hnf, Step.bind_error], by simp⟩
          · exact ⟨[], by simp, by simp⟩
        · left
          exact ⟨err, rfl, by simp [Step.bind_error]⟩
    · left
      rw [hsetup] at h1
      simp only at h1
      simp only [Step.bind_error, List.append_nil]
      refine ⟨?_, by simp⟩
      simp only [List.mem_append, List.mem_cons, List.mem_singleton, List.not_mem_nil,
        or_false, false_or, or_imp, forall_and, forall_eq]
      exact ⟨Or.inl trivial, fun ev hev => Or.inr (h1 ev hev)⟩
    · left
      rw [hsetup] at h1
      simp only at h1
      simp only [Step.bind_panicked, List.append_nil]
      refine ⟨?_, by simp⟩
      simp only [List.mem_append, List.mem_cons, List.mem_singleton, List.not_mem_nil,
        or_false, false_or, or_imp, forall_and, forall_eq]
      exact ⟨Or.inl trivial, fun ev hev => Or.inr (h1 ev hev)⟩

/-- The calls of `runOnTask`: the random source, the handle, the I/O manager,
the task's exec and the process. -/
theorem runOnTask_trace_events (c : Container) (newRandom : Except GoError Uuid.UUID)
    (spec : Garden.ProcessSpec) ( processIO : Garden.ProcessIO) (procSpec : Specs.Process)
    (task : Containerd.Task) :
    ∀ ev ∈ (c.runOnTask newRandom spec processIO procSpec task).trace,
      ev = Event.NewRandom ∨ ev = Event.ID ∨ (∃ h i cr, ev = Event.Creator h i cr) ∨
        (∃ i io, ev = Event.Exec task i procSpec io) ∨ (∃ p, ev = Event.Wait p) ∨
        (∃ p, ev = Event.Start p) ∨ ∃ p o, ev = Event.CloseIO p o := by
  have key : ∀ id, ∀ ev ∈ (c.execProcess spec processIO procSpec task id).trace,
      ev = Event.NewRandom ∨ ev = Event.ID ∨ (∃ h i cr, ev = Event.Creator h i cr) ∨
        (∃ i io, ev = Event.Exec task i procSpec io) ∨ (∃ p, ev = Event.Wait p) ∨
        (∃ p, ev = Event.Start p) ∨ ∃ p o, ev = Event.CloseIO p o := by
    intro id ev hev
    obtain ⟨rest, hshape, hrest⟩ := execProcess_trace_shape c spec processIO procSpec task id
    rw [hshape] at hev
    simp only [List.mem_append, List.mem_cons, List.not_mem_nil, or_false] at hev
    rcases hev with (rfl | rfl | rfl) | hev
    · exact Or.inr (Or.inl rfl)
    · exact Or.inr (Or.inr (Or.inl ⟨_, _, _, rfl⟩))
    · exact Or.inr (Or.inr (Or.inr (Or.inl ⟨_, _, rfl⟩)))
    · exact Or.inr (Or.inr (Or.inr (Or.inr (hrest ev hev))))
  rw [runOnTask_eq_bind, procID_eq]
  by_cases hid : spec.ID = ""
  · rcases newRandom with err | uuid
    · simp [hid, Step.bind_panicked]
    · intro ev hev
      simp only [hid, if_true, Step.bind_ok, List.mem_append, List.mem_singleton] at hev
      rcases hev with rfl | hev
      · exact Or.inl rfl
      · exact key _ ev hev
  · intro ev hev
    simp only [hid, if_false, Step.bind_ok, List.nil_append] at hev
    exact key _ ev hev

/-- The calls of `Run` are those of `prepare` and then, if `prepare` ended with
a task, those of `runOnTask`. -/
theorem Run_trace_prepare (c : Container) (newRandom : Except GoError Uuid.UUID)
    (spec : Garden.ProcessSpec) ( processIO : Garden.ProcessIO) :
    ∃ tail,
      (c.Run newRandom spec processIO).trace = (c.prepare spec).trace ++ tail ∧
      (∀ ev ∈ tail,
        ev = Event.NewRandom ∨ ev = Event.ID ∨ (∃ h i cr, ev = Event.Creator h i cr) ∨
          (∃ t i ps io, ev = Event.Exec t i ps io) ∨ (∃ p, ev = Event.Wait p) ∨
          (∃ p, ev = Event.Start p) ∨ ∃ p o, ev = Event.CloseIO p o) ∧
      ((∀ r, (c.prepare spec).out ≠ Outcome.ok r) → tail = []) ∧
      ∀ e, (c.prepare spec).out = Outcome.error e →
        (c.Run newRandom spec processIO).out = Outcome.error e := by
  rw [Run_eq_bind]
  rcases hprep : c.prepare spec with ⟨t, ⟨procSpec, task⟩ | e | r⟩
  · refine ⟨(c.runOnTask newRandom spec processIO procSpec task).trace, by simp [Step.bind_ok],
      ?_, ?_, by simp⟩
    · intro ev hev
      rcases runOnTask_trace_events c newRandom spec processIO procSpec task ev hev with
        h | h | h | ⟨i, io, h⟩ | h | h | h
      · exact Or.inl h
      · exact Or.inr (Or.inl h)
      · exact Or.inr (Or.inr (Or.inl h))
      · exact Or.inr (Or.inr (Or.inr (Or.inl ⟨task, i, procSpec, io, h⟩)))
      · exact Or.inr (Or.inr (Or.inr (Or.inr (Or.inl h))))
      · exact Or.inr (Or.inr (Or.inr (Or.inr (Or.inr (Or.inl h)))))
      · exact Or.inr (Or.inr (Or.inr (Or.inr (Or.inr (Or.inr h)))))
    · intro h
      exact absurd rfl (h (procSpec, task))
  · exact ⟨[], by simp [Step.bind_error], by simp, fun _ => rfl, by simp [Step.bind_error]⟩
  · exact ⟨[], by simp [Step.bind_panicked], by simp, fun _ => rfl, by simp⟩

/-- C17: the working directory of the constructed process is `spec.Dir` when
that is not empty and "/" when it is. Every call of `SetupCwd` in a run of
`Run` is made with the path of the container spec's root filesystem and with
that directory; before it only the spec retrieval and the user lookup are
called, and `SetupCwd` is not called again after it; if it fails, `Run` returns
the error wrapped as "setup cwd" and neither looks a task up nor exec's a
process. A run that looks the task up or exec's a process has called
`SetupCwd` with success. -/
theorem working_directory (c : Container) (newRandom : Except GoError Uuid.UUID)
    (spec : Garden.ProcessSpec) ( processIO : Garden.ProcessIO) :
    (∀ cs procSpec, (c.setupContainerdProcSpec spec cs).out = Outcome.ok procSpec →
        procSpec.Cwd = if spec.Dir = "" then "/" else spec.Dir) ∧
      (∀ rootfsPath cwd,
        Event.SetupCwd rootfsPath cwd ∈ (c.Run newRandom spec processIO).trace →
          cwd = (if spec.Dir = "" then "/" else spec.Dir) ∧
            (∃ cs root, c.container.Spec = Except.ok (some cs) ∧ cs.Root = some root ∧
              rootfsPath = root.Path) ∧
            (∃ pre post,
              (c.Run newRandom spec processIO).trace =
                  pre ++ Event.SetupCwd rootfsPath cwd :: post ∧
                (∀ ev ∈ pre, ev = Event.Spec ∨ ∃ r u, ev = Event.LookupUser r u) ∧
                ∀ ev ∈ post, ∀ r d, ev ≠ Event.SetupCwd r d) ∧
            ∀ err, c.rootfsManager.SetupCwd rootfsPath cwd = some err →
              (c.Run newRandom spec processIO).out =
                  Outcome.error (GoError.wrapped "setup cwd" err) ∧
                ∀ ev ∈ (c.Run newRandom spec processIO).trace,
                  (∀ attach, ev ≠ Event.Task attach) ∧
                    ∀ t i ps io, ev ≠ Event.Exec t i ps io) ∧
      ∀ ev ∈ (c.Run newRandom spec processIO).trace,
        ((∃ attach, ev = Event.Task attach) ∨ ∃ t i ps io, ev = Event.Exec t i ps io) →
          ∃ r d, Event.SetupCwd r d ∈ (c.Run newRandom spec processIO).trace ∧
            c.rootfsManager.SetupCwd r d = none := by
  refine ⟨fun cs procSpec h => setup_cwd c spec cs procSpec h, ?_⟩
  obtain ⟨tail, htrace, htail, hnil, herr⟩ := Run_trace_prepare c newRandom spec processIO
  have htailCwd : ∀ ev ∈ tail, ∀ r d, ev ≠ Event.SetupCwd r d := by
    intro ev hev r d hh
    subst hh
    rcases htail _ hev with h | h | ⟨_, _, _, h⟩ | ⟨_, _, _, _, h⟩ | ⟨_, h⟩ | ⟨_, h⟩ | ⟨_, _, h⟩ <;>
      simp at h
  have htailTask : ∀ ev ∈ tail, ∀ attach, ev ≠ Event.Task attach := by
    intro ev hev a hh
    subst hh
    rcases htail _ hev with h | h | ⟨_, _, _, h⟩ | ⟨_, _, _, _, h⟩ | ⟨_, h⟩ | ⟨_, h⟩ | ⟨_, _, h⟩ <;>
      simp at h
  rcases prepare_cwd_cases c spec with
    ⟨hA, hout⟩ | ⟨cs, root, t1, procSpec, hspec, hsetup, hroot, hB⟩
  · have ht : tail = [] := hnil hout
    subst ht
    rw [List.append_nil] at htrace
    constructor
    · intro r d hmem
      rw [htrace] at hmem
      rcases hA _ hmem with h | ⟨_, _, h⟩ <;> simp at h
    · rintro ev hev (⟨a, rfl⟩ | ⟨t, i, ps, io, rfl⟩)
      · rw [htrace] at hev
        rcases hA _ hev with h | ⟨_, _, h⟩ <;> simp at h
      · rw [htrace] at hev
        rcases hA _ hev with h | ⟨_, _, h⟩ <;> simp at h
  · have h1 : ∀ ev ∈ t1, ∃ r u, ev = Event.LookupUser r u := by
      have := setup_trace_lookup c spec cs
      rw [hsetup] at this
      exact this
    have hcwd : procSpec.Cwd = if spec.Dir = "" then "/" else spec.Dir :=
      setup_cwd c spec cs procSpec (by rw [hsetup])
    have hpre : ∀ ev ∈ Event.Spec :: t1, ev = Event.Spec ∨ ∃ r u, ev = Event.LookupUser r u := by
      intro ev hev
      simp only [List.mem_cons] at hev
      rcases hev with rfl | hev
      · exact Or.inl rfl
      · exact Or.inr (h1 ev hev)
    have hpreCwd : ∀ r d, Event.SetupCwd r d ∉ Event.Spec :: t1 := by
      intro r d hmem
      rcases hpre _ hmem with h | ⟨_, _, h⟩ <;> simp at h
    have hpreTask : ∀ ev ∈ Event.Spec :: t1,
        (∀ attach, ev ≠ Event.Task attach) ∧ ∀ t i ps io, ev ≠ Event.Exec t i ps io := by
      intro ev hev
      rcases hpre _ hev with rfl | ⟨_, _, rfl⟩ <;> simp
    rcases hB with ⟨err0, hfail, hprep⟩ | ⟨hsucc, rest, hprep, hrest⟩
    · have ht : tail = [] := hnil (by rw [hprep]; simp)
      subst ht
      rw [List.append_nil, hprep] at htrace
      have hrunout := herr _ (by rw [hprep])
      constructor
      · intro r d hmem
        have heq : r = root.Path ∧ d = procSpec.Cwd := by
          rw [htrace] at hmem
          simp only [List.mem_append, List.mem_singleton] at hmem
          rcases hmem with hmem | hmem
          · exact absurd hmem (hpreCwd r d)
          · simpa using hmem
        obtain ⟨rfl, rfl⟩ := heq
        refine ⟨hcwd, ⟨cs, root, hspec, hroot, rfl⟩, ⟨Event.Spec :: t1, [], ?_, hpre, by simp⟩, ?_⟩
        · rw [htrace]
        · intro err he
          rw [hfail] at he
          simp only [Option.some.injEq] at he
          subst he
          refine ⟨hrunout, ?_⟩
          intro ev hev
          rw [htrace] at hev
          simp only [List.mem_append, List.mem_singleton] at hev
          rcases hev with hev | rfl
          · exact hpreTask ev hev
          · simp
      · rintro ev hev (⟨a, rfl⟩ | ⟨t, i, ps, io, rfl⟩)
        · rw [htrace] at hev
          simp only [List.mem_append, List.mem_singleton] at hev
          rcases hev with hev | hev
          · exact absurd rfl ((hpreTask _ hev).1 a)
          · simp at hev
        · rw [htrace] at hev
          simp only [List.mem_append, List.mem_singleton] at hev
          rcases hev with hev | hev
          · exact absurd rfl ((hpreTask _ hev).2 t i ps io)
          · simp at hev
    · rw [hprep] at htrace
      have hpost : ∀ ev ∈ Event.Task none :: rest ++ tail, ∀ r d, ev ≠ Event.SetupCwd r d := by
        intro ev hev r d hh
        subst hh
        simp only [List.cons_append, List.mem_cons, List.mem_append] at hev
        rcases hev with hev | hev | hev
        · simp at hev
        · rcases hrest _ hev with ⟨_, _, h⟩ | ⟨_, h⟩ <;> simp at h
        · exact htailCwd _ hev r d rfl
      have hsplit : (c.Run newRandom spec processIO).trace =
          (Event.Spec :: t1) ++ Event.SetupCwd root.Path procSpec.Cwd ::
            (Event.Task none :: rest ++ tail) := by
        rw [htrace]
        simp
      constructor
      · intro r d hmem
        have heq : r = root.Path ∧ d = procSpec.Cwd := by
          rw [hsplit] at hmem
          simp only [List.mem_append, List.mem_cons] at hmem
          rcases hmem with hmem | hmem | hmem
          · exact absurd (by simpa using hmem) (hpreCwd r d)
          · simpa using hmem
          · exact absurd rfl (hpost _ (by simpa using hmem) r d)
        obtain ⟨rfl, rfl⟩ := heq
        refine ⟨hcwd, ⟨cs, root, hspec, hroot, rfl⟩,
          ⟨Event.Spec :: t1, Event.Task none :: rest ++ tail, hsplit, hpre, hpost⟩, ?_⟩
        intro err he
        rw [hsucc] at he
        simp at he
      · intro ev _ _
        exact ⟨root.Path, procSpec.Cwd, by rw [hsplit]; simp, hsucc⟩

/-- C17, at samples: the directory "/work" is set up in "/rootfs"; when that
fails, `Run` returns "setup cwd". -/
theorem working_directory_witness :
    (Event.SetupCwd "/rootfs" "/work" ∈
          (Sample.healthy.Run Sample.newRandom Sample.workSpec Sample.processIO).trace ∧
        "/work" = (if Sample.workSpec.Dir = "" then "/" else Sample.workSpec.Dir)) ∧
      (Event.SetupCwd "/rootfs" "/" ∈
          (Sample.brokenCwd.Run Sample.newRandom Sample.spec Sample.processIO).trace ∧
        Sample.brokenCwd.rootfsManager.SetupCwd "/rootfs" "/" = some Sample.cwdFailed ∧
        (Sample.brokenCwd.Run Sample.newRandom Sample.spec Sample.processIO).out =
          Outcome.error (GoError.wrapped "setup cwd" Sample.cwdFailed)) :=
  ⟨⟨by decide,
      ((working_directory Sample.healthy Sample.newRandom Sample.workSpec Sample.processIO).2.1
        "/rootfs" "/work" (by decide)).1⟩,
    by decide, rfl,
    (((working_directory Sample.brokenCwd Sample.newRandom Sample.spec Sample.processIO).2.1
      "/rootfs" "/" (by decide)).2.2.2 Sample.cwdFailed rfl).1⟩

/-! ## The build tracker: enrollment -/

namespace Builds

theorem Consistent_init : Tracker.init.Consistent := by
  refine ⟨?_, ?_, ?_⟩ <;> simp [Tracker.init]

theorem Consistent_enroll (t : Tracker) (b : Build) (h : t.Consistent) :
    (t.enroll b).Consistent := by
  obtain ⟨h1, h2, h3⟩ := h
  unfold Tracker.enroll
  by_cases hk : trackingKey b ∈ t.running
  · simp only [hk, if_true]
    exact ⟨h1, h2, h3⟩
  · simp only [hk, if_false]
    refine ⟨?_, ?_, ?_⟩
    · simp only [List.map_append, List.map_cons, List.map_nil]
      rw [List.nodup_append]
      refine ⟨h1, List.nodup_singleton _, ?_⟩
      intro k hk1 hk2
      rw [List.mem_singleton] at hk2
      subst hk2
      exact hk ((h3 _).2 hk1)
    · exact List.nodup_cons.2 ⟨hk, h2⟩
    · intro k
      simp only [List.mem_cons, List.map_append, List.map_cons, List.map_nil, List.mem_append,
        List.mem_singleton, List.not_mem_nil, or_false, h3 k]
      exact or_comm

theorem Consistent_foldl_enroll (l : List Build) (t : Tracker) (h : t.Consistent) :
    (l.foldl Tracker.enroll t).Consistent := by
  induction l generalizing t with
  | nil => exact h
  | cons b l ih => exact ih _ (Consistent_enroll t b h)

theorem Consistent_Run (t : Tracker) (startedBuilds : Except GoError (List Build))
    (h : t.Consistent) : (t.Run startedBuilds).1.Consistent := by
  cases startedBuilds with
  | error err => exact h
  | ok builds => exact Consistent_foldl_enroll _ _ h

theorem Consistent_remove (t : Tracker) (b : Build) (h : t.Consistent) (hb : b ∈ t.active) :
    ((t.active.erase b).map trackingKey).Nodup ∧
      (t.running.erase (trackingKey b)).Nodup ∧
      ∀ k, k ∈ t.running.erase (trackingKey b) ↔ k ∈ (t.active.erase b).map trackingKey := by
  obtain ⟨h1, h2, h3⟩ := h
  have hnd : t.active.Nodup := List.Nodup.of_map _ h1
  have hinj := List.inj_on_of_nodup_map h1
  refine ⟨?_, h2.erase _, ?_⟩
  · exact h1.sublist ((List.erase_sublist b t.active).map trackingKey)
  · intro k
    rw [h2.mem_erase_iff, h3 k, List.mem_map, List.mem_map]
    constructor
    · rintro ⟨hne, x, hx, rfl⟩
      refine ⟨x, ?_, rfl⟩
      rw [hnd.mem_erase_iff]
      exact ⟨fun hxb => hne (by rw [hxb]), hx⟩
    · rintro ⟨x, hx, rfl⟩
      rw [hnd.mem_erase_iff] at hx
      exact ⟨fun hkk => hx.1 (hinj hx.2 hb hkk), x, hx.2, rfl⟩

theorem Consistent_complete (t : Tracker) (b : Build) (h : t.Consistent) :
    (t.complete b).Consistent := by
  unfold Tracker.complete
  by_cases hb : b ∈ t.active
  · simp only [hb, if_true]
    exact Consistent_remove t b h hb
  · simp only [hb, if_false]
    exact h

theorem Consistent_recoverPanic (t : Tracker) (b : Build) (h : t.Consistent) :
    (t.recoverPanic b).Consistent := by
  unfold Tracker.recoverPanic
  by_cases hb : b ∈ t.active
  · simp only [hb, if_true]
    exact Consistent_remove t b h hb
  · simp only [hb, if_false]
    exact h

theorem Consistent_step (t : Tracker) (a : Action) (h : t.Consistent) :
    (t.step a).Consistent := by
  cases a with
  | run startedBuilds => exact Consistent_Run t startedBuilds h
  | enroll b => exact Consistent_enroll t b h
  | send b => exact h
  | complete b => exact Consistent_complete t b h
  | panic b => exact Consistent_recoverPanic t b h

theorem Consistent_foldl_step (actions : List Action) (t : Tracker) (h : t.Consistent) :
    (actions.foldl Tracker.step t).Consistent := by
  induction actions generalizing t with
  | nil => exact h
  | cons a l ih => exact ih _ (Consistent_step t a h)

theorem Consistent_after (actions : List Action) : (Tracker.after actions).Consistent :=
  Consistent_foldl_step actions _ Consistent_init

/-- What a run of enrollments starts: only builds whose key was not in the
running set, and the running set and the other records only grow. -/
theorem foldl_enroll_started (l : List Build) (t : Tracker) :
    ∃ news : List Build,
      (l.foldl Tracker.enroll t).started = t.started ++ news ∧
      (l.foldl Tracker.enroll t).active = t.active ++ news ∧
      (l.foldl Tracker.enroll t).finished = t.finished ∧
      (l.foldl Tracker.enroll t).channel = t.channel ∧
      news.Sublist l ∧
      (∀ n ∈ news, trackingKey n ∉ t.running) ∧
      (∀ k, k ∈ (l.foldl Tracker.enroll t).running ↔
        k ∈ t.running ∨ k ∈ l.map trackingKey) := by
  induction l generalizing t with
  | nil => exact ⟨[], by simp⟩
  | cons b l ih =>
    obtain ⟨news, h1, h2, h3, h4, h5, h6, h7⟩ := ih (t.enroll b)
    simp only [List.foldl_cons]
    by_cases hk : trackingKey b ∈ t.running
    · have he : t.enroll b = t := by simp [Tracker.enroll, hk]
      rw [he] at h1 h2 h3 h4 h6 h7
      refine ⟨news, by rw [he]; exact h1, by rw [he]; exact h2, by rw [he]; exact h3,
        by rw [he]; exact h4, h5.trans (List.sublist_cons_self _ _), h6, ?_⟩
      intro k
      rw [he, h7 k]
      simp only [List.map_cons, List.mem_cons]
      constructor
      · rintro (h | h)
        · exact Or.inl h
        · exact Or.inr (Or.inr h)
      · rintro (h | h | h)
        · exact Or.inl h
        · exact Or.inl (h ▸ hk)
        · exact Or.inr h
    · have hr : (t.enroll b).running = trackingKey b :: t.running := by
        simp [Tracker.enroll, hk]
      have hs : (t.enroll b).started = t.started ++ [b] := by simp [Tracker.enroll, hk]
      have ha : (t.enroll b).active = t.active ++ [b] := by simp [Tracker.enroll, hk]
      have hf : (t.enroll b).finished = t.finished := by simp [Tracker.enroll, hk]
      have hc : (t.enroll b).channel = t.channel := by simp [Tracker.enroll, hk]
      refine ⟨b :: news, by rw [h1, hs]; simp, by rw [h2, ha]; simp, by rw [h3, hf],
        by rw [h4, hc], h5.cons₂ b, ?_, ?_⟩
      · intro n hn
        rcases List.mem_cons.1 hn with rfl | hn
        · exact hk
        · intro hkn
          exact h6 n hn (by rw [hr]; exact List.mem_cons_of_mem _ hkn)
      · intro k
        rw [h7 k, hr]
        simp only [List.map_cons, List.mem_cons]
        constructor
        · rintro ((h | h) | h)
          · exact Or.inr (Or.inl h)
          · exact Or.inl h
          · exact Or.inr (Or.inr h)
        · rintro (h | h | h)
          · exact Or.inl (Or.inr h)
          · exact Or.inl (Or.inl h)
          · exact Or.inr h

end Builds

namespace Builds

theorem Run_ok_eq (t : Tracker) (builds : List Build) :
    t.Run (Except.ok builds) =
      ((builds ++ t.channel).foldl Tracker.enroll { t with channel := [] }, none) := rfl

theorem enroll_of_mem (t : Tracker) (b : Build) (h : trackingKey b ∈ t.running) :
    t.enroll b = t := by
  simp [Tracker.enroll, h]

theorem enroll_of_not_mem (t : Tracker) (b : Build) (h : trackingKey b ∉ t.running) :
    t.enroll b =
      { t with
        running := trackingKey b :: t.running
        active := t.active ++ [b]
        started := t.started ++ [b] } := by
  simp [Tracker.enroll, h]

theorem recoverPanic_of_mem (t : Tracker) (b : Build) (h : b ∈ t.active) :
    t.recoverPanic b =
      { t with
        finished := t.finished ++ [(b, BuildStatus.errored)]
        active := t.active.erase b
        running := t.running.erase (trackingKey b) } := by
  simp [Tracker.recoverPanic, h]

/-- What a call of `Run` starts when the query succeeds. -/
theorem Run_started (t : Tracker) (builds : List Build) :
    ∃ news : List Build,
      (t.Run (Except.ok builds)).1.started = t.started ++ news ∧
      (t.Run (Except.ok builds)).1.active = t.active ++ news ∧
      (t.Run (Except.ok builds)).1.finished = t.finished ∧
      news.Sublist (builds ++ t.channel) ∧
      (∀ n ∈ news, trackingKey n ∉ t.running) ∧
      (∀ k, k ∈ (t.Run (Except.ok builds)).1.running ↔
        k ∈ t.running ∨ k ∈ (builds ++ t.channel).map trackingKey) := by
  obtain ⟨news, h1, h2, h3, _, h5, h6, h7⟩ :=
    foldl_enroll_started (builds ++ t.channel) { t with channel := [] }
  exact ⟨news, h1, h2, h3, h5, h6, h7⟩

/-- C18: at-most-once enrollment. After every sequence of steps of the build
tracker (calls of `Run`, single enrollments of overlapping calls, deliveries of
in-memory builds, returns and panics of executions) no two active executions
have the same tracking key, and the running set holds exactly the keys of the
active executions; a build whose key is in the running set is skipped by the
enrollment, and a call of `Run` starts executions only for builds whose key was
not in the running set. -/
theorem at_most_once_enrollment (actions : List Action) :
    ((Tracker.after actions).active.map trackingKey).Nodup ∧
      (∀ k, k ∈ (Tracker.after actions).running ↔
        k ∈ (Tracker.after actions).active.map trackingKey) ∧
      (∀ b, trackingKey b ∈ (Tracker.after actions).running →
        (Tracker.after actions).enroll b = Tracker.after actions) ∧
      (∀ builds, ∃ news : List Build,
        ((Tracker.after actions).Run (Except.ok builds)).1.started =
            (Tracker.after actions).started ++ news ∧
          ((Tracker.after actions).Run (Except.ok builds)).1.active =
            (Tracker.after actions).active ++ news ∧
          ∀ n ∈ news, trackingKey n ∉ (Tracker.after actions).running) := by
  obtain ⟨h1, _, h3⟩ := Consistent_after actions
  refine ⟨h1, h3, fun b hb => enroll_of_mem _ b hb, ?_⟩
  intro builds
  obtain ⟨news, g1, g2, _, _, g5, _⟩ := Run_started (Tracker.after actions) builds
  exact ⟨news, g1, g2, g5⟩

/-- C18, at a sample: build 1 was started by a first `Run` and has not
finished; its key is in the running set and enrolling it again changes
nothing. -/
theorem at_most_once_enrollment_witness :
    trackingKey ⟨1, 0⟩ ∈ (Tracker.after [Action.run (Except.ok [⟨1, 0⟩, ⟨2, 0⟩])]).running ∧
      (Tracker.after [Action.run (Except.ok [⟨1, 0⟩, ⟨2, 0⟩])]).enroll ⟨1, 0⟩ =
        Tracker.after [Action.run (Except.ok [⟨1, 0⟩, ⟨2, 0⟩])] :=
  ⟨by decide,
    (at_most_once_enrollment [Action.run (Except.ok [⟨1, 0⟩, ⟨2, 0⟩])]).2.2.1 ⟨1, 0⟩
      (by decide)⟩

/-- C19: tracking-key disambiguation. The tracking key of a build is its ID
when the ID is non-zero and its resource ID when the ID is zero. An in-memory
build (ID 0) with resource ID R that is not tracked yet is started and tracked
under R; two in-memory builds with different resource IDs, delivered to a
tracker with an empty channel that tracks neither, are both started by the next
`Run`; and while an in-memory build is active, a `Run` that receives another
in-memory build with the same resource ID starts no execution with that key. -/
theorem tracking_key_disambiguation (actions : List Action) (b : Build) :
    (b.ID ≠ 0 → trackingKey b = b.ID) ∧
      (b.ID = 0 → trackingKey b = b.ResourceID) ∧
      (b.ID = 0 → ∀ t : Tracker, b.ResourceID ∉ t.running →
        (t.enroll b).running = b.ResourceID :: t.running ∧
          (t.enroll b).started = t.started ++ [b] ∧
          (t.enroll b).active = t.active ++ [b]) ∧
      (b.ID = 0 → ∀ (t : Tracker) (b2 : Build), b2.ID = 0 → b.ResourceID ≠ b2.ResourceID →
        t.channel = [] → b.ResourceID ∉ t.running → b2.ResourceID ∉ t.running →
        (((t.send b).send b2).Run (Except.ok [])).1.started = t.started ++ [b, b2] ∧
          (((t.send b).send b2).Run (Except.ok [])).1.active = t.active ++ [b, b2] ∧
          (((t.send b).send b2).Run (Except.ok [])).1.running =
            b2.ResourceID :: b.ResourceID :: t.running) ∧
      (b.ID = 0 → b ∈ (Tracker.after actions).active →
        ∀ b2 : Build, b2.ID = 0 → b2.ResourceID = b.ResourceID →
          (Tracker.after actions).enroll b2 = Tracker.after actions ∧
          ∀ builds, ∃ news : List Build,
            (((Tracker.after actions).send b2).Run (Except.ok builds)).1.started =
                (Tracker.after actions).started ++ news ∧
              ∀ n ∈ news, trackingKey n ≠ b.ResourceID) := by
  have hkey0 : ∀ x : Build, x.ID = 0 → trackingKey x = x.ResourceID := by
    intro x hx
    simp [trackingKey, hx]
  refine ⟨?_, hkey0 b, ?_, ?_, ?_⟩
  · intro h
    simp [trackingKey, h]
  · intro h0 t hr
    have hk : trackingKey b ∉ t.running := by rw [hkey0 b h0]; exact hr
    rw [enroll_of_not_mem t b hk, hkey0 b h0]
    exact ⟨rfl, rfl, rfl⟩
  · intro h0 t b2 h20 hne hch hr hr2
    have hk : trackingKey b ∉ t.running := by rw [hkey0 b h0]; exact hr
    have hk2 : trackingKey b2 ∉ trackingKey b :: t.running := by
      rw [hkey0 b h0, hkey0 b2 h20]
      simp only [List.mem_cons, not_or]
      exact ⟨fun h => hne h.symm, hr2⟩
    have ht : ({ t with channel := [] } : Tracker) = t := by
      cases t
      simp_all
    have hrun : (((t.send b).send b2).Run (Except.ok [])).1 = (t.enroll b).enroll b2 := by
      simp [Tracker.Run, Tracker.send, hch, ht]
    have e1 := enroll_of_not_mem t b hk
    have hk2e : trackingKey b2 ∉ (t.enroll b).running := by
      rw [e1]
      exact hk2
    rw [hrun, enroll_of_not_mem (t.enroll b) b2 hk2e, e1, hkey0 b h0, hkey0 b2 h20]
    refine ⟨?_, ?_, rfl⟩ <;> simp
  · intro h0 hact b2 h20 hsame
    obtain ⟨_, _, h3⟩ := Consistent_after actions
    have hk : b.ResourceID ∈ (Tracker.after actions).running := by
      rw [h3, ← hkey0 b h0]
      exact List.mem_map_of_mem _ hact
    refine ⟨enroll_of_mem _ b2 (by rw [hkey0 b2 h20, hsame]; exact hk), ?_⟩
    intro builds
    obtain ⟨news, g1, _, _, _, g5, _⟩ := Run_started ((Tracker.after actions).send b2) builds
    refine ⟨news, g1, ?_⟩
    intro n hn heq
    exact g5 n hn (by rw [heq]; exact hk)

/-- C19, at samples: the in-memory builds with resource IDs 1 and 2 are both
started, under the keys 1 and 2, and a second build with resource ID 1 is
skipped while the first is active. -/
theorem tracking_key_disambiguation_witness :
    (((Tracker.init.send ⟨0, 1⟩).send ⟨0, 2⟩).Run (Except.ok [])).1.started =
        Tracker.init.started ++ [⟨0, 1⟩, ⟨0, 2⟩] ∧
      (((Tracker.init.send ⟨0, 1⟩).send ⟨0, 2⟩).Run (Except.ok [])).1.running = [2, 1] ∧
      (⟨0, 1⟩ : Build) ∈
        (Tracker.after [Action.send ⟨0, 1⟩, Action.run (Except.ok [])]).active ∧
      (Tracker.after [Action.send ⟨0, 1⟩, Action.run (Except.ok [])]).enroll ⟨0, 1⟩ =
        Tracker.after [Action.send ⟨0, 1⟩, Action.run (Except.ok [])] :=
  ⟨((tracking_key_disambiguation [] ⟨0, 1⟩).2.2.2.1 rfl Tracker.init ⟨0, 2⟩ rfl (by decide) rfl
      (by decide) (by decide)).1,
    ((tracking_key_disambiguation [] ⟨0, 1⟩).2.2.2.1 rfl Tracker.init ⟨0, 2⟩ rfl (by decide) rfl
      (by decide) (by decide)).2.2,
    by decide,
    ((tracking_key_disambiguation [Action.send ⟨0, 1⟩, Action.run (Except.ok [])]
      ⟨0, 1⟩).2.2.2.2 rfl (by decide) ⟨0, 1⟩ rfl rfl).1⟩

/-- C20: panic isolation. Let a call of `Run` whose query succeeded lead to a
state in which the execution of `b` is active, and let that execution panic.
The call of `Run` returned no error, and so does every later call whose query
succeeds; every candidate of the call has its key in the running set, so an
execution for it is active; the panic adds exactly one call of `Finish`, for
`b` with status "errored", starts nothing, takes the key of `b` out of the
running set, and leaves every other execution active with its key in the
running set; `b` is no longer active, so that it cannot be finished a second
time. -/
theorem panic_isolation (actions : List Action) (builds : List Build) (b : Build)
    (hb : b ∈ ((Tracker.after actions).Run (Except.ok builds)).1.active) :
    ((Tracker.after actions).Run (Except.ok builds)).2 = none ∧
      (∀ b2 ∈ builds ++ (Tracker.after actions).channel,
        trackingKey b2 ∈ ((Tracker.after actions).Run (Except.ok builds)).1.running ∧
          ∃ x ∈ ((Tracker.after actions).Run (Except.ok builds)).1.active,
            trackingKey x = trackingKey b2) ∧
      ((((Tracker.after actions).Run (Except.ok builds)).1.recoverPanic b).finished =
        ((Tracker.after actions).Run (Except.ok builds)).1.finished ++
          [(b, BuildStatus.errored)]) ∧
      ((((Tracker.after actions).Run (Except.ok builds)).1.recoverPanic b).started =
        ((Tracker.after actions).Run (Except.ok builds)).1.started) ∧
      trackingKey b ∉
        (((Tracker.after actions).Run (Except.ok builds)).1.recoverPanic b).running ∧
      b ∉ (((Tracker.after actions).Run (Except.ok builds)).1.recoverPanic b).active ∧
      (((Tracker.after actions).Run (Except.ok builds)).1.recoverPanic b).recoverPanic b =
        ((Tracker.after actions).Run (Except.ok builds)).1.recoverPanic b ∧
      (∀ b2 ∈ ((Tracker.after actions).Run (Except.ok builds)).1.active, b2 ≠ b →
        b2 ∈ (((Tracker.after actions).Run (Except.ok builds)).1.recoverPanic b).active ∧
          trackingKey b2 ∈
            (((Tracker.after actions).Run (Except.ok builds)).1.recoverPanic b).running) ∧
      (∀ more,
        ((((Tracker.after actions).Run (Except.ok builds)).1.recoverPanic b).Run
          (Except.ok more)).2 = none) := by
  have hc : (((Tracker.after actions).Run (Except.ok builds)).1).Consistent :=
    Consistent_Run _ _ (Consistent_after actions)
  generalize hT : ((Tracker.after actions).Run (Except.ok builds)).1 = t1 at hb hc ⊢
  obtain ⟨h1, h2, h3⟩ := hc
  have hnd : t1.active.Nodup := List.Nodup.of_map _ h1
  have hinj := List.inj_on_of_nodup_map h1
  obtain ⟨_, r2, r3⟩ := Consistent_remove t1 b ⟨h1, h2, h3⟩ hb
  have hnot : b ∉ t1.active.erase b := by
    rw [hnd.mem_erase_iff]
    exact fun h => h.1 rfl
  refine ⟨rfl, ?_, ?_, ?_, ?_, ?_, ?_, ?_, fun more => rfl⟩
  · intro b2 hb2
    obtain ⟨_, _, _, _, _, _, g7⟩ := Run_started (Tracker.after actions) builds
    rw [hT] at g7
    have hk : trackingKey b2 ∈ t1.running :=
      (g7 _).2 (Or.inr (List.mem_map_of_mem _ hb2))
    refine ⟨hk, ?_⟩
    obtain ⟨x, hx, hxe⟩ := List.mem_map.1 ((h3 _).1 hk)
    exact ⟨x, hx, hxe⟩
  · rw [recoverPanic_of_mem t1 b hb]
  · rw [recoverPanic_of_mem t1 b hb]
  · rw [recoverPanic_of_mem t1 b hb]
    show trackingKey b ∉ t1.running.erase (trackingKey b)
    rw [h2.mem_erase_iff]
    exact fun h => h.1 rfl
  · rw [recoverPanic_of_mem t1 b hb]
    exact hnot
  · rw [recoverPanic_of_mem t1 b hb]
    simp only [Tracker.recoverPanic]
    rw [if_neg hnot]
  · intro b2 hb2 hne
    rw [recoverPanic_of_mem t1 b hb]
    have hm : b2 ∈ t1.active.erase b := by
      rw [hnd.mem_erase_iff]
      exact ⟨hne, hb2⟩
    refine ⟨hm, ?_⟩
    show trackingKey b2 ∈ t1.running.erase (trackingKey b)
    rw [r3]
    exact List.mem_map_of_mem _ hm

/-- C20, at the sample of the test: `Run` finds the started builds 1, 2 and 3,
and the execution of build 1 panics. `Finish` is called once, for build 1 with
"errored"; the running set is then that of the builds 2 and 3. -/
theorem panic_isolation_witness :
    (((Tracker.after []).Run (Except.ok [⟨1, 0⟩, ⟨2, 0⟩, ⟨3, 0⟩])).1.recoverPanic ⟨1, 0⟩).finished =
        [(⟨1, 0⟩, BuildStatus.errored)] ∧
      (((Tracker.after []).Run (Except.ok [⟨1, 0⟩, ⟨2, 0⟩, ⟨3, 0⟩])).1.recoverPanic
        ⟨1, 0⟩).running = [3, 2] ∧
      (⟨2, 0⟩ : Build) ∈
        (((Tracker.after []).Run (Except.ok [⟨1, 0⟩, ⟨2, 0⟩, ⟨3, 0⟩])).1.recoverPanic
          ⟨1, 0⟩).active :=
  ⟨(panic_isolation [] [⟨1, 0⟩, ⟨2, 0⟩, ⟨3, 0⟩] ⟨1, 0⟩ (by decide)).2.2.1,
    by decide,
    ((panic_isolation [] [⟨1, 0⟩, ⟨2, 0⟩, ⟨3, 0⟩] ⟨1, 0⟩ (by decide)).2.2.2.2.2.2.2.1
      ⟨2, 0⟩ (by decide) (by decide)).1⟩

end Builds

/-! ## The command line and the environment of the constructed process -/

/-- A construction that succeeds: either the garden spec names no user, or the
user was looked up in the root filesystem and found. -/
theorem setup_ok_cases (c : Container) (spec : Garden.ProcessSpec) (cs : Specs.Spec)
    (procSpec : Specs.Process)
    (hok : (c.setupContainerdProcSpec spec cs).out = Outcome.ok procSpec) :
    ∃ proc, cs.Process = some proc ∧
      ((spec.User = "" ∧ procSpec = withDefaultPath (baseProcSpec spec proc)) ∨
        (spec.User ≠ "" ∧ ∃ root user, cs.Root = some root ∧
          c.rootfsManager.LookupUser root.Path spec.User = (user, true, none) ∧
          procSpec = withDefaultPath (withUser spec user (baseProcSpec spec proc)))) := by
  rcases hproc : cs.Process with _ | proc
  · rw [setup_nil_process c spec cs hproc] at hok
    simp at hok
  · refine ⟨proc, rfl, ?_⟩
    by_cases huser : spec.User = ""
    · rw [setup_no_user c spec cs proc hproc huser] at hok
      simp only [Outcome.ok.injEq] at hok
      exact Or.inl ⟨huser, hok.symm⟩
    · rcases hroot : cs.Root with _ | root
      · rw [setup_nil_root c spec cs proc hproc hroot huser] at hok
        simp at hok
      · rcases hl : c.rootfsManager.LookupUser root.Path spec.User with ⟨user, ok, err⟩
        rcases err with _ | err
        · rcases ok with _ | _
          · rw [setup_user_missing c spec cs proc root user hproc hroot huser hl] at hok
            simp at hok
          · rw [setup_user_found c spec cs proc root user hproc hroot huser hl] at hok
            simp only [Outcome.ok.injEq] at hok
            exact Or.inr ⟨huser, root, user, rfl, hl, hok.symm⟩
        · rw [setup_lookup_error c spec cs proc root user ok err hproc hroot huser hl] at hok
          simp at hok

theorem withDefaultPath_args (q : Specs.Process) : (withDefaultPath q).Args = q.Args := by
  unfold withDefaultPath
  split <;> rfl

/-- The process spec of every exec of `Run` is one that
`setupContainerdProcSpec` has constructed from the container spec. -/
theorem Run_exec_procSpec (c : Container) (newRandom : Except GoError Uuid.UUID)
    (spec : Garden.ProcessSpec) ( processIO : Garden.ProcessIO) (t : Containerd.Task)
    (i : String) (ps : Specs.Process) (io : Cio.Creator)
    (hmem : Event.Exec t i ps io ∈ (c.Run newRandom spec processIO).trace) :
    ∃ cs, c.container.Spec = Except.ok (some cs) ∧
      (c.setupContainerdProcSpec spec cs).out = Outcome.ok ps := by
  have hpre := prepare_trace_beforeExec c spec
  rw [Run_eq_bind] at hmem
  rcases hprep : c.prepare spec with ⟨tr, ⟨procSpec, task⟩ | e | r⟩
  · rw [hprep] at hmem hpre
    simp only [Step.bind_ok, List.mem_append] at hmem
    rcases hmem with hmem | hmem
    · have := hpre _ hmem
      simp [Event.beforeExec] at this
    · obtain ⟨-, rfl⟩ :=
        runOnTask_exec_task c newRandom spec processIO procSpec task t i ps io hmem
      rcases prepare_cases c spec with ⟨-, hout⟩ | ⟨cs, root, t1, q, hspec, hsetup, -, -, heq⟩
      · exact absurd (by rw [hprep]) (hout (ps, task))
      · refine ⟨cs, hspec, ?_⟩
        rw [hsetup]
        rw [hprep] at heq
        rcases hT : c.container.Task none with err | task0
        · rw [hT] at heq
          by_cases hnf : err.IsNotFound = true
          · simp only [hnf, if_true] at heq
            rcases hr : c.recreateInitTask.out with it | e | r
            · rw [hr] at heq
              simp only [Step.mk.injEq, Outcome.ok.injEq, Prod.mk.injEq] at heq
              rw [heq.2.1]
            · rw [hr] at heq
              simp at heq
            · rw [hr] at heq
              simp at heq
          · simp [hnf] at heq
        · rw [hT] at heq
          simp only [Step.mk.injEq, Outcome.ok.injEq, Prod.mk.injEq] at heq
          rw [heq.2.1]
  · rw [hprep] at hmem hpre
    have := hpre _ (by simpa [Step.bind_error] using hmem)
    simp [Event.beforeExec] at this
  · rw [hprep] at hmem hpre
    have := hpre _ (by simpa [Step.bind_panicked] using hmem)
    simp [Event.beforeExec] at this

/-- C27: whenever the construction of the process spec succeeds, the `Args` of
the constructed process are `spec.Path` followed by `spec.Args`, whatever the
container spec (and so whatever arguments its own process has): their number
is `1 + len(spec.Args)` and the first is `spec.Path`; and every exec of `Run`
is given a process spec with these `Args`. -/
theorem command_line_construction (c : Container) (newRandom : Except GoError Uuid.UUID)
    (spec : Garden.ProcessSpec) ( processIO : Garden.ProcessIO) :
    (∀ cs procSpec, (c.setupContainerdProcSpec spec cs).out = Outcome.ok procSpec →
        procSpec.Args = spec.Path :: spec.Args ∧
          procSpec.Args.length = 1 + spec.Args.length ∧
          procSpec.Args.head? = some spec.Path) ∧
      ∀ t i ps io, Event.Exec t i ps io ∈ (c.Run newRandom spec processIO).trace →
        ps.Args = spec.Path :: spec.Args := by
  have key : ∀ cs procSpec, (c.setupContainerdProcSpec spec cs).out = Outcome.ok procSpec →
      procSpec.Args = spec.Path :: spec.Args := by
    intro cs procSpec hok
    obtain ⟨proc, -, ⟨-, rfl⟩ | ⟨-, root, user, -, -, rfl⟩⟩ := setup_ok_cases c spec cs procSpec hok
    · rw [withDefaultPath_args]
      rfl
    · rw [withDefaultPath_args]
      rfl
  refine ⟨fun cs procSpec hok => ?_, fun t i ps io hmem => ?_⟩
  · have h := key cs procSpec hok
    rw [h]
    exact ⟨rfl, by simp [Nat.add_comm], rfl⟩
  · obtain ⟨cs, -, hok⟩ := Run_exec_procSpec c newRandom spec processIO t i ps io hmem
    exact key cs ps hok

/-- C27, at a sample: the container's own process has the arguments
`["/bin/sh"]`; the process of the spec `/bin/ls -l` gets `["/bin/ls", "-l"]`. -/
theorem command_line_construction_witness :
    Sample.rootProcess.Args = ["/bin/sh"] ∧
      Event.Exec { id := 1 } "proc-1"
          { Terminal := false
            ConsoleSize := none
            User := { UID := 0, GID := 0, Username := "root" }
            Args := ["/bin/ls", "-l"]
            Env := ["HOME=/root", "FOO=bar", SuperuserPath]
            Cwd := "/" }
          (Cio.Creator.NewCreator ( containerdCIO Sample.processIO false)) ∈
        (Sample.healthy.Run Sample.newRandom Sample.spec Sample.processIO).trace ∧
      ["/bin/ls", "-l"] = Sample.spec.Path :: Sample.spec.Args :=
  ⟨rfl, by decide,
    (command_line_construction Sample.healthy Sample.newRandom Sample.spec Sample.processIO).2
      { id := 1 } "proc-1"
      { Terminal := false
        ConsoleSize := none
        User := { UID := 0, GID := 0, Username := "root" }
        Args := ["/bin/ls", "-l"]
        Env := ["HOME=/root", "FOO=bar", SuperuserPath]
        Cwd := "/" }
      (Cio.Creator.NewCreator ( containerdCIO Sample.processIO false)) (by decide)⟩

theorem withDefaultPath_env_eq (q : Specs.Process) :
    (withDefaultPath q).Env =
      q.Env ++
        (if q.Env.any (Regexp.MatchString pathRegexp) = true then []
          else [if q.User.UID = 0 then SuperuserPath else Path]) := by
  unfold withDefaultPath envWithDefaultPath
  by_cases hany : q.Env.any (Regexp.MatchString pathRegexp) = true
  · simp [hany]
  · by_cases hu : q.User.UID = 0 <;> simp [hany, hu, SuperuserPath, Path]

theorem default_path_begins_with_PATH (uid : Nat) :
    "PATH=".data <+: (if uid = 0 then SuperuserPath else Path).data := by
  by_cases hu : uid = 0
  · rw [if_pos hu]
    decide
  · rw [if_neg hu]
    decide

/-- C26: whenever the construction of the process spec succeeds, the resulting
`Env` is `containerEnv ++ spec.Env ++ U ++ P`: `containerEnv` is the process
environment of the container spec; `U` is `["USER=" + spec.User]` if
`spec.User` is not empty and is empty otherwise; `P` is the default PATH for
the UID of the resulting process (`SuperuserPath` for 0, `Path` otherwise) if
no entry of `containerEnv ++ spec.Env ++ U` matches `^PATH=.*$`, and is empty
otherwise. The user of the resulting process is the container's when
`spec.User` is empty and the one looked up otherwise. So the supplied entries
are a prefix of the result, at most two entries are added, and the result
has an entry that begins with `PATH=`. -/
theorem environment_construction (c : Container) (spec : Garden.ProcessSpec) (cs : Specs.Spec)
    (procSpec : Specs.Process)
    (hok : (c.setupContainerdProcSpec spec cs).out = Outcome.ok procSpec) :
    ∃ proc U P,
      cs.Process = some proc ∧
      U = (if spec.User = "" then [] else ["USER=" ++ spec.User]) ∧
      P = (if (proc.Env ++ spec.Env ++ U).any (Regexp.MatchString pathRegexp) = true then []
            else [if procSpec.User.UID = 0 then SuperuserPath else Path]) ∧
      procSpec.Env = proc.Env ++ spec.Env ++ U ++ P ∧
      (spec.User = "" → procSpec.User = proc.User) ∧
      (spec.User ≠ "" → ∃ root, cs.Root = some root ∧
        procSpec.User = (c.rootfsManager.LookupUser root.Path spec.User).1) ∧
      proc.Env ++ spec.Env <+: procSpec.Env ∧
      procSpec.Env.length ≤ (proc.Env ++ spec.Env).length + 2 ∧
      ∃ e ∈ procSpec.Env, "PATH=".data <+: e.data := by
  have hpath : ∀ q : Specs.Process, ∃ e ∈ (withDefaultPath q).Env, "PATH=".data <+: e.data := by
    intro q
    rw [withDefaultPath_env_eq]
    by_cases hany : q.Env.any (Regexp.MatchString pathRegexp) = true
    · obtain ⟨e, he, hm⟩ := List.any_eq_true.1 hany
      obtain ⟨v, hv, -⟩ := (pathRegexp_MatchString_iff e).1 hm
      exact ⟨e, List.mem_append_left _ he, ⟨v, hv.symm⟩⟩
    · rw [if_neg hany]
      exact ⟨if q.User.UID = 0 then SuperuserPath else Path, by simp,
        default_path_begins_with_PATH _⟩
  obtain ⟨proc, hproc, ⟨huser, rfl⟩ | ⟨huser, root, user, hroot, hl, rfl⟩⟩ :=
    setup_ok_cases c spec cs procSpec hok
  · refine ⟨proc, [], _, hproc, by simp [huser], rfl, ?_, ?_, ?_, ?_, ?_, hpath _⟩
    · rw [withDefaultPath_env_eq, withDefaultPath_user]
      simp [baseProcSpec]
    · intro _
      rw [withDefaultPath_user]
      rfl
    · intro h
      exact absurd huser h
    · rw [withDefaultPath_env_eq]
      exact ⟨_, rfl⟩
    · rw [withDefaultPath_env_eq]
      simp only [baseProcSpec, List.length_append]
      split <;> simp
  · refine ⟨proc, ["USER=" ++ spec.User], _, hproc, by simp [huser], rfl, ?_, ?_, ?_, ?_, ?_,
      hpath _⟩
    · rw [withDefaultPath_env_eq, withDefaultPath_user]
      simp [withUser, baseProcSpec]
    · intro h
      exact absurd h huser
    · intro _
      refine ⟨root, hroot, ?_⟩
      rw [withDefaultPath_user, hl]
      rfl
    · rw [withDefaultPath_env_eq]
      exact (List.prefix_append (proc.Env ++ spec.Env) ["USER=" ++ spec.User]).trans
        (List.prefix_append _ _)
    · rw [withDefaultPath_env_eq]
      simp only [withUser, baseProcSpec, List.length_append]
      split <;> simp

/-- C26, at a sample: the container's `HOME=/root`, the spec's `FOO=bar`, the
entry `USER=alice`, and the default PATH of a user that is not root. -/
theorem environment_construction_witness :
    ∃ proc U P,
      Sample.containerSpec.Process = some proc ∧
      U = (if Sample.aliceSpec.User = "" then [] else ["USER=" ++ Sample.aliceSpec.User]) ∧
      P = (if (proc.Env ++ Sample.aliceSpec.Env ++ U).any (Regexp.MatchString pathRegexp) = true
            then []
            else [if (1000 : Nat) = 0 then SuperuserPath else Path]) ∧
      ["HOME=/root", "FOO=bar", "USER=alice", Path] = proc.Env ++ Sample.aliceSpec.Env ++ U ++ P :=
  have h := environment_construction Sample.healthy Sample.aliceSpec Sample.containerSpec
    { Terminal := false
      ConsoleSize := none
      User := { UID := 1000, GID := 1000, Username := "alice" }
      Args := ["/bin/ls", "-l"]
      Env := ["HOME=/root", "FOO=bar", "USER=alice", Path]
      Cwd := "/" } (by decide)
  match h with
  | ⟨proc, U, P, h1, h2, h3, h4, _⟩ => ⟨proc, U, P, h1, h2, h3, h4⟩

/-! ## The exit status channel is obtained before the start -/

theorem Run_mem_execProcess (c : Container) (newRandom : Except GoError Uuid.UUID)
    (spec : Garden.ProcessSpec) ( processIO : Garden.ProcessIO) (ev : Event)
    (hev : ev.beforeExec = false) (hmem : ev ∈ (c.Run newRandom spec processIO).trace) :
    ∃ pre procSpec task id,
      (∀ ev ∈ pre, ev.beforeExec = true) ∧
      c.Run newRandom spec processIO =
          ⟨pre ++ (c.execProcess spec processIO procSpec task id).trace,
            (c.execProcess spec processIO procSpec task id).out⟩ ∧
      ev ∈ (c.execProcess spec processIO procSpec task id).trace := by
  rcases Run_cases c newRandom spec processIO with ⟨h, -⟩ | ⟨pre, procSpec, task, id, hpre, heq⟩
  · have := h _ hmem
    rw [hev] at this
    exact absurd this (by decide)
  · refine ⟨pre, procSpec, task, id, hpre, heq, ?_⟩
    rw [heq] at hmem
    simp only [List.mem_append] at hmem
    rcases hmem with hmem | hmem
    · have := hpre _ hmem
      rw [hev] at this
      exact absurd this (by decide)
    · exact hmem

theorem execProcess_wait_failure (c : Container) (spec : Garden.ProcessSpec)
    ( processIO : Garden.ProcessIO) (procSpec : Specs.Process) (task : Containerd.Task)
    (id : String) (proc : Containerd.Process) (err : GoError)
    (hmem : Event.Wait proc ∈ (c.execProcess spec processIO procSpec task id).trace)
    (hwait : c.container.Wait proc = Except.error err) :
    (c.execProcess spec processIO procSpec task id).out =
        Outcome.error (GoError.wrapped "proc wait" err) ∧
      ∀ q, Event.Start q ∉ (c.execProcess spec processIO procSpec task id).trace := by
  rw [execProcess_eq] at hmem ⊢
  rcases hx : c.container.Exec task id procSpec
      (c.ioManager.Creator c.Handle id
        (Cio.Creator.NewCreator ( containerdCIO processIO spec.TTY.isSome))) with e | p
  · simp [hx] at hmem
  · have hp : proc = p := by
      rcases hw : c.container.Wait p with e | ch
      · simpa [hx, hw] using hmem
      · rcases hs : c.container.Start p with _ | e
        · by_cases htty : spec.TTY.isNone = true <;> simpa [hx, hw, hs, htty] using hmem
        · simpa [hx, hw, hs] using hmem
    subst hp
    simp [hwait]

/-- C24: whenever `Run` has called `proc.Start`, the call right before it is
`proc.Wait` on the same process, which has answered with the exit status
channel, and neither `Wait` nor `Start` is called at another point; and
whenever `Run` has called `proc.Wait` and the call has failed, `Run` returns
the error wrapped as "proc wait" and never calls `Start`. -/
theorem wait_before_start (c : Container) (newRandom : Except GoError Uuid.UUID)
    (spec : Garden.ProcessSpec) ( processIO : Garden.ProcessIO) :
    (∀ proc, Event.Start proc ∈ (c.Run newRandom spec processIO).trace →
        ∃ pre post exitStatusC,
          (c.Run newRandom spec processIO).trace =
              pre ++ Event.Wait proc :: Event.Start proc :: post ∧
            c.container.Wait proc = Except.ok exitStatusC ∧
            (∀ q, Event.Start q ∉ pre ∧ Event.Wait q ∉ pre) ∧
            ∀ q, Event.Start q ∉ post ∧ Event.Wait q ∉ post) ∧
      ∀ proc err, Event.Wait proc ∈ (c.Run newRandom spec processIO).trace →
        c.container.Wait proc = Except.error err →
        (c.Run newRandom spec processIO).out =
            Outcome.error (GoError.wrapped "proc wait" err) ∧
          ∀ q, Event.Start q ∉ (c.Run newRandom spec processIO).trace := by
  constructor
  · intro proc hmem
    obtain ⟨pre, procSpec, task, id, hpre, heq, hmem'⟩ :=
      Run_start_mem c newRandom spec processIO proc hmem
    obtain ⟨ch, hx, hw⟩ := execProcess_started c spec processIO procSpec task id proc hmem'
    have htr : (c.execProcess spec processIO procSpec task id).trace =
        [Event.ID,
          Event.Creator c.Handle id
            (Cio.Creator.NewCreator ( containerdCIO processIO spec.TTY.isSome)),
          Event.Exec task id procSpec
            (c.ioManager.Creator c.Handle id
              (Cio.Creator.NewCreator ( containerdCIO processIO spec.TTY.isSome)))] ++
          Event.Wait proc :: Event.Start proc ::
            (match c.container.Start proc with
              | some _ => []
              | none =>
                if spec.TTY.isNone then
                  [Event.CloseIO proc [Containerd.IOCloserOpts.WithStdinCloser]]
                else []) := by
      rw [execProcess_eq]
      simp [hx, hw]
    refine ⟨pre ++ [Event.ID,
        Event.Creator c.Handle id
          (Cio.Creator.NewCreator ( containerdCIO processIO spec.TTY.isSome)),
        Event.Exec task id procSpec
          (c.ioManager.Creator c.Handle id
            (Cio.Creator.NewCreator ( containerdCIO processIO spec.TTY.isSome)))],
      (match c.container.Start proc with
        | some _ => []
        | none =>
          if spec.TTY.isNone then
            [Event.CloseIO proc [Containerd.IOCloserOpts.WithStdinCloser]]
          else []), ch, ?_, hw, ?_, ?_⟩
    · rw [heq]
      simp only [htr, List.append_assoc]
    · intro q
      constructor
      · intro hq
        simp only [List.mem_append, List.mem_cons, List.mem_singleton, List.not_mem_nil,
          or_false] at hq
        rcases hq with hq | hq
        · have := hpre _ hq
          simp [Event.beforeExec] at this
        · simp at hq
      · intro hq
        simp only [List.mem_append, List.mem_cons, List.mem_singleton, List.not_mem_nil,
          or_false] at hq
        rcases hq with hq | hq
        · have := hpre _ hq
          simp [Event.beforeExec] at this
        · simp at hq
    · intro q
      rcases hs : c.container.Start proc with _ | e
      · by_cases htty : spec.TTY.isNone = true <;> simp [htty]
      · simp
  · intro proc err hmem hwait
    obtain ⟨pre, procSpec, task, id, hpre, heq, hmem'⟩ :=
      Run_mem_execProcess c newRandom spec processIO (Event.Wait proc) rfl hmem
    obtain ⟨hout, hno⟩ :=
      execProcess_wait_failure c spec processIO procSpec task id proc err hmem' hwait
    rw [heq]
    refine ⟨hout, ?_⟩
    intro q hq
    simp only [List.mem_append] at hq
    rcases hq with hq | hq
    · have := hpre _ hq
      simp [Event.beforeExec] at this
    · exact hno q hq

/-- C24, at samples: the process 7 is waited on right before it is started;
where the wait fails, `Run` returns "proc wait" and starts nothing. -/
theorem wait_before_start_witness :
    (Event.Start { id := 7 } ∈
        (Sample.healthy.Run Sample.newRandom Sample.spec Sample.processIO).trace ∧
      ∃ pre post exitStatusC,
        (Sample.healthy.Run Sample.newRandom Sample.spec Sample.processIO).trace =
            pre ++ Event.Wait { id := 7 } :: Event.Start { id := 7 } :: post ∧
          Sample.healthy.container.Wait { id := 7 } = Except.ok exitStatusC) ∧
      (Event.Wait { id := 7 } ∈
          (Sample.failingWait.Run Sample.newRandom Sample.spec Sample.processIO).trace ∧
        Sample.failingWait.container.Wait { id := 7 } = Except.error Sample.waitFailed ∧
        (Sample.failingWait.Run Sample.newRandom Sample.spec Sample.processIO).out =
          Outcome.error (GoError.wrapped "proc wait" Sample.waitFailed)) :=
  ⟨⟨by decide,
      match (wait_before_start Sample.healthy Sample.newRandom Sample.spec Sample.processIO).1
        { id := 7 } (by decide) with
      | ⟨pre, post, ch, h1, h2, _⟩ => ⟨pre, post, ch, h1, h2⟩⟩,
    by decide, rfl,
    ((wait_before_start Sample.failingWait Sample.newRandom Sample.spec Sample.processIO).2
      { id := 7 } Sample.waitFailed (by decide) rfl).1⟩

/-! ## Failures before the task lookup -/

/-- The calls of `Run`: those that precede the task lookup, and then, if `Run`
gets that far, the task lookup and calls that do not precede it. -/
theorem Run_trace_order (c : Container) (newRandom : Except GoError Uuid.UUID)
    (spec : Garden.ProcessSpec) ( processIO : Garden.ProcessIO) :
    (∀ ev ∈ (c.Run newRandom spec processIO).trace, ev.beforeTask = true) ∨
      ∃ pre post,
        (c.Run newRandom spec processIO).trace = pre ++ Event.Task none :: post ∧
          (∀ ev ∈ pre, ev.beforeTask = true) ∧ ∀ ev ∈ post, ev.beforeTask = false := by
  obtain ⟨tail, htrace, htail, hnil, -⟩ := Run_trace_prepare c newRandom spec processIO
  have htail' : ∀ ev ∈ tail, ev.beforeTask = false := by
    intro ev hev
    rcases htail _ hev with rfl | rfl | ⟨_, _, _, rfl⟩ | ⟨_, _, _, _, rfl⟩ | ⟨_, rfl⟩ |
      ⟨_, rfl⟩ | ⟨_, _, rfl⟩ <;> rfl
  rcases prepare_cases c spec with ⟨h, hout⟩ | ⟨cs, root, t1, procSpec, -, hsetup, -, -, heq⟩
  · left
    rw [htrace, hnil hout, List.append_nil]
    exact h
  · right
    have h1 := setup_trace_beforeTask c spec cs
    rw [hsetup] at h1
    simp only at h1
    have hpre : ∀ ev ∈ Event.Spec :: t1 ++ [Event.SetupCwd root.Path procSpec.Cwd],
        ev.beforeTask = true := by
      simp only [List.mem_append, List.mem_cons, List.mem_singleton, List.not_mem_nil,
        or_false, or_imp, forall_and, forall_eq]
      exact ⟨⟨rfl, h1⟩, rfl⟩
    have hrec : ∀ ev ∈ c.recreateInitTask.trace, ev.beforeTask = false := by
      intro ev hev
      rcases recreateInitTask_trace_events c ev hev with ⟨_, _, rfl⟩ | ⟨_, rfl⟩ <;> rfl
    rcases hT : c.container.Task none with err | task
    · rw [hT] at heq
      by_cases hnf : err.IsNotFound = true
      · simp only [hnf, if_true] at heq
        refine ⟨_, c.recreateInitTask.trace ++ tail, ?_, hpre, ?_⟩
        · rw [htrace, heq]
          simp
        · intro ev hev
          rcases List.mem_append.1 hev with hev | hev
          · exact hrec ev hev
          · exact htail' ev hev
      · simp only [hnf] at heq
        refine ⟨_, tail, ?_, hpre, htail'⟩
        rw [htrace, heq]
        simp
    · rw [hT] at heq
      refine ⟨_, tail, ?_, hpre, htail'⟩
      rw [htrace, heq]
      simp

/-- C28: if the retrieval of the container spec fails, `Run` has made that call
alone and returns the error wrapped as "container spec"; if the user lookup
fails or finds no user, `Run` has made the spec retrieval and the lookup alone
and returns "lookup user" or the `UserNotFoundError`; if `SetupCwd` fails,
`Run` returns "setup cwd" and has made no call but the spec retrieval, the
user lookup and `SetupCwd`. In none of these cases is a process returned, and
no task is looked up, made or started and no process is exec'd. In every run
the task lookup comes after these three calls. -/
theorem failures_before_task_lookup (c : Container) (newRandom : Except GoError Uuid.UUID)
    (spec : Garden.ProcessSpec) ( processIO : Garden.ProcessIO) :
    (∀ e, c.container.Spec = Except.error e →
        c.Run newRandom spec processIO =
          ⟨[Event.Spec], Outcome.error (GoError.wrapped "container spec" e)⟩) ∧
      (∀ cs proc root user ok err, c.container.Spec = Except.ok (some cs) →
        cs.Process = some proc → cs.Root = some root → spec.User ≠ "" →
        c.rootfsManager.LookupUser root.Path spec.User = (user, ok, some err) →
        c.Run newRandom spec processIO =
          ⟨[Event.Spec, Event.LookupUser root.Path spec.User],
            Outcome.error (GoError.wrapped "lookup user" err)⟩) ∧
      (∀ cs proc root user, c.container.Spec = Except.ok (some cs) →
        cs.Process = some proc → cs.Root = some root → spec.User ≠ "" →
        c.rootfsManager.LookupUser root.Path spec.User = (user, false, none) →
        c.Run newRandom spec processIO =
          ⟨[Event.Spec, Event.LookupUser root.Path spec.User],
            Outcome.error (GoError.UserNotFoundError spec.User)⟩) ∧
      (∀ rootfsPath cwd err,
        Event.SetupCwd rootfsPath cwd ∈ (c.Run newRandom spec processIO).trace →
        c.rootfsManager.SetupCwd rootfsPath cwd = some err →
        (c.Run newRandom spec processIO).out =
            Outcome.error (GoError.wrapped "setup cwd" err) ∧
          ∀ ev ∈ (c.Run newRandom spec processIO).trace,
            ev = Event.Spec ∨ (∃ r u, ev = Event.LookupUser r u) ∨
              ev = Event.SetupCwd rootfsPath cwd) ∧
      ((∀ ev ∈ (c.Run newRandom spec processIO).trace, ev.beforeTask = true) ∨
        ∃ pre post,
          (c.Run newRandom spec processIO).trace = pre ++ Event.Task none :: post ∧
            (∀ ev ∈ pre, ev.beforeTask = true) ∧ ∀ ev ∈ post, ev.beforeTask = false) := by
  refine ⟨?_, ?_, ?_, ?_, Run_trace_order c newRandom spec processIO⟩
  · intro e he
    simp only [Container.Run, he]
    rfl
  · intro cs proc root user ok err hspec hproc hroot huser hl
    have hs := setup_lookup_error c spec cs proc root user ok err hproc hroot huser hl
    rw [Run_of_setup_error c newRandom spec processIO cs _ hspec (by rw [hs]), hs]
  · intro cs proc root user hspec hproc hroot huser hl
    have hs := setup_user_missing c spec cs proc root user hproc hroot huser hl
    rw [Run_of_setup_error c newRandom spec processIO cs _ hspec (by rw [hs]), hs]
  · intro r d err hmem hfail
    obtain ⟨tail, htrace, htail, hnil, herr⟩ := Run_trace_prepare c newRandom spec processIO
    have htailCwd : ∀ ev ∈ tail, ∀ r d, ev ≠ Event.SetupCwd r d := by
      intro ev hev r d hh
      subst hh
      rcases htail _ hev with h | h | ⟨_, _, _, h⟩ | ⟨_, _, _, _, h⟩ | ⟨_, h⟩ | ⟨_, h⟩ |
        ⟨_, _, h⟩ <;> simp at h
    rcases prepare_cwd_cases c spec with
      ⟨hA, hout⟩ | ⟨cs, root, t1, procSpec, hspec, hsetup, hroot, hB⟩
    · exfalso
      rw [htrace, hnil hout, List.append_nil] at hmem
      rcases hA _ hmem with h | ⟨_, _, h⟩ <;> simp at h
    · have h1 : ∀ ev ∈ t1, ∃ r u, ev = Event.LookupUser r u := by
        have := setup_trace_lookup c spec cs
        rw [hsetup] at this
        exact this
      have hpreCwd : ∀ r d, Event.SetupCwd r d ∉ Event.Spec :: t1 := by
        intro r d hm
        rcases List.mem_cons.1 hm with h | h
        · simp at h
        · obtain ⟨_, _, h⟩ := h1 _ h
          simp at h
      rcases hB with ⟨err0, hfail0, hprep⟩ | ⟨hsucc, rest, hprep, hrest⟩
      · have ht : tail = [] := hnil (by rw [hprep]; simp)
        subst ht
        rw [List.append_nil, hprep] at htrace
        have hrunout := herr _ (by rw [hprep])
        have heq : r = root.Path ∧ d = procSpec.Cwd := by
          rw [htrace] at hmem
          simp only [List.mem_append, List.mem_singleton] at hmem
          rcases hmem with hmem | hmem
          · exact absurd hmem (hpreCwd r d)
          · simpa using hmem
        obtain ⟨rfl, rfl⟩ := heq
        rw [hfail0] at hfail
        simp only [Option.some.injEq] at hfail
        subst hfail
        refine ⟨hrunout, ?_⟩
        intro ev hev
        rw [htrace] at hev
        simp only [List.mem_append, List.mem_singleton, List.mem_cons, List.not_mem_nil,
          or_false] at hev
        rcases hev with (rfl | hev) | rfl
        · exact Or.inl rfl
        · exact Or.inr (Or.inl (h1 ev hev))
        · exact Or.inr (Or.inr rfl)
      · exfalso
        have heq : r = root.Path ∧ d = procSpec.Cwd := by
          rw [htrace, hprep] at hmem
          simp only [List.mem_append, List.mem_cons] at hmem
          rcases hmem with ((hmem | hmem) | hmem | hmem | hmem) | hmem
          · simp at hmem
          · obtain ⟨_, _, h⟩ := h1 _ hmem
            simp at h
          · simpa using hmem
          · simp at hmem
          · rcases hrest _ hmem with ⟨_, _, h⟩ | ⟨_, h⟩ <;> simp at h
          · exact absurd rfl (htailCwd _ hmem r d)
        obtain ⟨rfl, rfl⟩ := heq
        rw [hsucc] at hfail
        simp at hfail

/-- C28, at samples: a spec retrieval that fails, a user lookup that fails, a
user that is not found, and a working directory that cannot be set up. -/
theorem failures_before_task_lookup_witness :
    Sample.noSpec.Run Sample.newRandom Sample.spec Sample.processIO =
        ⟨[Event.Spec], Outcome.error (GoError.wrapped "container spec" Sample.specUnavailable)⟩ ∧
      Sample.brokenLookup.Run Sample.newRandom Sample.aliceSpec Sample.processIO =
        ⟨[Event.Spec, Event.LookupUser "/rootfs" "alice"],
          Outcome.error (GoError.wrapped "lookup user" Sample.passwdUnreadable)⟩ ∧
      Sample.healthy.Run Sample.newRandom Sample.bobSpec Sample.processIO =
        ⟨[Event.Spec, Event.LookupUser "/rootfs" "bob"],
          Outcome.error (GoError.UserNotFoundError "bob")⟩ ∧
      (Sample.brokenCwd.Run Sample.newRandom Sample.spec Sample.processIO).out =
        Outcome.error (GoError.wrapped "setup cwd" Sample.cwdFailed) :=
  ⟨(failures_before_task_lookup Sample.noSpec Sample.newRandom Sample.spec
      Sample.processIO).1 Sample.specUnavailable rfl,
    (failures_before_task_lookup Sample.brokenLookup Sample.newRandom Sample.aliceSpec
      Sample.processIO).2.1 Sample.containerSpec Sample.rootProcess { Path := "/rootfs" }
      { UID := 0, GID := 0, Username := "" } false Sample.passwdUnreadable rfl rfl rfl
      (by decide) rfl,
    (failures_before_task_lookup Sample.healthy Sample.newRandom Sample.bobSpec
      Sample.processIO).2.2.1 Sample.containerSpec Sample.rootProcess { Path := "/rootfs" }
      { UID := 0, GID := 0, Username := "" } rfl rfl rfl (by decide) (by decide),
    ((failures_before_task_lookup Sample.brokenCwd Sample.newRandom Sample.spec
      Sample.processIO).2.2.2.1 "/rootfs" "/" Sample.cwdFailed (by decide) rfl).1⟩

/-! ## The build tracker: draining -/

namespace Builds

theorem foldl_stepWithDrain {Ctx : Type} (actions : List (DrainAction Ctx)) (t : Tracker)
    (calls : List (EngineCall Ctx)) :
    actions.foldl Tracker.stepWithDrain (t, calls) =
      ((DrainAction.steps actions).foldl Tracker.step t,
        calls ++ (DrainAction.drains actions).map EngineCall.Drain) := by
  induction actions generalizing t calls with
  | nil => simp [DrainAction.steps, DrainAction.drains]
  | cons a rest ih =>
    cases a with
    | act a =>
      simp only [List.foldl_cons, Tracker.stepWithDrain, DrainAction.steps, DrainAction.drains]
      rw [ih]
    | drain ctx =>
      simp only [List.foldl_cons, Tracker.stepWithDrain, DrainAction.steps, DrainAction.drains,
        Tracker.Drain]
      rw [ih]
      simp

/-- C21: for every context, `Drain(ctx)` makes one call on the Engine, which is
`Drain` with that context, and leaves the tracker as it was, the running set
with it; so, after every sequence of steps and drains, the tracker is in the
state that the steps alone lead to, and the Engine has seen exactly the drains
of the sequence, in order, each with its context. -/
theorem drain_passthrough {Ctx : Type} (ctx : Ctx) (actions : List (DrainAction Ctx)) :
    (∀ t : Tracker, (t.Drain ctx).2 = [EngineCall.Drain ctx] ∧ (t.Drain ctx).1 = t ∧
        (t.Drain ctx).1.running = t.running) ∧
      (Tracker.afterWithDrain actions).1 = Tracker.after (DrainAction.steps actions) ∧
      (Tracker.afterWithDrain actions).2 = (DrainAction.drains actions).map EngineCall.Drain ∧
      (Tracker.afterWithDrain (actions ++ [DrainAction.drain ctx])).1 =
        (Tracker.afterWithDrain actions).1 ∧
      (Tracker.afterWithDrain (actions ++ [DrainAction.drain ctx])).2 =
        (Tracker.afterWithDrain actions).2 ++ [EngineCall.Drain ctx] := by
  refine ⟨fun t => ⟨rfl, rfl, rfl⟩, ?_, ?_, ?_, ?_⟩
  · unfold Tracker.afterWithDrain Tracker.after
    rw [foldl_stepWithDrain]
  · unfold Tracker.afterWithDrain
    rw [foldl_stepWithDrain]
    simp
  · unfold Tracker.afterWithDrain
    rw [List.foldl_append]
    rfl
  · unfold Tracker.afterWithDrain
    rw [List.foldl_append]
    rfl

end Builds

/-! ## The secret cache -/

namespace GoCache

/-- A key that `Get` does not find is not found later either. -/
theorem Get_none_mono {α : Type} (c : Cache α) (now later : Int) (k : String)
    (h : c.Get now k = none) (hle : now ≤ later) : c.Get later k = none := by
  unfold Cache.Get at h ⊢
  rcases hl : c.items.lookup k with _ | item
  · rfl
  · rw [hl] at h
    simp only at h ⊢
    by_cases he : item.Expiration > 0 ∧ now > item.Expiration
    · rw [if_pos ⟨he.1, lt_of_lt_of_le he.2 hle⟩]
    · rw [if_neg he] at h
      simp at h

/-- What `Get` finds under a key that has just been set. -/
theorem Get_Set {α : Type} (c : Cache α) (now later : Int) (k : String) (x : α) (d : Int) :
    (c.Set now k x d).Get later k =
      if (if (if d = DefaultExpiration then c.defaultExpiration else d) > 0 then
              int64OfInt (now + (if d = DefaultExpiration then c.defaultExpiration else d))
            else 0) > 0 ∧
          later > (if (if d = DefaultExpiration then c.defaultExpiration else d) > 0 then
              int64OfInt (now + (if d = DefaultExpiration then c.defaultExpiration else d))
            else 0) then none
      else some x := by
  simp [Cache.Get, Cache.Set, List.lookup]

end GoCache

theorem int64OfInt_of_range (n : Int) (h0 : -2 ^ 63 ≤ n) (h1 : n < 2 ^ 63) : int64OfInt n = n := by
  unfold int64OfInt
  rw [Int.emod_eq_of_lt (by omega) (by omega)]
  omega

namespace Creds

/-- The manager is consulted only when the cache has no live entry. -/
theorem GetWithParams_called {Value Params : Type} (cs : CachedSecrets Value Params)
    (clock : Clock) (secretPath : String) (context context' : Params)
    (h : Call.SecretsGet secretPath context' ∈ (cs.GetWithParams clock secretPath context).calls) :
    cs.cache.Get clock.atGet secretPath = none := by
  rcases hg : cs.cache.Get clock.atGet secretPath with _ | entry
  · rfl
  · simp [CachedSecrets.GetWithParams, hg] at h

/-- A lookup that misses the cache consults the manager. -/
theorem GetWithParams_miss_calls {Value Params : Type} (cs : CachedSecrets Value Params)
    (clock : Clock) (secretPath : String) (context : Params)
    (h : cs.cache.Get clock.atGet secretPath = none) :
    Call.SecretsGet secretPath context ∈ (cs.GetWithParams clock secretPath context).calls := by
  unfold CachedSecrets.GetWithParams
  rw [h]
  simp only
  rcases (cs.secrets secretPath context).err with _ | err
  · by_cases hf : (cs.secrets secretPath context).found = true <;> simp [hf]
  · simp

/-- A lookup that hits the cache. -/
theorem GetWithParams_hit {Value Params : Type} (cs : CachedSecrets Value Params)
    (clock : Clock) (secretPath : String) (context : Params) (entry : CacheEntry Value)
    (h : cs.cache.Get clock.atGet secretPath = some entry) :
    cs.GetWithParams clock secretPath context =
      { lookup :=
          { value := entry.value, expiration := entry.expiration, found := entry.found,
            err := none }
        cache := cs.cache
        calls := [Call.CacheGet secretPath] } := by
  unfold CachedSecrets.GetWithParams
  rw [h]

/-- A lookup that misses the cache and that the manager answers without
error. -/
theorem GetWithParams_miss_ok {Value Params : Type} (cs : CachedSecrets Value Params)
    (clock : Clock) (secretPath : String) (context : Params)
    (hmiss : cs.cache.Get clock.atGet secretPath = none)
    (hnoerr : (cs.secrets secretPath context).err = none) :
    cs.GetWithParams clock secretPath context =
      { lookup :=
          { value := (cs.secrets secretPath context).value
            expiration := (cs.secrets secretPath context).expiration
            found := (cs.secrets secretPath context).found
            err := none }
        cache :=
          cs.cache.Set clock.atSet secretPath
            { value := (cs.secrets secretPath context).value
              expiration := (cs.secrets secretPath context).expiration
              found := (cs.secrets secretPath context).found }
            (if (cs.secrets secretPath context).found = true then
              match (cs.secrets secretPath context).expiration with
              | some expiration =>
                if timeUntil expiration clock.atUntil < cs.cacheConfig.Duration ∧
                    timeUntil expiration clock.atUntil > 0 then
                  timeUntil expiration clock.atUntil
                else cs.cacheConfig.Duration
              | none => cs.cacheConfig.Duration
            else cs.cacheConfig.DurationNotFound)
        calls :=
          [Call.CacheGet secretPath, Call.SecretsGet secretPath context,
            Call.CacheSet secretPath
              { value := (cs.secrets secretPath context).value
                expiration := (cs.secrets secretPath context).expiration
                found := (cs.secrets secretPath context).found }
              (if (cs.secrets secretPath context).found = true then
                match (cs.secrets secretPath context).expiration with
                | some expiration =>
                  if timeUntil expiration clock.atUntil < cs.cacheConfig.Duration ∧
                      timeUntil expiration clock.atUntil > 0 then
                    timeUntil expiration clock.atUntil
                  else cs.cacheConfig.Duration
                | none => cs.cacheConfig.Duration
              else cs.cacheConfig.DurationNotFound)] } := by
  unfold CachedSecrets.GetWithParams
  rw [hmiss]
  simp only [hnoerr]
  by_cases hf : (cs.secrets secretPath context).found = true
  · simp only [hf, if_true]
  · simp only [hf]
    rfl

/-- C22: whenever `GetWithParams` has consulted the underlying secret manager
and the manager has answered with an error, `GetWithParams` returns
`(nil, nil, false, err)`, has made no call of `cache.Set` and leaves the cache
as it was; and the next lookup of the same path, now or later, whatever the
manager then answers, consults the manager again. -/
theorem errors_are_not_cached {Value Params : Type} (cs : CachedSecrets Value Params)
    (clock : Clock) (secretPath : String) (context : Params) (err : GoError)
    (hcalled :
      Call.SecretsGet secretPath context ∈ (cs.GetWithParams clock secretPath context).calls)
    (herr : (cs.secrets secretPath context).err = some err) :
    (cs.GetWithParams clock secretPath context).lookup =
        { value := none, expiration := none, found := false, err := some err } ∧
      (cs.GetWithParams clock secretPath context).cache = cs.cache ∧
      (cs.GetWithParams clock secretPath context).calls =
        [Call.CacheGet secretPath, Call.SecretsGet secretPath context] ∧
      ∀ (secrets' : String → Params → Lookup Value) (clock' : Clock) (context' : Params),
        clock.atGet ≤ clock'.atGet →
        Call.SecretsGet secretPath context' ∈
          (CachedSecrets.GetWithParams
            { secrets := secrets'
              cacheConfig := cs.cacheConfig
              cache := (cs.GetWithParams clock secretPath context).cache }
            clock' secretPath context').calls := by
  have hmiss := GetWithParams_called cs clock secretPath context context hcalled
  have hr : cs.GetWithParams clock secretPath context =
      { lookup := { value := none, expiration := none, found := false, err := some err }
        cache := cs.cache
        calls := [Call.CacheGet secretPath, Call.SecretsGet secretPath context] } := by
    unfold CachedSecrets.GetWithParams
    rw [hmiss]
    simp only [herr]
  rw [hr]
  refine ⟨rfl, rfl, rfl, ?_⟩
  intro secrets' clock' context' hle
  exact GetWithParams_miss_calls _ clock' secretPath context'
    (GoCache.Get_none_mono cs.cache _ _ secretPath hmiss hle)

/-- C22, at a sample: the manager fails on `/concourse/main/broken`; the error
is returned, the cache stays empty, and the manager is consulted again at the
next lookup. -/
theorem errors_are_not_cached_witness :
    (CredsSample.cachedSecrets.GetWithParams CredsSample.clock "/concourse/main/broken" ()).lookup =
        { value := none, expiration := none, found := false,
          err := some (GoError.external false "vault: connection refused") } ∧
      (CredsSample.cachedSecrets.GetWithParams CredsSample.clock "/concourse/main/broken"
        ()).cache = CredsSample.cachedSecrets.cache ∧
      Call.SecretsGet "/concourse/main/broken" () ∈
        (CachedSecrets.GetWithParams
          { secrets := CredsSample.secrets
            cacheConfig := CredsSample.cachedSecrets.cacheConfig
            cache :=
              (CredsSample.cachedSecrets.GetWithParams CredsSample.clock
                "/concourse/main/broken" ()).cache }
          CredsSample.later "/concourse/main/broken" ()).calls :=
  have h := errors_are_not_cached CredsSample.cachedSecrets CredsSample.clock
    "/concourse/main/broken" () (GoError.external false "vault: connection refused")
    (by decide) rfl
  ⟨h.1, h.2.1, h.2.2.2 CredsSample.secrets CredsSample.later () (by decide)⟩

/-- C23: whenever `GetWithParams` has consulted the underlying secret manager
and the manager has found the secret, without error, the entry is stored by one
call of `cache.Set` with a time-to-live `ttl`: `ttl` is the time `d` that
remains until the expiration of the secret if there is an expiration and
`0 < d < cacheConfig.Duration`, and is `cacheConfig.Duration` if there is no
expiration, if `d <= 0` or if `d >= cacheConfig.Duration`; so `ttl` is at most
`cacheConfig.Duration`, and is positive when `cacheConfig.Duration` is. -/
theorem cache_ttl_bound {Value Params : Type} (cs : CachedSecrets Value Params)
    (clock : Clock) (secretPath : String) (context : Params)
    (hcalled :
      Call.SecretsGet secretPath context ∈ (cs.GetWithParams clock secretPath context).calls)
    (hnoerr : (cs.secrets secretPath context).err = none)
    (hfound : (cs.secrets secretPath context).found = true) :
    ∃ ttl,
      (cs.GetWithParams clock secretPath context).calls =
          [Call.CacheGet secretPath, Call.SecretsGet secretPath context,
            Call.CacheSet secretPath
              { value := (cs.secrets secretPath context).value
                expiration := (cs.secrets secretPath context).expiration
                found := true } ttl] ∧
        (cs.GetWithParams clock secretPath context).cache =
          cs.cache.Set clock.atSet secretPath
            { value := (cs.secrets secretPath context).value
              expiration := (cs.secrets secretPath context).expiration
              found := true } ttl ∧
        (∀ t, (cs.secrets secretPath context).expiration = some t →
          0 < timeUntil t clock.atUntil → timeUntil t clock.atUntil < cs.cacheConfig.Duration →
          ttl = timeUntil t clock.atUntil) ∧
        ((cs.secrets secretPath context).expiration = none → ttl = cs.cacheConfig.Duration) ∧
        (∀ t, (cs.secrets secretPath context).expiration = some t →
          timeUntil t clock.atUntil ≤ 0 ∨ cs.cacheConfig.Duration ≤ timeUntil t clock.atUntil →
          ttl = cs.cacheConfig.Duration) ∧
        ttl ≤ cs.cacheConfig.Duration ∧
        (0 < cs.cacheConfig.Duration → 0 < ttl) := by
  have hmiss := GetWithParams_called cs clock secretPath context context hcalled
  rcases hexp : (cs.secrets secretPath context).expiration with _ | t
  · refine ⟨cs.cacheConfig.Duration, ?_, ?_, ?_, fun _ => rfl, ?_, le_refl _, fun h => h⟩
    · unfold CachedSecrets.GetWithParams
      rw [hmiss]
      simp [hnoerr, hfound, hexp]
    · unfold CachedSecrets.GetWithParams
      rw [hmiss]
      simp [hnoerr, hfound, hexp]
    · intro t ht
      simp at ht
    · intro t ht
      simp at ht
  · by_cases hd : timeUntil t clock.atUntil < cs.cacheConfig.Duration ∧
        timeUntil t clock.atUntil > 0
    · refine ⟨timeUntil t clock.atUntil, ?_, ?_, ?_, ?_, ?_, le_of_lt hd.1, fun _ => hd.2⟩
      · unfold CachedSecrets.GetWithParams
        rw [hmiss]
        simp [hnoerr, hfound, hexp, hd]
      · unfold CachedSecrets.GetWithParams
        rw [hmiss]
        simp [hnoerr, hfound, hexp, hd]
      · intro t' ht' _ _
        simp only [Option.some.injEq] at ht'
        rw [ht']
      · intro h
        simp at h
      · intro t' ht' h
        simp only [Option.some.injEq] at ht'
        subst ht'
        rcases h with h | h
        · exact absurd hd.2 (not_lt.2 h)
        · exact absurd hd.1 (not_lt.2 h)
    · refine ⟨cs.cacheConfig.Duration, ?_, ?_, ?_, ?_, fun _ _ _ => rfl, le_refl _, fun h => h⟩
      · unfold CachedSecrets.GetWithParams
        rw [hmiss]
        simp only [hnoerr, hfound, hexp, if_true, if_neg hd]
      · unfold CachedSecrets.GetWithParams
        rw [hmiss]
        simp only [hnoerr, hfound, hexp, if_true, if_neg hd]
      · intro t' ht' h0 h1
        simp only [Option.some.injEq] at ht'
        subst ht'
        exact absurd ⟨h1, h0⟩ hd
      · intro h
        simp at h

/-- C23, at a sample: the secret expires 1000 ns after the lookup and the
configured duration is 5000 ns, so the entry is stored for 1000 ns. -/
theorem cache_ttl_bound_witness :
    ∃ ttl,
      (CredsSample.cachedSecrets.GetWithParams CredsSample.clock "/concourse/main/token"
          ()).calls =
          [Call.CacheGet "/concourse/main/token", Call.SecretsGet "/concourse/main/token" (),
            Call.CacheSet "/concourse/main/token"
              { value := some "s3cr3t", expiration := some 2000, found := true } ttl] ∧
        ttl = 1000 :=
  match cache_ttl_bound CredsSample.cachedSecrets CredsSample.clock "/concourse/main/token" ()
    (by decide) rfl rfl with
  | ⟨ttl, h1, _, h3, _⟩ => ⟨ttl, h1, h3 2000 rfl (by decide) (by decide)⟩

/-- C25: whenever `GetWithParams` has consulted the underlying secret manager
and the manager has answered, without error, that the secret is not found, the
answer is returned and stored by one call of `cache.Set` with the time-to-live
`cacheConfig.DurationNotFound`. Whenever the cache has a live entry for the
path, `GetWithParams` returns the value, the expiration and the found flag of
the entry with a nil error, makes no call but `cache.Get`, and leaves the cache
as it was. So a lookup that follows one that the manager has answered without
error, within the time for which go-cache keeps the entry, returns the same
results and consults the manager no more. -/
theorem cache_hits_and_not_found {Value Params : Type} (cs : CachedSecrets Value Params)
    (clock : Clock) (secretPath : String) (context : Params) :
    (Call.SecretsGet secretPath context ∈ (cs.GetWithParams clock secretPath context).calls →
        (cs.secrets secretPath context).err = none →
        (cs.secrets secretPath context).found = false →
        cs.GetWithParams clock secretPath context =
          { lookup :=
              { value := (cs.secrets secretPath context).value
                expiration := (cs.secrets secretPath context).expiration
                found := false
                err := none }
            cache :=
              cs.cache.Set clock.atSet secretPath
                { value := (cs.secrets secretPath context).value
                  expiration := (cs.secrets secretPath context).expiration
                  found := false } cs.cacheConfig.DurationNotFound
            calls :=
              [Call.CacheGet secretPath, Call.SecretsGet secretPath context,
                Call.CacheSet secretPath
                  { value := (cs.secrets secretPath context).value
                    expiration := (cs.secrets secretPath context).expiration
                    found := false } cs.cacheConfig.DurationNotFound] }) ∧
      (∀ entry, cs.cache.Get clock.atGet secretPath = some entry →
        cs.GetWithParams clock secretPath context =
          { lookup :=
              { value := entry.value, expiration := entry.expiration, found := entry.found,
                err := none }
            cache := cs.cache
            calls := [Call.CacheGet secretPath] }) ∧
      (∀ entry d, Call.CacheSet secretPath entry d ∈
          (cs.GetWithParams clock secretPath context).calls →
        ∀ (secrets' : String → Params → Lookup Value) (clock' : Clock) (context' : Params),
          ((if d = GoCache.DefaultExpiration then cs.cache.defaultExpiration else d) ≤ 0 ∨
            (0 ≤ clock.atSet ∧
              clock.atSet +
                (if d = GoCache.DefaultExpiration then cs.cache.defaultExpiration else d) <
                  2 ^ 63 ∧
              clock'.atGet ≤ clock.atSet +
                (if d = GoCache.DefaultExpiration then cs.cache.defaultExpiration else d))) →
          CachedSecrets.GetWithParams
              { secrets := secrets'
                cacheConfig := cs.cacheConfig
                cache := (cs.GetWithParams clock secretPath context).cache }
              clock' secretPath context' =
            { lookup := (cs.GetWithParams clock secretPath context).lookup
              cache := (cs.GetWithParams clock secretPath context).cache
              calls := [Call.CacheGet secretPath] }) := by
  refine ⟨?_, fun entry h => GetWithParams_hit cs clock secretPath context entry h, ?_⟩
  · intro hcalled hnoerr hfound
    have hmiss := GetWithParams_called cs clock secretPath context context hcalled
    unfold CachedSecrets.GetWithParams
    rw [hmiss]
    simp [hnoerr, hfound]
  · intro entry d hset secrets' clock' context' hlive
    have key : ∀ (e : CacheEntry Value),
        (cs.cache.Set clock.atSet secretPath e d).Get clock'.atGet secretPath = some e := by
      intro e
      rw [GoCache.Get_Set]
      rcases hlive with h | ⟨h0, h1, h2⟩
      · rw [if_neg (not_lt.2 h)]
        simp
      · by_cases hpos : (if d = GoCache.DefaultExpiration then cs.cache.defaultExpiration
            else d) > 0
        · rw [if_pos hpos, int64OfInt_of_range _ (by omega) h1]
          rw [if_neg]
          rintro ⟨-, hgt⟩
          omega
        · rw [if_neg hpos]
          simp
    rcases hg : cs.cache.Get clock.atGet secretPath with _ | hit
    · rcases herr : (cs.secrets secretPath context).err with _ | err
      · have hr := GetWithParams_miss_ok cs clock secretPath context hg herr
        rw [hr] at hset ⊢
        simp only [List.mem_cons, List.mem_singleton, List.not_mem_nil, or_false,
          Call.CacheSet.injEq, reduceCtorEq, false_or, true_and] at hset
        obtain ⟨he, hd⟩ := hset
        simp only
        rw [← hd, ← he, GetWithParams_hit _ clock' secretPath context' entry (key entry), he]
      · unfold CachedSecrets.GetWithParams at hset
        rw [hg] at hset
        simp [herr] at hset
    · rw [GetWithParams_hit cs clock secretPath context hit hg] at hset
      simp at hset

/-- C25, at samples: what is not found is stored for 100 ns; a lookup 50 ns
later returns the stored answer and makes no call but `cache.Get`. -/
theorem cache_hits_and_not_found_witness :
    (CredsSample.cachedSecrets.GetWithParams CredsSample.clock "/concourse/main/absent"
        ()).calls =
        [Call.CacheGet "/concourse/main/absent", Call.SecretsGet "/concourse/main/absent" (),
          Call.CacheSet "/concourse/main/absent"
            { value := none, expiration := none, found := false } 100] ∧
      (CachedSecrets.GetWithParams
          { secrets := CredsSample.secrets
            cacheConfig := CredsSample.cachedSecrets.cacheConfig
            cache :=
              (CredsSample.cachedSecrets.GetWithParams CredsSample.clock
                "/concourse/main/absent" ()).cache }
          CredsSample.later "/concourse/main/absent" ()).calls =
        [Call.CacheGet "/concourse/main/absent"] :=
  have h := cache_hits_and_not_found CredsSample.cachedSecrets CredsSample.clock
    "/concourse/main/absent" ()
  ⟨congrArg Result.calls (h.1 (by decide) rfl rfl),
    congrArg Result.calls
      (h.2.2 { value := none, expiration := none, found := false } 100 (by decide)
        CredsSample.secrets CredsSample.later () (Or.inr (by decide)))⟩

end Creds

/-! ## Visible workers -/

namespace Db

theorem isVisibleLoop_iff (worker : Worker) (teamNames : List String) :
    isVisibleLoop worker teamNames = true ↔ worker.TeamName ∈ teamNames := by
  induction teamNames with
  | nil => simp [isVisibleLoop]
  | cons team rest ih =>
    unfold isVisibleLoop
    by_cases h : worker.TeamName = team
    · simp [h]
    · simp [h, ih]

theorem isVisible_iff (teamNames : List String) (worker : Worker) :
    isVisible teamNames worker = true ↔ worker.TeamID = 0 ∨ worker.TeamName ∈ teamNames := by
  unfold isVisible
  by_cases h : worker.TeamID = 0
  · simp [h]
  · simp [h, isVisibleLoop_iff]

theorem visibleWorkersLoop_eq (teamNames : List String) (workers visibleWorkers : List Worker) :
    visibleWorkersLoop teamNames workers visibleWorkers =
      visibleWorkers ++ workers.filter (isVisible teamNames) := by
  induction workers generalizing visibleWorkers with
  | nil => simp [visibleWorkersLoop]
  | cons worker rest ih =>
    unfold visibleWorkersLoop
    by_cases h : isVisible teamNames worker = true
    · simp [h, ih]
    · simp [h, ih]

/-- C29: when the worker cache answers with the workers `W` and no error,
`VisibleWorkers(teamNames)` returns, with no error, a slice that is not nil and
holds exactly the workers of `W` whose `TeamID` is 0 or whose `TeamName` is one
of `teamNames`, in the order of `W`; so every worker with `TeamID` 0 is
returned, whatever `teamNames` is; when the cache answers with an error, that
error is returned with a nil slice. -/
theorem visible_workers_filter (f : workerFactory) (teamNames : List String) :
    (∀ W, f.cache.Workers = (W, none) →
        f.VisibleWorkers teamNames =
            (some ((W.getD []).filter
              (fun w => decide (w.TeamID = 0 ∨ w.TeamName ∈ teamNames))), none) ∧
          (∃ V, f.VisibleWorkers teamNames = (some V, none) ∧ V.Sublist (W.getD []) ∧
            (∀ w, w ∈ V ↔ w ∈ W.getD [] ∧ (w.TeamID = 0 ∨ w.TeamName ∈ teamNames)) ∧
            ∀ w ∈ W.getD [], w.TeamID = 0 → w ∈ V)) ∧
      ∀ W err, f.cache.Workers = (W, some err) →
        f.VisibleWorkers teamNames = (none, some err) := by
  have hfilter : ∀ l : List Worker,
      l.filter (isVisible teamNames) =
        l.filter (fun w => decide (w.TeamID = 0 ∨ w.TeamName ∈ teamNames)) := by
    intro l
    apply List.filter_congr
    intro w _
    rw [Bool.eq_iff_iff, isVisible_iff]
    simp
  constructor
  · intro W hW
    have h : f.VisibleWorkers teamNames =
        (some ((W.getD []).filter
          (fun w => decide (w.TeamID = 0 ∨ w.TeamName ∈ teamNames))), none) := by
      unfold workerFactory.VisibleWorkers
      rw [hW]
      simp only [visibleWorkersLoop_eq, List.nil_append, hfilter]
    refine ⟨h, _, h, List.filter_sublist _, ?_, ?_⟩
    · intro w
      simp [List.mem_filter]
    · intro w hw h0
      simp [List.mem_filter, hw, h0]
  · intro W err hW
    unfold workerFactory.VisibleWorkers
    rw [hW]

/-- C29, at samples: with the team `main`, the shared worker and the worker of
`main` are returned, in that order; with no team, the shared worker alone; a
cache error is returned as it is. -/
theorem visible_workers_filter_witness :
    DbSample.factory.VisibleWorkers ["main"] =
        (some [{ Name := "shared", TeamID := 0, TeamName := "" },
          { Name := "w-main", TeamID := 1, TeamName := "main" }], none) ∧
      DbSample.factory.VisibleWorkers [] =
        (some [{ Name := "shared", TeamID := 0, TeamName := "" }], none) ∧
      DbSample.broken.VisibleWorkers ["main"] =
        (none, some (GoError.external false "cache: refresh failed")) :=
  ⟨((visible_workers_filter DbSample.factory ["main"]).1 (some DbSample.workers) rfl).1.trans
      (by decide),
    ((visible_workers_filter DbSample.factory []).1 (some DbSample.workers) rfl).1.trans
      (by decide),
    (visible_workers_filter DbSample.broken ["main"]).2 none
      (GoError.external false "cache: refresh failed") rfl⟩

end Db

/-! ## Rounding to `float64` -/

theorem bitLengthAux_zero (fuel : Nat) : bitLengthAux fuel 0 = 0 := by
  cases fuel <;> simp [bitLengthAux]

theorem bitLengthAux_spec (fuel n : Nat) (h : n < 2 ^ fuel) :
    n < 2 ^ bitLengthAux fuel n ∧ (n ≠ 0 → 2 ^ (bitLengthAux fuel n - 1) ≤ n) := by
  induction fuel generalizing n with
  | zero =>
    have h0 : n = 0 := by simpa using h
    subst h0
    simp [bitLengthAux]
  | succ fuel ih =>
    unfold bitLengthAux
    by_cases hn : n = 0
    · simp [hn]
    · rw [if_neg hn]
      have h2 : n / 2 < 2 ^ fuel := by
        rw [pow_succ] at h
        omega
      obtain ⟨ih1, ih2⟩ := ih (n / 2) h2
      constructor
      · rw [pow_succ]
        omega
      · intro _
        simp only [Nat.add_sub_cancel]
        by_cases h0 : n / 2 = 0
        · rw [h0, bitLengthAux_zero]
          simp
          omega
        · have h3 := ih2 h0
          have hk : 1 ≤ bitLengthAux fuel (n / 2) := by
            by_contra hlt
            have hz : bitLengthAux fuel (n / 2) = 0 := by omega
            rw [hz] at ih1
            simp at ih1
            exact h0 ih1
          obtain ⟨k, hk'⟩ : ∃ k, bitLengthAux fuel (n / 2) = k + 1 := ⟨_, (Nat.sub_add_cancel hk).symm⟩
          rw [hk'] at h3 ⊢
          simp only [Nat.add_sub_cancel] at h3
          rw [pow_succ]
          omega

theorem bitLength_spec (n : Nat) (hn : n ≠ 0) :
    1 ≤ bitLength n ∧ 2 ^ (bitLength n - 1) ≤ n ∧ n < 2 ^ bitLength n := by
  obtain ⟨h1, h2⟩ := bitLengthAux_spec n n (Nat.lt_two_pow n)
  refine ⟨?_, h2 hn, h1⟩
  by_contra hlt
  have hz : bitLengthAux n n = 0 := by
    unfold bitLength at hlt
    omega
  rw [hz] at h1
  simp at h1
  exact hn h1

/-- The number of binary digits, in terms of powers with integer exponents. -/
theorem bitLength_bounds (n : Nat) (hn : 0 < n) :
    (2 : ℚ) ^ ((bitLength n : ℤ) - 1) ≤ n ∧ (n : ℚ) < (2 : ℚ) ^ (bitLength n : ℤ) := by
  obtain ⟨h1, h2, h3⟩ := bitLength_spec n (Nat.pos_iff_ne_zero.1 hn)
  constructor
  · have : ((bitLength n : ℤ) - 1) = ((bitLength n - 1 : ℕ) : ℤ) := by omega
    rw [this, zpow_natCast]
    exact_mod_cast h2
  · rw [zpow_natCast]
    exact_mod_cast h3

namespace Float64

theorem scaled_spec (a den : Nat) (p : Int) (hden : 0 < den) :
    0 < (scaled a den p).2 ∧
      ((scaled a den p).1 : ℚ) / ((scaled a den p).2 : ℚ) = (a : ℚ) / den * (2 : ℚ) ^ (-p) := by
  have hd : (den : ℚ) ≠ 0 := by exact_mod_cast (Nat.pos_iff_ne_zero.1 hden)
  unfold scaled
  by_cases hp : 0 ≤ p
  · rw [if_pos hp]
    refine ⟨Nat.mul_pos hden (by positivity), ?_⟩
    have h2 : (2 : ℚ) ^ p = (2 : ℚ) ^ p.toNat := by
      rw [← zpow_natCast, Int.toNat_of_nonneg hp]
    simp only [Nat.cast_mul, Nat.cast_pow, Nat.cast_ofNat]
    rw [zpow_neg, h2]
    field_simp
  · rw [if_neg hp]
    refine ⟨hden, ?_⟩
    have h2 : (2 : ℚ) ^ (-p) = (2 : ℚ) ^ (-p).toNat := by
      rw [← zpow_natCast, Int.toNat_of_nonneg (by omega)]
    simp only [Nat.cast_mul, Nat.cast_pow, Nat.cast_ofNat]
    rw [h2]
    field_simp

theorem nearestEven_spec (n d : Nat) (hd : 0 < d) (k : ℤ) :
    |(n : ℚ) / d - (nearestEven n d : ℚ)| ≤ |(n : ℚ) / d - (k : ℚ)| := by
  have hdq : (0 : ℚ) < d := by exact_mod_cast hd
  have hmod : n % d < d := Nat.mod_lt n hd
  have hdiv := Nat.div_add_mod n d
  unfold nearestEven
  generalize n / d = q at hdiv ⊢
  generalize n % d = r at hdiv hmod ⊢
  have hnq : (n : ℚ) = (d : ℚ) * (q : ℚ) + (r : ℚ) := by exact_mod_cast hdiv.symm
  have hs : (n : ℚ) / d = (q : ℚ) + (r : ℚ) / d := by
    rw [div_eq_iff (ne_of_gt hdq), add_mul, div_mul_cancel₀ _ (ne_of_gt hdq), hnq]
    ring
  have hr0 : (0 : ℚ) ≤ (r : ℚ) / d := by positivity
  have hr1 : (r : ℚ) / d < 1 := by
    rw [div_lt_one hdq]
    exact_mod_cast hmod
  have hbelow : (k : ℚ) ≤ (q : ℚ) → (r : ℚ) / d ≤ |(n : ℚ) / d - k| := by
    intro hk
    refine le_trans ?_ (le_abs_self _)
    rw [hs]
    linarith
  have habove : (q : ℚ) + 1 ≤ (k : ℚ) → 1 - (r : ℚ) / d ≤ |(n : ℚ) / d - k| := by
    intro hk
    refine le_trans ?_ (neg_le_abs _)
    rw [hs]
    linarith
  have hcases : (k : ℚ) ≤ (q : ℚ) ∨ (q : ℚ) + 1 ≤ (k : ℚ) := by
    rcases le_or_lt k (q : ℤ) with h | h
    · left
      exact_mod_cast h
    · right
      have : (q : ℤ) + 1 ≤ k := h
      exact_mod_cast this
  have hdown : 2 * r ≤ d → |(n : ℚ) / d - (q : ℚ)| ≤ |(n : ℚ) / d - (k : ℚ)| := by
    intro h2
    have h2q : 2 * ((r : ℚ) / d) ≤ 1 := by
      rw [← mul_div_assoc, div_le_one hdq]
      exact_mod_cast h2
    have he : |(n : ℚ) / d - (q : ℚ)| = (r : ℚ) / d := by
      rw [hs, add_sub_cancel_left, abs_of_nonneg hr0]
    rw [he]
    rcases hcases with h | h
    · exact hbelow h
    · exact le_trans (by linarith) (habove h)
  have hup : d ≤ 2 * r → |(n : ℚ) / d - ((q + 1 : ℕ) : ℚ)| ≤ |(n : ℚ) / d - (k : ℚ)| := by
    intro h2
    have h2q : 1 ≤ 2 * ((r : ℚ) / d) := by
      rw [← mul_div_assoc, one_le_div hdq]
      exact_mod_cast h2
    have he : |(n : ℚ) / d - ((q + 1 : ℕ) : ℚ)| = 1 - (r : ℚ) / d := by
      rw [hs, Nat.cast_add, Nat.cast_one, abs_sub_comm, abs_of_nonneg (by linarith)]
      ring
    rw [he]
    rcases hcases with h | h
    · exact le_trans (by linarith) (hbelow h)
    · exact habove h
  by_cases h1 : 2 * r < d
  · rw [if_pos h1]
    exact hdown (le_of_lt h1)
  · rw [if_neg h1]
    by_cases h2 : d < 2 * r
    · rw [if_pos h2]
      exact hup (le_of_lt h2)
    · rw [if_neg h2]
      by_cases h3 : q % 2 = 0
      · rw [if_pos h3]
        exact hdown (by omega)
      · rw [if_neg h3]
        exact hup (by omega)

theorem exponent_spec (a den : Nat) (ha : 0 < a) (hden : 0 < den) :
    (2 : ℚ) ^ (52 : ℕ) ≤ (a : ℚ) / den * (2 : ℚ) ^ (-exponent a den) ∧
      (a : ℚ) / den * (2 : ℚ) ^ (-exponent a den) < (2 : ℚ) ^ (53 : ℕ) := by
  obtain ⟨ha1, ha2⟩ := bitLength_bounds a ha
  obtain ⟨hd1, hd2⟩ := bitLength_bounds den hden
  have hdq : (0 : ℚ) < den := by exact_mod_cast hden
  have haq : (0 : ℚ) < a := by exact_mod_cast ha
  have h2 : (2 : ℚ) ≠ 0 := two_ne_zero
  set la : ℤ := (bitLength a : ℤ) with hla
  set ld : ℤ := (bitLength den : ℤ) with hld
  have hpos : ∀ z : ℤ, (0 : ℚ) < (2 : ℚ) ^ z := fun z => zpow_pos (by norm_num) z
  -- the bounds at the first candidate
  have hlow : (2 : ℚ) ^ (52 : ℕ) < (a : ℚ) / den * (2 : ℚ) ^ (-(la - ld - 53)) := by
    have e1 : (2 : ℚ) ^ (-(la - ld - 53)) = (2 : ℚ) ^ (52 : ℕ) * (2 : ℚ) ^ ld / (2 : ℚ) ^ (la - 1) := by
      rw [eq_div_iff (ne_of_gt (hpos _)), ← zpow_natCast, ← zpow_add₀ h2, ← zpow_add₀ h2]
      congr 1
      push_cast
      ring
    rw [e1, div_mul_eq_mul_div, lt_div_iff₀ hdq]
    have : (2 : ℚ) ^ (52 : ℕ) * (den : ℚ) < (2 : ℚ) ^ (52 : ℕ) * (2 : ℚ) ^ ld :=
      mul_lt_mul_of_pos_left hd2 (by positivity)
    calc (2 : ℚ) ^ (52 : ℕ) * (den : ℚ) < (2 : ℚ) ^ (52 : ℕ) * (2 : ℚ) ^ ld := this
      _ = (2 : ℚ) ^ (la - 1) * ((2 : ℚ) ^ (52 : ℕ) * (2 : ℚ) ^ ld / (2 : ℚ) ^ (la - 1)) := by
          field_simp
      _ ≤ (a : ℚ) * ((2 : ℚ) ^ (52 : ℕ) * (2 : ℚ) ^ ld / (2 : ℚ) ^ (la - 1)) :=
          mul_le_mul_of_nonneg_right ha1 (by positivity)
  have hhigh : (a : ℚ) / den * (2 : ℚ) ^ (-(la - ld - 53)) < (2 : ℚ) ^ (54 : ℕ) := by
    have e1 : (2 : ℚ) ^ (-(la - ld - 53)) = (2 : ℚ) ^ (54 : ℕ) * (2 : ℚ) ^ (ld - 1) / (2 : ℚ) ^ la := by
      rw [eq_div_iff (ne_of_gt (hpos _)), ← zpow_natCast, ← zpow_add₀ h2, ← zpow_add₀ h2]
      congr 1
      push_cast
      ring
    rw [e1, div_mul_eq_mul_div, div_lt_iff₀ hdq]
    calc (a : ℚ) * ((2 : ℚ) ^ (54 : ℕ) * (2 : ℚ) ^ (ld - 1) / (2 : ℚ) ^ la)
        < (2 : ℚ) ^ la * ((2 : ℚ) ^ (54 : ℕ) * (2 : ℚ) ^ (ld - 1) / (2 : ℚ) ^ la) :=
          mul_lt_mul_of_pos_right ha2 (by positivity)
      _ = (2 : ℚ) ^ (54 : ℕ) * (2 : ℚ) ^ (ld - 1) := by field_simp
      _ ≤ (2 : ℚ) ^ (54 : ℕ) * (den : ℚ) := mul_le_mul_of_nonneg_left hd1 (by positivity)
  obtain ⟨hD, hfrac⟩ := scaled_spec a den (la - ld - 53) hden
  have hDq : (0 : ℚ) < ((scaled a den (la - ld - 53)).2 : ℚ) := by exact_mod_cast hD
  have htest : (scaled a den (la - ld - 53)).1 < 2 ^ 53 * (scaled a den (la - ld - 53)).2 ↔
      (a : ℚ) / den * (2 : ℚ) ^ (-(la - ld - 53)) < (2 : ℚ) ^ (53 : ℕ) := by
    rw [← hfrac, div_lt_iff₀ hDq]
    constructor
    · intro h
      exact_mod_cast h
    · intro h
      exact_mod_cast h
  unfold exponent
  simp only [← hla, ← hld]
  by_cases ht : (scaled a den (la - ld - 53)).1 < 2 ^ 53 * (scaled a den (la - ld - 53)).2
  · rw [if_pos ht]
    exact ⟨le_of_lt hlow, htest.1 ht⟩
  · rw [if_neg ht]
    have hge : (2 : ℚ) ^ (53 : ℕ) ≤ (a : ℚ) / den * (2 : ℚ) ^ (-(la - ld - 53)) :=
      not_lt.1 (fun h => ht (htest.2 h))
    have e2 : (2 : ℚ) ^ (-(la - ld - 53 + 1)) = (2 : ℚ) ^ (-(la - ld - 53)) / 2 := by
      rw [eq_div_iff h2]
      have : (2 : ℚ) ^ (-(la - ld - 53 + 1)) * 2 =
          (2 : ℚ) ^ (-(la - ld - 53 + 1)) * (2 : ℚ) ^ (1 : ℤ) := by simp
      rw [this, ← zpow_add₀ h2]
      congr 1
      ring
    rw [e2]
    constructor
    · have : (2 : ℚ) ^ (52 : ℕ) = (2 : ℚ) ^ (53 : ℕ) / 2 := by norm_num
      rw [this, mul_div_assoc']
      exact div_le_div_of_nonneg_right hge (by norm_num)
    · have : (2 : ℚ) ^ (53 : ℕ) = (2 : ℚ) ^ (54 : ℕ) / 2 := by norm_num
      rw [this, mul_div_assoc']
      exact div_lt_div_of_pos_right hhigh (by norm_num)

end Float64

namespace Float64

/-- The rounding of a positive fraction: no value with a significand of at
most 53 digits is nearer. -/
theorem round_nearest_pos (a den : Nat) (ha : 0 < a) (hden : 0 < den) (M P : ℤ)
    (hM : |M| ≤ 2 ^ 53) :
    |(a : ℚ) / den -
        (nearestEven (scaled a den (exponent a den)).1 (scaled a den (exponent a den)).2 : ℚ) *
          (2 : ℚ) ^ exponent a den| ≤
      |(a : ℚ) / den - (M : ℚ) * (2 : ℚ) ^ P| := by
  obtain ⟨hs1, hs2⟩ := exponent_spec a den ha hden
  obtain ⟨hD, hfrac⟩ := scaled_spec a den (exponent a den) hden
  have hnear := nearestEven_spec (scaled a den (exponent a den)).1
    (scaled a den (exponent a den)).2 hD
  rw [hfrac] at hnear
  generalize nearestEven (scaled a den (exponent a den)).1 (scaled a den (exponent a den)).2 = m
    at hnear ⊢
  generalize exponent a den = p at hs1 hs2 hnear ⊢
  generalize (a : ℚ) / den = X at hs1 hs2 hnear ⊢
  have h2 : (2 : ℚ) ≠ 0 := two_ne_zero
  have hp : (0 : ℚ) < (2 : ℚ) ^ p := zpow_pos (by norm_num) p
  have hinv : (2 : ℚ) ^ (-p) * (2 : ℚ) ^ p = 1 := by
    rw [← zpow_add₀ h2]
    simp
  -- distances, scaled by `2 ^ p`
  have hscale : ∀ y : ℚ, |X - y * (2 : ℚ) ^ p| = |X * (2 : ℚ) ^ (-p) - y| * (2 : ℚ) ^ p := by
    intro y
    rw [← abs_of_pos hp, ← abs_mul, abs_of_pos hp, sub_mul, mul_assoc, hinv, mul_one]
  rw [hscale]
  by_cases hPp : p ≤ P
  · -- a multiple of `2 ^ p`
    have hk : (M : ℚ) * (2 : ℚ) ^ P = ((M * 2 ^ (P - p).toNat : ℤ) : ℚ) * (2 : ℚ) ^ p := by
      push_cast
      rw [mul_assoc, ← zpow_natCast, ← zpow_add₀ h2, Int.toNat_of_nonneg (by omega)]
      congr 2
      ring
    rw [hk, hscale]
    exact mul_le_mul_of_nonneg_right (hnear _) (le_of_lt hp)
  · -- a value below `2 ^ 52 * 2 ^ p`
    have hPlt : P ≤ p - 1 := by omega
    have hMq : (M : ℚ) ≤ (2 : ℚ) ^ (53 : ℕ) := by
      have : M ≤ 2 ^ 53 := le_trans (le_abs_self M) hM
      exact_mod_cast this
    have hP : (0 : ℚ) < (2 : ℚ) ^ P := zpow_pos (by norm_num) P
    have hle : (M : ℚ) * (2 : ℚ) ^ P ≤ (2 : ℚ) ^ (52 : ℕ) * (2 : ℚ) ^ p := by
      calc (M : ℚ) * (2 : ℚ) ^ P ≤ (2 : ℚ) ^ (53 : ℕ) * (2 : ℚ) ^ P :=
            mul_le_mul_of_nonneg_right hMq (le_of_lt hP)
        _ ≤ (2 : ℚ) ^ (53 : ℕ) * (2 : ℚ) ^ (p - 1) :=
            mul_le_mul_of_nonneg_left (zpow_le_zpow_right₀ (by norm_num) hPlt) (by positivity)
        _ = (2 : ℚ) ^ (52 : ℕ) * (2 : ℚ) ^ p := by
            have : (2 : ℚ) ^ p = (2 : ℚ) ^ (p - 1) * 2 := by
              have h1 : (2 : ℚ) ^ (p - 1) * 2 = (2 : ℚ) ^ (p - 1) * (2 : ℚ) ^ (1 : ℤ) := by simp
              rw [h1, ← zpow_add₀ h2]
              congr 1
              ring
            rw [this]
            ring
    have hX : (2 : ℚ) ^ (52 : ℕ) * (2 : ℚ) ^ p ≤ X := by
      have := mul_le_mul_of_nonneg_right hs1 (le_of_lt hp)
      rwa [mul_assoc, hinv, mul_one] at this
    have h52 := hnear (2 ^ 52 : ℤ)
    have h52' : |X * (2 : ℚ) ^ (-p) - ((2 ^ 52 : ℤ) : ℚ)| = X * (2 : ℚ) ^ (-p) - (2 : ℚ) ^ (52 : ℕ) := by
      push_cast
      exact abs_of_nonneg (by linarith)
    rw [h52'] at h52
    calc |X * (2 : ℚ) ^ (-p) - (m : ℚ)| * (2 : ℚ) ^ p
        ≤ (X * (2 : ℚ) ^ (-p) - (2 : ℚ) ^ (52 : ℕ)) * (2 : ℚ) ^ p :=
          mul_le_mul_of_nonneg_right h52 (le_of_lt hp)
      _ = X - (2 : ℚ) ^ (52 : ℕ) * (2 : ℚ) ^ p := by
          rw [sub_mul, mul_assoc, hinv, mul_one]
      _ ≤ X - (M : ℚ) * (2 : ℚ) ^ P := by linarith
      _ ≤ |X - (M : ℚ) * (2 : ℚ) ^ P| := le_abs_self _

theorem toRat_round_pos (num : ℤ) (den : Nat) (hnum : 0 < num) :
    toRat (round num den) =
      (nearestEven (scaled num.natAbs den (exponent num.natAbs den)).1
          (scaled num.natAbs den (exponent num.natAbs den)).2 : ℚ) *
        (2 : ℚ) ^ exponent num.natAbs den := by
  unfold round toRat
  rw [if_neg (ne_of_gt hnum)]
  simp only [if_neg (not_lt.2 (le_of_lt hnum))]
  push_cast
  rfl

theorem toRat_round_neg (num : ℤ) (den : Nat) (hnum : num < 0) :
    toRat (round num den) =
      -((nearestEven (scaled num.natAbs den (exponent num.natAbs den)).1
          (scaled num.natAbs den (exponent num.natAbs den)).2 : ℚ) *
        (2 : ℚ) ^ exponent num.natAbs den) := by
  unfold round toRat
  rw [if_neg (ne_of_lt hnum)]
  simp only [if_pos hnum]
  push_cast
  ring

/-- The rounding of a fraction is a nearest `float64`: no value with a
significand of at most 53 digits is nearer to the fraction. -/
theorem round_nearest (num : ℤ) (den : Nat) (hden : 0 < den) (M P : ℤ) (hM : |M| ≤ 2 ^ 53) :
    |(num : ℚ) / den - toRat (round num den)| ≤ |(num : ℚ) / den - (M : ℚ) * (2 : ℚ) ^ P| := by
  rcases lt_trichotomy num 0 with hneg | hzero | hpos
  · have ha : 0 < num.natAbs := Int.natAbs_pos.2 (ne_of_lt hneg)
    have hcast : (num : ℚ) = -((num.natAbs : ℕ) : ℚ) := by
      have : num = -((num.natAbs : ℕ) : ℤ) := by omega
      exact_mod_cast this
    have h := round_nearest_pos num.natAbs den ha hden (-M) P (by rwa [abs_neg])
    rw [toRat_round_neg num den hneg, hcast]
    have e1 : ∀ y : ℚ, |-(num.natAbs : ℚ) / den - -y| = |(num.natAbs : ℚ) / den - y| := by
      intro y
      rw [← abs_neg]
      congr 1
      ring
    rw [e1]
    have e2 : |-(num.natAbs : ℚ) / den - (M : ℚ) * (2 : ℚ) ^ P| =
        |(num.natAbs : ℚ) / den - ((-M : ℤ) : ℚ) * (2 : ℚ) ^ P| := by
      rw [← abs_neg]
      congr 1
      push_cast
      ring
    rw [e2]
    exact h
  · subst hzero
    simp [round, toRat]
  · have ha : 0 < num.natAbs := Int.natAbs_pos.2 (ne_of_gt hpos)
    have hcast : (num : ℚ) = ((num.natAbs : ℕ) : ℚ) := by
      rw [← Int.cast_natCast, Int.natAbs_of_nonneg (le_of_lt hpos)]
    have h := round_nearest_pos num.natAbs den ha hden M P hM
    rw [toRat_round_pos num den hpos, hcast]
    exact h

/-- A fraction that is a `float64` is its own rounding. -/
theorem round_exact (num : ℤ) (den : Nat) (hden : 0 < den) (M P : ℤ) (hM : |M| ≤ 2 ^ 53)
    (h : (num : ℚ) / den = (M : ℚ) * (2 : ℚ) ^ P) : toRat (round num den) = (num : ℚ) / den := by
  have := round_nearest num den hden M P hM
  rw [← h, sub_self, abs_zero] at this
  have h0 := abs_nonneg ((num : ℚ) / den - toRat (round num den))
  have h1 : (num : ℚ) / den - toRat (round num den) = 0 := abs_eq_zero.1 (le_antisymm this h0)
  linarith

/-- The rounding of a fraction does not exceed a `float64` above the fraction. -/
theorem round_le (num : ℤ) (den : Nat) (hden : 0 < den) (M P : ℤ) (hM : |M| ≤ 2 ^ 53)
    (h : (num : ℚ) / den ≤ (M : ℚ) * (2 : ℚ) ^ P) :
    toRat (round num den) ≤ (M : ℚ) * (2 : ℚ) ^ P := by
  by_contra hlt
  have hlt := not_le.1 hlt
  have := round_nearest num den hden M P hM
  rw [abs_sub_comm, abs_of_nonneg (by linarith), abs_sub_comm, abs_of_nonneg (by linarith)] at this
  linarith

/-- The rounding of a fraction is not below a `float64` under the fraction. -/
theorem le_round (num : ℤ) (den : Nat) (hden : 0 < den) (M P : ℤ) (hM : |M| ≤ 2 ^ 53)
    (h : (M : ℚ) * (2 : ℚ) ^ P ≤ (num : ℚ) / den) :
    (M : ℚ) * (2 : ℚ) ^ P ≤ toRat (round num den) := by
  by_contra hlt
  have hlt := not_le.1 hlt
  have := round_nearest num den hden M P hM
  rw [abs_of_nonneg (by linarith), abs_of_nonneg (by linarith)] at this
  linarith

theorem toFrac_spec (f : Float64) :
    0 < (toFrac f).2 ∧ ((toFrac f).1 : ℚ) / ((toFrac f).2 : ℚ) = toRat f := by
  unfold toFrac toRat
  by_cases hp : 0 ≤ f.exp
  · rw [if_pos hp]
    refine ⟨Nat.one_pos, ?_⟩
    have h2 : (2 : ℚ) ^ f.exp = (2 : ℚ) ^ f.exp.toNat := by
      rw [← zpow_natCast, Int.toNat_of_nonneg hp]
    simp [h2]
  · rw [if_neg hp]
    refine ⟨by positivity, ?_⟩
    have h2 : (2 : ℚ) ^ f.exp = ((2 : ℚ) ^ (-f.exp).toNat)⁻¹ := by
      rw [← zpow_natCast, Int.toNat_of_nonneg (by omega), zpow_neg, inv_inv]
    simp only [Nat.cast_pow, Nat.cast_ofNat]
    rw [h2, div_eq_mul_inv]

theorem round_neg (num : ℤ) (den : Nat) : round (-num) den = neg (round num den) := by
  unfold round neg
  by_cases h0 : num = 0
  · simp [h0]
  · have h0' : -num ≠ 0 := by omega
    rw [if_neg h0, if_neg h0']
    simp only [Int.natAbs_neg]
    by_cases hlt : num < 0
    · have : ¬ (-num < 0) := by omega
      simp [hlt, this]
    · have : -num < 0 := by omega
      simp [hlt, this]

theorem toFrac_neg (f : Float64) : toFrac (neg f) = (-(toFrac f).1, (toFrac f).2) := by
  unfold toFrac neg
  by_cases hp : 0 ≤ f.exp
  · simp [hp]
  · simp [hp]

theorem ofInt_neg (n : ℤ) : ofInt (-n) = neg (ofInt n) :=
  round_neg n 1

theorem add_neg (f g : Float64) : add (neg f) (neg g) = neg (add f g) := by
  unfold add
  rw [toFrac_neg, toFrac_neg, ← round_neg]
  congr 1
  simp only
  ring

theorem div_neg (f g : Float64) : div (neg f) g = neg (div f g) := by
  unfold div
  rw [toFrac_neg, ← round_neg]
  congr 1
  simp only
  ring

theorem toInt_neg (f : Float64) : toInt (neg f) = -toInt f := by
  unfold toInt
  rw [toFrac_neg]
  exact Int.neg_tdiv _ _

/-- The conversion to an integer of a value between `k` and `k + 1`, for `k`
not negative. -/
theorem toInt_eq (f : Float64) (k : ℤ) (hk : 0 ≤ k) (h1 : (k : ℚ) ≤ toRat f)
    (h2 : toRat f < (k : ℚ) + 1) : toInt f = k := by
  obtain ⟨hD, hfrac⟩ := toFrac_spec f
  unfold toInt
  have hDq : (0 : ℚ) < ((toFrac f).2 : ℚ) := by exact_mod_cast hD
  rw [← hfrac] at h1 h2
  rw [le_div_iff₀ hDq] at h1
  rw [div_lt_iff₀ hDq] at h2
  have h1' : k * ((toFrac f).2 : ℤ) ≤ (toFrac f).1 := by exact_mod_cast h1
  have h2' : (toFrac f).1 < (k + 1) * ((toFrac f).2 : ℤ) := by exact_mod_cast h2
  have hDz : (0 : ℤ) < ((toFrac f).2 : ℤ) := by exact_mod_cast hD
  have hnum : 0 ≤ (toFrac f).1 := le_trans (mul_nonneg hk (le_of_lt hDz)) h1'
  rw [Int.tdiv_eq_ediv hnum (le_of_lt hDz)]
  apply le_antisymm
  · have := (Int.ediv_lt_iff_lt_mul hDz).2 h2'
    omega
  · exact (Int.le_ediv_iff_mul_le hDz).2 h1'

/-- The conversion to an integer of a value that is an integer. -/
theorem toInt_of_int (f : Float64) (k : ℤ) (h : toRat f = (k : ℚ)) : toInt f = k := by
  obtain ⟨hD, hfrac⟩ := toFrac_spec f
  unfold toInt
  have hDq : (0 : ℚ) < ((toFrac f).2 : ℚ) := by exact_mod_cast hD
  rw [← hfrac, div_eq_iff (ne_of_gt hDq)] at h
  have h' : (toFrac f).1 = k * ((toFrac f).2 : ℤ) := by exact_mod_cast h
  rw [h']
  exact Int.mul_tdiv_cancel _ (by exact_mod_cast (ne_of_gt hD))

/-- The conversion of an integer of at most 53 binary digits is exact. -/
theorem toRat_ofInt (n : ℤ) (h : |n| ≤ 2 ^ 53) : toRat (ofInt n) = (n : ℚ) := by
  have := round_exact n 1 Nat.one_pos n 0 h (by simp)
  simpa [ofInt] using this

/-- The sum of two values of `float64` is the rounding of their sum. -/
theorem add_spec (f g : Float64) :
    ∃ (num : ℤ) (den : Nat), 0 < den ∧ add f g = round num den ∧
      (num : ℚ) / den = toRat f + toRat g := by
  obtain ⟨hDf, hf⟩ := toFrac_spec f
  obtain ⟨hDg, hg⟩ := toFrac_spec g
  refine ⟨_, _, Nat.mul_pos hDf hDg, rfl, ?_⟩
  have h1 : ((toFrac f).2 : ℚ) ≠ 0 := by exact_mod_cast (ne_of_gt hDf)
  have h2 : ((toFrac g).2 : ℚ) ≠ 0 := by exact_mod_cast (ne_of_gt hDg)
  rw [← hf, ← hg]
  push_cast
  field_simp

end Float64

/-! ## The expiry of a worker -/

set_option maxRecDepth 100000 in
theorem toFrac_ofInt_billion :
    Float64.toFrac (Float64.ofInt 1000000000) = (8388608000000000, 8388608) := by
  decide

theorem tmod_neg_left (a b : ℤ) : Int.tmod (-a) b = -Int.tmod a b := by
  have h1 := Int.tdiv_add_tmod (-a) b
  have h2 := Int.tdiv_add_tmod a b
  rw [Int.neg_tdiv] at h1
  have : b * -a.tdiv b = -(b * a.tdiv b) := by ring
  rw [this] at h1
  omega

theorem Seconds_neg (d : ℤ) : Seconds (-d) = Float64.neg (Seconds d) := by
  unfold Seconds
  simp only [Int.neg_tdiv, tmod_neg_left, Float64.ofInt_neg, Float64.div_neg,
    Float64.add_neg]

/-- The quotient of a `float64` by `1e9` is the rounding of the quotient. -/
theorem div_billion_spec (f : Float64) :
    ∃ (num : ℤ) (den : Nat), 0 < den ∧
      Float64.div f (Float64.ofInt 1000000000) = Float64.round num den ∧
      (num : ℚ) / den = Float64.toRat f / 1000000000 := by
  obtain ⟨hD, hf⟩ := Float64.toFrac_spec f
  refine ⟨(Float64.toFrac f).1 * 8388608, (Float64.toFrac f).2 * 8388608000000000,
    Nat.mul_pos hD (by norm_num), ?_, ?_⟩
  · unfold Float64.div
    rw [toFrac_ofInt_billion]
    have hs : Int.sign 8388608000000000 = 1 := rfl
    simp only [Int.natAbs_ofNat, hs, mul_one]
    rfl
  · have h1 : ((Float64.toFrac f).2 : ℚ) ≠ 0 := by exact_mod_cast (ne_of_gt hD)
    rw [← hf]
    push_cast
    field_simp
    ring

/-- A duration of less than `2 ^ 24` seconds, not negative, has its whole
seconds as the integer part of `Seconds`. -/
theorem toInt_Seconds_of_nonneg (d : ℤ) (h0 : 0 ≤ d) (h1 : d < 2 ^ 24 * 1000000000) :
    Float64.toInt (Seconds d) = d / 1000000000 := by
  have hsec0 : 0 ≤ d / 1000000000 := Int.ediv_nonneg h0 (by norm_num)
  have hsec1 : d / 1000000000 < 2 ^ 24 := by
    rw [Int.ediv_lt_iff_lt_mul (by norm_num)]
    exact h1
  have hns0 : 0 ≤ d % 1000000000 := Int.emod_nonneg _ (by norm_num)
  have hns1 : d % 1000000000 < 1000000000 := Int.emod_lt_of_pos _ (by norm_num)
  unfold Seconds
  simp only [Second]
  rw [Int.tdiv_eq_ediv h0 (by norm_num), Int.tmod_eq_emod h0 (by norm_num)]
  generalize d / 1000000000 = sec at hsec0 hsec1 ⊢
  generalize d % 1000000000 = nsec at hns0 hns1 ⊢
  -- the fraction of a second
  obtain ⟨N, D, hD, hY, hx⟩ := div_billion_spec (Float64.ofInt nsec)
  rw [Float64.toRat_ofInt nsec (by rw [abs_of_nonneg hns0]; omega)] at hx
  rw [hY]
  have hnsq0 : (0 : ℚ) ≤ (nsec : ℚ) := by exact_mod_cast hns0
  have hnsq1 : (nsec : ℚ) ≤ 999999999 := by
    have : nsec ≤ 999999999 := by omega
    exact_mod_cast this
  have hy0 : (0 : ℚ) ≤ Float64.toRat (Float64.round N D) := by
    have := Float64.le_round N D hD 0 0 (by norm_num) (by
      rw [hx]
      simp only [Int.cast_zero, zero_mul]
      positivity)
    simpa using this
  have hy1 : Float64.toRat (Float64.round N D) ≤ 1099511626751 / 1099511627776 := by
    have := Float64.round_le N D hD 1099511626751 (-40) (by norm_num) (by
      rw [hx, zpow_neg]
      norm_num
      rw [div_le_div_iff₀ (by norm_num) (by norm_num)]
      linarith)
    rw [zpow_neg] at this
    norm_num at this
    linarith
  -- the sum
  obtain ⟨N2, D2, hD2, hF, hz⟩ := Float64.add_spec (Float64.ofInt sec) (Float64.round N D)
  rw [Float64.toRat_ofInt sec (by rw [abs_of_nonneg hsec0]; omega)] at hz
  rw [hF]
  have hsq0 : (0 : ℚ) ≤ (sec : ℚ) := by exact_mod_cast hsec0
  have hf0 : (sec : ℚ) ≤ Float64.toRat (Float64.round N2 D2) := by
    have := Float64.le_round N2 D2 hD2 sec 0 (by rw [abs_of_nonneg hsec0]; omega) (by
      rw [hz]
      simp only [zpow_zero, mul_one]
      linarith)
    simpa using this
  have hf1 : Float64.toRat (Float64.round N2 D2) < (sec : ℚ) + 1 := by
    by_contra hge
    have hge := not_lt.1 hge
    have hM : |(sec + 1) * 2 ^ 29 - 1| ≤ (2 : ℤ) ^ 53 := by
      rw [abs_of_nonneg (by nlinarith)]
      nlinarith
    have hnear := Float64.round_nearest N2 D2 hD2 ((sec + 1) * 2 ^ 29 - 1) (-29) hM
    rw [hz] at hnear
    have hr : (((sec + 1) * 2 ^ 29 - 1 : ℤ) : ℚ) * (2 : ℚ) ^ (-29 : ℤ) =
        (sec : ℚ) + 1 - 1 / 536870912 := by
      rw [zpow_neg]
      push_cast
      norm_num
      ring
    rw [hr] at hnear
    have hleft : (sec : ℚ) + 1 - ((sec : ℚ) + Float64.toRat (Float64.round N D)) ≤
        |(sec : ℚ) + Float64.toRat (Float64.round N D) - Float64.toRat (Float64.round N2 D2)| := by
      rw [abs_sub_comm]
      exact le_trans (by linarith) (le_abs_self _)
    have hright : |(sec : ℚ) + Float64.toRat (Float64.round N D) -
          ((sec : ℚ) + 1 - 1 / 536870912)| <
        (sec : ℚ) + 1 - ((sec : ℚ) + Float64.toRat (Float64.round N D)) := by
      rw [abs_lt]
      constructor
      · linarith
      · have : (1 : ℚ) / 536870912 - 1025 / 1099511627776 < 1025 / 1099511627776 := by norm_num
        have h3 : (1 : ℚ) - 1099511626751 / 1099511627776 = 1025 / 1099511627776 := by norm_num
        linarith
    linarith
  exact Float64.toInt_eq _ sec hsec0 hf0 hf1

/-- A whole number of seconds is the value of `Seconds`, exactly. -/
theorem toInt_Seconds_whole (k : ℤ) (hk : |k| ≤ 2 ^ 53) :
    Float64.toInt (Seconds (k * 1000000000)) = k := by
  have hdiv : Int.tdiv (k * 1000000000) 1000000000 = k := Int.mul_tdiv_cancel _ (by norm_num)
  have hmod : Int.tmod (k * 1000000000) 1000000000 = 0 := by
    have := Int.tdiv_add_tmod (k * 1000000000) 1000000000
    rw [hdiv] at this
    omega
  unfold Seconds
  simp only [Second]
  rw [hdiv, hmod]
  have hzero : Float64.div (Float64.ofInt 0) (Float64.ofInt 1000000000) =
      { mant := 0, exp := 0 } := by
    unfold Float64.div
    rw [toFrac_ofInt_billion]
    simp [Float64.ofInt, Float64.round, Float64.toFrac]
  rw [hzero]
  obtain ⟨N, D, hD, hF, hz⟩ := Float64.add_spec (Float64.ofInt k) { mant := 0, exp := 0 }
  rw [Float64.toRat_ofInt k hk] at hz
  have h0 : Float64.toRat { mant := 0, exp := 0 } = 0 := by simp [Float64.toRat]
  rw [h0, add_zero] at hz
  rw [hF]
  apply Float64.toInt_of_int
  rw [Float64.round_exact N D hD k 0 hk (by simpa using hz), hz]

/-- A duration of less than `2 ^ 24` seconds, of either sign, has its whole
seconds, the fraction discarded, as the integer part of `Seconds`. -/
theorem toInt_Seconds (d : ℤ) (h : |d| < 2 ^ 24 * 1000000000) :
    Float64.toInt (Seconds d) = Int.tdiv d 1000000000 := by
  rcases le_or_lt 0 d with h0 | h0
  · rw [abs_of_nonneg h0] at h
    rw [toInt_Seconds_of_nonneg d h0 h, Int.tdiv_eq_ediv h0 (by norm_num)]
  · rw [abs_of_neg h0] at h
    have hd : d = -(-d) := by ring
    rw [hd, Seconds_neg, Float64.toInt_neg, Int.neg_tdiv,
      toInt_Seconds_of_nonneg (-d) (by omega) h, Int.tdiv_eq_ediv (by omega) (by norm_num)]

namespace Db

theorem expires_of_ne_zero (ttl : ℤ) (h : ttl ≠ 0) :
    expires ttl =
      "NOW() + '" ++ sprintfD (Float64.toInt (Seconds ttl)) ++ " second'::INTERVAL" := by
  unfold expires
  simp [h]

theorem expires_ne_null (s : String) : "NOW() + '" ++ s ++ " second'::INTERVAL" ≠ "NULL" := by
  intro h
  have := congrArg String.data h
  simp [String.data_append] at this

set_option maxRecDepth 100000 in
/-- C30, as stated, fails: a ttl of 16777216.999999999 seconds is 16777216
whole seconds plus a fraction, but the `float64` sum of `Seconds` rounds up to
16777217, and that is the count of seconds in the expression. -/
theorem worker_expiry_rounds_up :
    (16777216999999999 : ℤ) = 16777216 * 1000000000 + 999999999 ∧
      Int.tdiv 16777216999999999 1000000000 = 16777216 ∧
      expires 16777216999999999 = "NOW() + '16777217 second'::INTERVAL" := by
  decide

/-- C30 (amended): the expression is "NULL" if and only if `ttl` is 0; for
every other `ttl` it is `NOW() + '<n> second'::INTERVAL` with
`n = int(ttl.Seconds())`. For a `ttl` of less than `2 ^ 24` seconds, of either
sign, `n` is the length of `ttl` in seconds with the fraction discarded; so
`n` is 0 for `0 < ttl < 1s`. For a `ttl` of `k` whole seconds, of any length,
`n` is `k`. -/
theorem worker_expiry (ttl : ℤ) (hlo : -2 ^ 63 ≤ ttl) (hhi : ttl < 2 ^ 63) :
    (expires ttl = "NULL" ↔ ttl = 0) ∧
      (ttl ≠ 0 →
        expires ttl =
          "NOW() + '" ++ sprintfD (Float64.toInt (Seconds ttl)) ++ " second'::INTERVAL") ∧
      (ttl ≠ 0 → |ttl| < 2 ^ 24 * 1000000000 →
        expires ttl =
          "NOW() + '" ++ sprintfD (Int.tdiv ttl 1000000000) ++ " second'::INTERVAL") ∧
      (0 < ttl → ttl < 1000000000 → expires ttl = "NOW() + '0 second'::INTERVAL") ∧
      (∀ k, ttl = k * 1000000000 → Float64.toInt (Seconds ttl) = k) := by
  refine ⟨⟨?_, ?_⟩, expires_of_ne_zero ttl, ?_, ?_, ?_⟩
  · intro h
    by_contra hne
    rw [expires_of_ne_zero ttl hne] at h
    exact expires_ne_null _ h
  · intro h
    subst h
    rfl
  · intro hne hsmall
    rw [expires_of_ne_zero ttl hne, toInt_Seconds ttl hsmall]
  · intro h0 h1
    have hsmall : |ttl| < 2 ^ 24 * 1000000000 := by
      rw [abs_of_pos h0]
      omega
    rw [expires_of_ne_zero ttl (ne_of_gt h0), toInt_Seconds ttl hsmall,
      Int.tdiv_eq_ediv (le_of_lt h0) (by norm_num), Int.ediv_eq_zero_of_lt (le_of_lt h0) h1]
    rfl
  · intro k hk
    subst hk
    apply toInt_Seconds_whole
    rw [abs_le]
    constructor <;> omega

/-- C30 (amended), at samples: a ttl of 30.5 seconds expires in 30 seconds, a
ttl of half a second at once, and a ttl of 0 never. -/
theorem worker_expiry_witness :
    expires 30500000000 = "NOW() + '30 second'::INTERVAL" ∧
      expires 500000000 = "NOW() + '0 second'::INTERVAL" ∧
      (expires 0 = "NULL" ↔ (0 : ℤ) = 0) :=
  ⟨((worker_expiry 30500000000 (by decide) (by decide)).2.2.1 (by decide) (by decide)).trans
      (by decide),
    (worker_expiry 500000000 (by decide) (by decide)).2.2.2.1 (by decide) (by decide),
    (worker_expiry 0 (by decide) (by decide)).1⟩

end Db

end Concourse
